import Mathlib

/-! The FreeType font driver `ftfont.c`.

A shallow embedding of `src/ftfont.c`.  The C globals (`fc_initialized`,
`ft_library`, `ft_face_cache`, `ftfont_generic_family_list`, the `fc_charset`
members of `fc_charset_table`) are the fields of `FtState`; a function that
touches them takes a state and returns the new one.  A Lisp object that the C
code updates in place through a pointer (a cache cons, an element of the
generic family list) lives in the state and is referred to by its key.

FreeType, fontconfig and libotf are external libraries: what their calls
answer is given by a `Provider`, a family of oracles indexed by the number of
library calls made so far, and the calls that consume an answer or change the
handles are appended to `FtState.log`.  The macros, functions and variables of
the rest of Emacs that the driver uses are the fields of a `Host`.

A function whose C original can reach a point from which C defines no result
returns an `Option` of its result, `none` standing for that point: an
`xassert` whose condition fails (the macro is defined outside this file; with
it compiled in the run stops there, without it the code goes on with a value of
the wrong type), or a library call that is handed a pointer to freed memory.
-/

namespace Ftfont

/-! ## Lisp objects -/

/-- The Lisp values the driver looks at: `nil`, symbols, fixnums, strings,
conses and vectors (a vector is given by the list of its elements).  Symbols
are interned, so `EQ` on symbols is equality of names. -/
inductive Lisp_Object where
  | nil : Lisp_Object
  | sym (name : String) : Lisp_Object
  | int (n : Int) : Lisp_Object
  | str (s : String) : Lisp_Object
  | cons (car cdr : Lisp_Object) : Lisp_Object
  | vec (elems : Lisp_Object) : Lisp_Object
  deriving DecidableEq, Repr, Inhabited

open Lisp_Object

def Qnil : Lisp_Object := nil
def Qt : Lisp_Object := sym "t"
def QCfont_entity : Lisp_Object := sym ":font-entity"

def NILP (x : Lisp_Object) : Bool := x == nil

def CONSP : Lisp_Object → Bool
  | cons _ _ => true
  | _ => false

def INTEGERP : Lisp_Object → Bool
  | int _ => true
  | _ => false

def SYMBOLP : Lisp_Object → Bool
  | nil => true
  | sym _ => true
  | _ => false

def XCAR : Lisp_Object → Lisp_Object
  | cons a _ => a
  | _ => nil

def XCDR : Lisp_Object → Lisp_Object
  | cons _ d => d
  | _ => nil

def VECTORP : Lisp_Object → Bool
  | vec _ => true
  | _ => false

/-- `NATNUMP`: a non-negative fixnum. -/
def NATNUMP : Lisp_Object → Bool
  | int n => 0 ≤ n
  | _ => false

/-- `CHARACTERP`: a fixnum in the character range `0 .. MAX_CHAR`. -/
def CHARACTERP : Lisp_Object → Bool
  | int n => 0 ≤ n && n ≤ 0x3FFFFF
  | _ => false

/-- The elements of a proper list, or of a vector. -/
def Lisp_Object.toList : Lisp_Object → List Lisp_Object
  | cons a d => a :: d.toList
  | vec l => l.toList
  | _ => []

/-- `XINT`; only ever applied to fixnums by the driver (0 elsewhere). -/
def XINT : Lisp_Object → Int
  | int n => n
  | _ => 0

/-- `EQ`: identity.  Symbols, fixnums and `nil` are identical when equal;
strings and conses are compared structurally here, which is how the keys of
the `equal` hash table behave. -/
def EQ (a b : Lisp_Object) : Bool := a == b

/-- `assq_no_quit (key, list)`: the first element of `list` that is a cons
whose car is `key`, or `nil`. -/
def assq_no_quit (key : Lisp_Object) : Lisp_Object → Lisp_Object
  | cons (cons k v) rest => if EQ k key then cons k v else assq_no_quit key rest
  | cons _ rest => assq_no_quit key rest
  | _ => nil

/-- A font spec or font entity: the property slots `FONT_TYPE_INDEX` ..
`FONT_EXTRA_INDEX` of the Lisp vector (`font.h`). -/
structure Font where
  type : Lisp_Object := nil
  foundry : Lisp_Object := nil
  family : Lisp_Object := nil
  adstyle : Lisp_Object := nil
  registry : Lisp_Object := nil
  weight : Lisp_Object := nil
  slant : Lisp_Object := nil
  width : Lisp_Object := nil
  size : Lisp_Object := nil
  dpi : Lisp_Object := nil
  spacing : Lisp_Object := nil
  avgwidth : Lisp_Object := nil
  extra : Lisp_Object := nil
  deriving DecidableEq, Repr, Inhabited

/-! ## C integers -/

/-- Conversion to `unsigned int` (32 bits). -/
def c_uint (x : Int) : Nat := (x % 4294967296).toNat

/-- Conversion of an `unsigned int` value to `int` (32 bits, two's complement). -/
def c_int (n : Nat) : Int :=
  if n % 4294967296 < 2147483648 then ((n % 4294967296 : Nat) : Int)
  else ((n % 4294967296 : Nat) : Int) - 4294967296

/-! ## The external libraries -/

/-- A fontconfig charset: the code points it holds. -/
abbrev FcCharSet := List Nat

/-- A fontconfig pattern, restricted to the objects the driver reads or
writes.  An absent object is `none`. -/
structure FcPattern where
  file : Option String := none
  index : Option Int := none
  foundry : Option String := none
  family : Option String := none
  style : Option String := none
  weight : Option Int := none
  slant : Option Int := none
  width : Option Int := none
  pixel_size : Option Int := none
  spacing : Option Int := none
  dpi : Option Int := none
  scalable : Option Bool := none
  capability : Option String := none
  fontformat : Option String := none
  charset : Option FcCharSet := none
  lang : Option (List String) := none
  deriving DecidableEq, Repr, Inhabited

/-- The face data FreeType reports for a font file (design units), and the
scaled metrics of a size (26.6 fixed point). -/
structure FT_FaceInfo where
  units_per_EM : Int := 0
  ascender : Int := 0
  descender : Int := 0
  height : Int := 0
  max_advance_width : Int := 0
  underline_position : Int := 0
  underline_thickness : Int := 0
  sfnt : Bool := false
  size_ascender : Int := 0
  size_descender : Int := 0
  size_height : Int := 0
  size_max_advance : Int := 0
  deriving DecidableEq, Repr, Inhabited

/-- One call into FreeType, fontconfig or libotf. -/
inductive LibCall where
  | FT_Init_FreeType
  | FT_New_Face (file : String) (index : Int)
  | FT_Done_Face (face : Option Nat)
  | FT_New_Size (face : Nat)
  | FT_Activate_Size (size : Nat)
  | FT_Done_Size (size : Nat)
  | FT_Set_Pixel_Sizes (face : Nat) (size : Nat)
  | FT_Load_Char (face : Nat) (c : Nat)
  | OTF_close (otf : Nat)
  | FcInit
  | FcPatternBuild (file : String) (index : Int)
  | FcObjectSetBuild (objects : List String)
  | FcFontList (pat : FcPattern) (objects : List String)
  | FcCharSetCreate
  | FcCharSetAddChar (c : Nat)
  | FcCharSetDestroy
  | FcPatternDuplicate
  | FcConfigSubstitute
  | FcDefaultSubstitute
  | FcFontMatch (pat : FcPattern)
  | FcLangSetCreate
  | FcLangSetAdd (lang : String)
  | FcPatternCreate
  | FcPatternAddString (object : String) (s : String)
  | FcPatternAddCharSet
  | FcPatternAddLangSet
  | FcPatternAddDouble (object : String) (d : Int)
  | FcPatternAddBool (object : String) (b : Bool)
  | FcObjectSetAdd (object : String)
  | malloc (count : Int)
  | OTF_open (file : String)
  | OTF_check_features (file : String) (gsubp : Bool) (script langsys : Nat)
      (features : List Nat)
  | FT_Get_BDF_Property (face : Nat) (name : String)
  deriving DecidableEq, Repr

/-- What the libraries answer.  The first argument of every oracle is the
number of library calls made before this one, so an answer may change from one
call to the next.  `true` means the call succeeds.  `fc_ok` answers for the
calls that have no oracle of their own (allocations and additions, which fail
only for lack of memory); `FT_Get_BDF_Property` gives the value of an integer
property, if the font has it. -/
structure Provider where
  FT_Init_FreeType : Nat → Bool
  FT_New_Face : Nat → String → Int → Bool
  FT_New_Size : Nat → String → Int → Bool
  FT_Activate_Size : Nat → String → Int → Bool
  FT_Set_Pixel_Sizes : Nat → String → Int → Nat → Bool
  face_info : String → Int → Nat → FT_FaceInfo
  FT_Load_Char : Nat → String → Int → Nat → Option Int
  FcPatternBuild : Nat → Bool
  FcObjectSetBuild : Nat → Bool
  FcFontList : Nat → FcPattern → List String → Option (List FcPattern)
  FcCharSetCreate : Nat → Bool
  FcCharSetAddChar : Nat → Bool
  FcPatternDuplicate : Nat → Bool
  FcFontMatch : Nat → FcPattern → Option FcPattern
  fc_ok : Nat → LibCall → Bool
  OTF_open : Nat → String → Bool
  OTF_check_features : Nat → String → Bool → Nat → Nat → List Nat → Int
  FT_Get_BDF_Property : Nat → String → Int → String → Option Int

/-- An open `FT_Face`: its handle, the file it was opened from, and
`face->size`, the active size. -/
structure FT_FaceRec where
  handle : Nat
  file : String
  index : Int
  size : Option Nat
  deriving DecidableEq, Repr

/-! ## The driver state -/

/-- The C struct `ftfont_cache_data`: `none` is a null pointer. -/
structure ftfont_cache_data where
  ft_face : Option Nat := none
  fc_charset : Option FcCharSet := none
  deriving DecidableEq, Repr, Inhabited

/-- A value of `ft_face_cache`: the cons `(ENTITY . SAVE-VALUE)`.  `integer`
and `pointer` are the members of the save value; `integer` is the usage
counter of the face. -/
structure CacheCons where
  entity : Option Font := none
  integer : Int := 0
  pointer : ftfont_cache_data := {}
  deriving DecidableEq, Repr, Inhabited

/-- The globals of `ftfont.c` together with the handles the libraries have
given out (`faces` and `sizes`, newest first; `sizes` pairs a size handle with
the face it belongs to) and the log of library calls (oldest first). -/
structure FtState where
  fc_initialized : Bool := false
  ft_library : Bool := false
  ft_face_cache : Option (List (Lisp_Object × CacheCons)) := none
  ftfont_generic_family_list : Lisp_Object := nil
  fc_charset_memo : List (Nat × FcCharSet) := []
  faces : List FT_FaceRec := []
  sizes : List (Nat × Nat) := []
  next : Nat := 1
  log : List LibCall := []
  deriving DecidableEq, Repr

/-- The oracle index of the next library call. -/
def FtState.clock (st : FtState) : Nat := st.log.length

def FtState.call (st : FtState) (c : LibCall) : FtState :=
  { st with log := st.log ++ [c] }

/-- `Fgethash (key, ft_face_cache, Qnil)` on the `equal` hash table. -/
def Fgethash (key : Lisp_Object) : List (Lisp_Object × CacheCons) → Option CacheCons
  | [] => none
  | (k, v) :: rest => if k = key then some v else Fgethash key rest

/-- `Fputhash (key, value, ft_face_cache)`, also used for the writes the C
code makes through the pointer to a stored cons. -/
def Fputhash (key : Lisp_Object) (v : CacheCons) :
    List (Lisp_Object × CacheCons) → List (Lisp_Object × CacheCons)
  | [] => [(key, v)]
  | (k, w) :: rest => if k = key then (k, v) :: rest else (k, w) :: Fputhash key v rest

/-- The cache cons stored for `key`, if any. -/
def FtState.entry (st : FtState) (key : Lisp_Object) : Option CacheCons :=
  match st.ft_face_cache with
  | none => none
  | some tbl => Fgethash key tbl

/-- Write through the pointer to the cache cons of `key`. -/
def FtState.setEntry (st : FtState) (key : Lisp_Object) (v : CacheCons) : FtState :=
  { st with ft_face_cache := some (Fputhash key v (st.ft_face_cache.getD [])) }

/-! ### FreeType handles -/

/-- `FT_New_Face` succeeding: a fresh face handle with a fresh default size,
which is the active one. -/
def FT_New_Face_ok (file : String) (index : Int) (st : FtState) : Nat × FtState :=
  (st.next,
   { st with
     faces := { handle := st.next, file := file, index := index,
                size := some (st.next + 1) } :: st.faces,
     sizes := (st.next + 1, st.next) :: st.sizes,
     next := st.next + 2 })

/-- `FT_Done_Face`: the face and all its sizes are gone.  A null face is an
error with no effect. -/
def FT_Done_Face (face : Option Nat) (st : FtState) : FtState :=
  let st := st.call (.FT_Done_Face face)
  match face with
  | none => st
  | some h =>
    { st with
      faces := st.faces.filter (fun f => f.handle != h),
      sizes := st.sizes.filter (fun s => s.2 != h) }

/-- `FT_New_Size` succeeding: a fresh size of the face, not yet active. -/
def FT_New_Size_ok (face : Nat) (st : FtState) : Nat × FtState :=
  (st.next, { st with sizes := (st.next, face) :: st.sizes, next := st.next + 1 })

/-- `FT_Activate_Size` succeeding: `size->face->size = size`. -/
def FT_Activate_Size_ok (size : Nat) (st : FtState) : FtState :=
  match st.sizes.find? (fun s => s.1 == size) with
  | none => st
  | some (_, face) =>
    { st with
      faces := st.faces.map
        (fun f => if f.handle == face then { f with size := some size } else f) }

/-- What `FT_Done_Size` does to a size that is alive: the size is gone; if it
was the active size of its face, the oldest remaining size of the face (if
any) becomes active. -/
def FT_Done_Size_live (size : Nat) (st : FtState) : FtState :=
  let st := st.call (.FT_Done_Size size)
  match st.sizes.find? (fun s => s.1 == size) with
  | none => st
  | some (_, face) =>
    let sizes := st.sizes.filter (fun s => s.1 != size)
    { st with
      sizes := sizes,
      faces := st.faces.map (fun f =>
        if f.handle == face && f.size == some size then
          { f with size := ((sizes.filter (fun s => s.2 == face)).getLast?).map Prod.fst }
        else f) }

/-- The face a size belongs to (`size->face`). -/
def FtState.faceOfSize (st : FtState) (size : Nat) : Option Nat :=
  (st.sizes.find? (fun s => s.1 == size)).map Prod.snd

/-- Whether a face handle is open. -/
def FtState.faceOpen (st : FtState) (face : Nat) : Bool :=
  st.faces.any (fun f => f.handle == face)

/-- Whether a size handle is alive. -/
def FtState.sizeAlive (st : FtState) (size : Nat) : Bool :=
  st.sizes.any (fun s => s.1 == size)

/-- The active size of an open face (`face->size`). -/
def FtState.activeSize (st : FtState) (face : Nat) : Option Nat :=
  (st.faces.find? (fun f => f.handle == face)).bind (fun f => f.size)

/-- `FT_Done_Size (size)`.  The argument is a pointer: when the size it
pointed to has been freed already, by an earlier `FT_Done_Size` or together
with its face by `FT_Done_Face`, the call works on freed memory and C defines
no result, which is `none` here. -/
def FT_Done_Size (size : Nat) (st : FtState) : Option FtState :=
  if st.sizeAlive size then some (FT_Done_Size_live size st) else none

/-! ## The face and charset cache -/

inductive ftfont_cache_for where
  | FTFONT_CACHE_FOR_FACE
  | FTFONT_CACHE_FOR_CHARSET
  | FTFONT_CACHE_FOR_ENTITY
  deriving DecidableEq, Repr

open ftfont_cache_for

/-- The first argument of `ftfont_lookup_cache`: a font entity
(`FONT_ENTITY_P (key)`) or a `(FILE . INDEX)` key. -/
inductive LookupKey where
  | entity (e : Font)
  | key (k : Lisp_Object)
  deriving DecidableEq, Repr

/-- `SDATA` of a string (the name for a symbol). -/
def SDATA : Lisp_Object → String
  | str s => s
  | sym s => s
  | _ => ""

/-- The charset branch of `ftfont_lookup_cache` (lines 413-442): what is
stored in `cache_data->fc_charset`, and the state after the fontconfig calls.
`goto finish` leaves the member as it was, a null pointer. -/
def lookup_charset (P : Provider) (filename : String) (index : Int) (st : FtState) :
    Option FcCharSet × FtState :=
  let pat := P.FcPatternBuild st.clock
  let st := st.call (.FcPatternBuild filename index)
  if !pat then (none, st) else
  let objset := P.FcObjectSetBuild st.clock
  let st := st.call (.FcObjectSetBuild ["charset", "style"])
  if !objset then (none, st) else
  let p : FcPattern := { file := some filename, index := some index }
  let fontset := P.FcFontList st.clock p ["charset", "style"]
  let st := st.call (.FcFontList p ["charset", "style"])
  match fontset with
  | none => (none, st)
  | some fonts =>
    match fonts.head?.bind (fun f => f.charset) with
    | some charset => (some charset, st)
    | none =>
      let ok := P.FcCharSetCreate st.clock
      let st := st.call .FcCharSetCreate
      (if ok then some [] else none, st)

/-- The face branch of `ftfont_lookup_cache` (lines 404-409): `none` when the
function returns `Qnil`, else the new face handle. -/
def lookup_face (P : Provider) (filename : String) (index : Int) (st : FtState) :
    Option Nat × FtState :=
  let init : Bool × FtState :=
    if st.ft_library then (true, st)
    else
      let ok := P.FT_Init_FreeType st.clock
      let st := st.call .FT_Init_FreeType
      (ok, { st with ft_library := ok })
  let st := init.2
  if !init.1 then (none, st) else
  let ok := P.FT_New_Face st.clock filename index
  let st := st.call (.FT_New_Face filename index)
  if !ok then (none, st) else
  let r := FT_New_Face_ok filename index st
  (some r.1, r.2)

/-- `ftfont_lookup_cache (key, cache_for)`.  The result is `none` when an
`xassert` fails or a non-string is read as a file name; otherwise it is the
returned Lisp object, `none` for `Qnil` and `some k` for the cache cons stored
under `k`, with the new state. -/
def ftfont_lookup_cache (P : Provider) (key : LookupKey) (cache_for : ftfont_cache_for)
    (st : FtState) : Option (Option Lisp_Object × FtState) :=
  let key? : Option Lisp_Object :=
    match key with
    | .entity e =>
      match assq_no_quit QCfont_entity e.extra with
      | cons _ k => some k
      | _ => none
    | .key k => some k
  match key? with
  | none => none
  | some key =>
    let found : CacheCons × FtState :=
      match st.entry key with
      | none => ({}, st.setEntry key {})
      | some c => (c, st)
    let cache := found.1
    let st := found.2
    match cache_for with
    | FTFONT_CACHE_FOR_ENTITY => some (some key, st)
    | FTFONT_CACHE_FOR_FACE =>
      if cache.pointer.ft_face.isSome then some (some key, st) else
      match key with
      | cons (str filename) (int index) =>
        let r := lookup_face P filename index st
        match r.1 with
        | none => some (none, r.2)
        | some face =>
          some (some key,
            r.2.setEntry key { cache with pointer := { cache.pointer with ft_face := some face } })
      | _ => none
    | FTFONT_CACHE_FOR_CHARSET =>
      if cache.pointer.fc_charset.isSome then some (some key, st) else
      match key with
      | cons (str filename) (int index) =>
        let r := lookup_charset P filename index st
        some (some key,
          r.2.setEntry key { cache with pointer := { cache.pointer with fc_charset := r.1 } })
      | _ => none

/-- `ftfont_get_fc_charset (entity)`: the `fc_charset` member of the cache
data after the lookup; `none` inside is a null pointer. -/
def ftfont_get_fc_charset (P : Provider) (entity : Font) (st : FtState) :
    Option (Option FcCharSet × FtState) :=
  match ftfont_lookup_cache P (.entity entity) FTFONT_CACHE_FOR_CHARSET st with
  | none => none
  | some (cache, st) =>
    match cache.bind st.entry with
    | none => none
    | some c => some (c.pointer.fc_charset, st)

/-! ## Opening and closing fonts -/

/-- The C struct `ftfont_info`, with the members of the embedded `struct font`
that `ftfont_open` fills in. -/
structure ftfont_info where
  file : Lisp_Object := nil
  index : Int := 0
  ft_size : Option Nat := none
  maybe_otf : Bool := false
  otf : Option Nat := none
  pixel_size : Nat := 0
  ascent : Int := 0
  descent : Int := 0
  height : Int := 0
  min_width : Int := 0
  average_width : Int := 0
  space_width : Int := 0
  underline_position : Int := 0
  underline_thickness : Int := 0
  deriving DecidableEq, Repr, Inhabited

def FC_PROPORTIONAL : Int := 0

/-- `x >> 6` on a signed value. -/
def asr6 (x : Int) : Int := x / 64

/-- `a * size / upEM` where `size` is an `FT_UInt`: the operands are converted
to `unsigned int` and the quotient is stored in an `int`.  (Division by a zero
`upEM` is undefined in C and 0 here.) -/
def scale_upEM (a : Int) (size : Nat) (upEM : Int) : Int :=
  c_int ((c_uint a * size % 4294967296) / c_uint upEM)

/-- The loop of lines 1256-1268 over the characters `i .. 126`:
`(min_width, space_width, average_width, n)` and the state. -/
def width_loop (P : Provider) (face : Nat) (file : String) (index : Int) :
    Nat → Nat → (Int × Int × Int × Int) → FtState → (Int × Int × Int × Int) × FtState
  | 0, _, acc, st => (acc, st)
  | fuel + 1, i, (min_width, space_width, average_width, n), st =>
    let r := P.FT_Load_Char st.clock file index i
    let st := st.call (.FT_Load_Char face i)
    match r with
    | some horiAdvance =>
      let this_width := asr6 horiAdvance
      let min_width :=
        if this_width > 0 ∧ (min_width = 0 ∨ min_width > this_width) then this_width
        else min_width
      let space_width := if i = 32 then this_width else space_width
      width_loop P face file index fuel (i + 1)
        (min_width, space_width, average_width + this_width, n + 1) st
    | none =>
      width_loop P face file index fuel (i + 1) (min_width, space_width, average_width, n) st

/-- Lines 1243-1271 of `ftfont_open`: `(min_width, space_width,
average_width)` of the font, and the state after the glyph loads. -/
def font_widths (P : Provider) (entity : Font) (file : String) (index : Int)
    (ft_face : Nat) (size : Nat) (scalable : Bool) (info : FT_FaceInfo) (st : FtState) :
    (Int × Int × Int) × FtState :=
  let spacing := if INTEGERP entity.spacing then XINT entity.spacing else FC_PROPORTIONAL
  if spacing ≠ FC_PROPORTIONAL then
    let w := if scalable then scale_upEM info.max_advance_width size info.units_per_EM
             else asr6 info.size_max_advance
    ((w, w, w), st)
  else
    let r := width_loop P ft_face file index 95 32 (0, 0, 0, 0) st
    let avg := if r.1.2.2.2 > 0 then Int.tdiv r.1.2.2.1 r.1.2.2.2 else r.1.2.2.1
    ((r.1.1, r.1.2.1, avg), r.2)

/-- Lines 1203-1288 of `ftfont_open`: the font object built once the face has
been sized. -/
def make_font_object (P : Provider) (entity : Font) (filename : Lisp_Object)
    (index : Lisp_Object) (ft_face : Nat) (size : Nat) (st : FtState) :
    ftfont_info × FtState :=
  let file := SDATA filename
  let info := P.face_info file (XINT index) size
  let upEM := info.units_per_EM
  let scalable := INTEGERP entity.avgwidth && XINT entity.avgwidth == 0
  let widths := font_widths P entity file (XINT index) ft_face size scalable info st
  ({ file := filename,
     index := XINT index,
     ft_size := st.activeSize ft_face,
     maybe_otf := info.sfnt,
     otf := none,
     pixel_size := size,
     ascent := if scalable then scale_upEM info.ascender size upEM
               else asr6 info.size_ascender,
     descent := if scalable then scale_upEM (-info.descender) size upEM
                else asr6 (-info.size_descender),
     height := if scalable then scale_upEM info.height size upEM
               else asr6 info.size_height,
     min_width := widths.1.1,
     space_width := widths.1.2.1,
     average_width := widths.1.2.2,
     underline_position :=
       if scalable then scale_upEM (-info.underline_position) size upEM else -1,
     underline_thickness :=
       if scalable then scale_upEM info.underline_thickness size upEM else 0 },
   widths.2)

/-- `ftfont_open (f, entity, pixel_size)`.  The outer `none` is a failed
`xassert`; the font object is `none` when the function returns `Qnil`. -/
def ftfont_open (P : Provider) (entity : Font) (pixel_size : Int) (st : FtState) :
    Option (Option ftfont_info × FtState) :=
  match assq_no_quit QCfont_entity entity.extra with
  | cons _ val =>
    match ftfont_lookup_cache P (.entity entity) FTFONT_CACHE_FOR_FACE st with
    | none => none
    | some (none, st) => some (none, st)
    | some (some key, st) =>
      let filename := XCAR val
      let index := XCDR val
      match st.entry key with
      | none => none
      | some cache =>
        match cache.pointer.ft_face with
        | none => none
        | some ft_face =>
          let file := SDATA filename
          -- if (XSAVE_VALUE (val)->integer > 0)
          let sized : Bool × FtState :=
            if cache.integer > 0 then
              let ok := P.FT_New_Size st.clock file (XINT index)
              let st := st.call (.FT_New_Size ft_face)
              if !ok then (false, st) else
              let r := FT_New_Size_ok ft_face st
              let ok := P.FT_Activate_Size r.2.clock file (XINT index)
              let st := r.2.call (.FT_Activate_Size r.1)
              -- FT_Done_Size (size), on the size that FT_New_Size has just made
              if !ok then (false, FT_Done_Size_live r.1 st)
              else (true, FT_Activate_Size_ok r.1 st)
            else (true, st)
          let st := sized.2
          if !sized.1 then some (none, st) else
          -- XSAVE_VALUE (val)->integer++
          let cache := { cache with integer := cache.integer + 1 }
          let st := st.setEntry key cache
          let size0 := c_uint (XINT entity.size)
          let size := if size0 = 0 then c_uint pixel_size else size0
          let ok := P.FT_Set_Pixel_Sizes st.clock file (XINT index) size
          let st := st.call (.FT_Set_Pixel_Sizes ft_face size)
          if !ok then
            some (none, if cache.integer = 0 then FT_Done_Face (some ft_face) st else st)
          else
            let r := make_font_object P entity filename index ft_face size st
            some (some r.1, r.2)
  | _ => some (none, st)

/-- Lines 1299-1303 of `ftfont_close`: the face lookup for the key of the font
and the decrement of the usage counter.  The result is the key, the cache cons
after the decrement and the state; it is `none` when `cache` is not a cons at
`xassert (CONSP (cache))`. -/
def close_counter (P : Provider) (font : ftfont_info) (st : FtState) :
    Option (Lisp_Object × CacheCons × FtState) :=
  let val := cons font.file (int font.index)
  match ftfont_lookup_cache P (.key val) FTFONT_CACHE_FOR_FACE st with
  | none => none
  | some (none, _) => none
  | some (some key, st) =>
    match st.entry key with
    | none => none
    | some cache =>
      -- (XSAVE_VALUE (val)->integer)--
      let cache := { cache with integer := cache.integer - 1 }
      some (key, cache, st.setEntry key cache)

/-- `ftfont_close (f, font)`.  The result is `none` when `xassert (CONSP
(cache))` fails, and when line 1316 hands `FT_Done_Size` a size that has been
freed. -/
def ftfont_close (P : Provider) (font : ftfont_info) (st : FtState) : Option FtState :=
  match close_counter P font st with
  | none => none
  | some r =>
    let key := r.1
    let cache := r.2.1
    let st := r.2.2
    if cache.integer = 0 then
      let st := FT_Done_Face cache.pointer.ft_face st
      let st := match font.otf with
                | some otf => st.call (.OTF_close otf)
                | none => st
      some (st.setEntry key { cache with pointer := { cache.pointer with ft_face := none } })
    else
      match font.ft_size with
      | some ft_size => FT_Done_Size ft_size st
      | none => some st

/-! ## The charset table -/

/-- An element of `fc_charset_table` without its `fc_charset` member, which
lives in `FtState.fc_charset_memo`.  `uniquifier` is the `int[6]` array, the
unwritten elements being 0. -/
structure CharsetEntry where
  name : String
  uniquifier : List Nat
  lang : Option String := none
  deriving DecidableEq, Repr

/-- The array `fc_charset_table`, up to the terminating `{ NULL }`. -/
def fc_charset_table : List CharsetEntry :=
  [ { name := "iso8859-1", uniquifier := [0x00A0, 0x00A1, 0x00B4, 0x00BC, 0x00D0, 0] },
    { name := "iso8859-2", uniquifier := [0x00A0, 0x010E, 0, 0, 0, 0] },
    { name := "iso8859-3", uniquifier := [0x00A0, 0x0108, 0, 0, 0, 0] },
    { name := "iso8859-4", uniquifier := [0x00A0, 0x00AF, 0x0128, 0x0156, 0x02C7, 0] },
    { name := "iso8859-5", uniquifier := [0x00A0, 0x0401, 0, 0, 0, 0] },
    { name := "iso8859-6", uniquifier := [0x00A0, 0x060C, 0, 0, 0, 0] },
    { name := "iso8859-7", uniquifier := [0x00A0, 0x0384, 0, 0, 0, 0] },
    { name := "iso8859-8", uniquifier := [0x00A0, 0x05D0, 0, 0, 0, 0] },
    { name := "iso8859-9", uniquifier := [0x00A0, 0x00A1, 0x00BC, 0x011E, 0, 0] },
    { name := "iso8859-10", uniquifier := [0x00A0, 0x00D0, 0x0128, 0x2015, 0, 0] },
    { name := "iso8859-11", uniquifier := [0x00A0, 0x0E01, 0, 0, 0, 0] },
    { name := "iso8859-13", uniquifier := [0x00A0, 0x201C, 0, 0, 0, 0] },
    { name := "iso8859-14", uniquifier := [0x00A0, 0x0174, 0, 0, 0, 0] },
    { name := "iso8859-15", uniquifier := [0x00A0, 0x00A1, 0x00D0, 0x0152, 0, 0] },
    { name := "iso8859-16", uniquifier := [0x00A0, 0x0218, 0, 0, 0, 0] },
    { name := "gb2312.1980-0", uniquifier := [0x4E13, 0, 0, 0, 0, 0], lang := some "zh-cn" },
    { name := "big5-0", uniquifier := [0xF6B1, 0, 0, 0, 0, 0], lang := some "zh-tw" },
    { name := "jisx0208.1983-0", uniquifier := [0x4E55, 0, 0, 0, 0, 0], lang := some "ja" },
    { name := "ksc5601.1985-0", uniquifier := [0xAC00, 0, 0, 0, 0, 0], lang := some "ko" },
    { name := "cns11643.1992-1", uniquifier := [0xFE32, 0, 0, 0, 0, 0], lang := some "zh-tw" },
    { name := "cns11643.1992-2", uniquifier := [0x4E33, 0x7934, 0, 0, 0, 0] },
    { name := "cns11643.1992-3", uniquifier := [0x201A9, 0, 0, 0, 0, 0] },
    { name := "cns11643.1992-4", uniquifier := [0x20057, 0, 0, 0, 0, 0] },
    { name := "cns11643.1992-5", uniquifier := [0x20000, 0, 0, 0, 0, 0] },
    { name := "cns11643.1992-6", uniquifier := [0x20003, 0, 0, 0, 0, 0] },
    { name := "cns11643.1992-7", uniquifier := [0x20055, 0, 0, 0, 0, 0] },
    { name := "gbk-0", uniquifier := [0x4E06, 0, 0, 0, 0, 0], lang := some "zh-cn" },
    { name := "jisx0212.1990-0", uniquifier := [0x4E44, 0, 0, 0, 0, 0] },
    { name := "jisx0213.2000-1", uniquifier := [0xFA10, 0, 0, 0, 0, 0], lang := some "ja" },
    { name := "jisx0213.2000-2", uniquifier := [0xFA49, 0, 0, 0, 0, 0] },
    { name := "jisx0213.2004-1", uniquifier := [0x20B9F, 0, 0, 0, 0, 0] },
    { name := "viscii1.1-1", uniquifier := [0x1EA0, 0x1EAE, 0x1ED2, 0, 0, 0], lang := some "vi" },
    { name := "tis620.2529-1", uniquifier := [0x0E01, 0, 0, 0, 0, 0], lang := some "th" },
    { name := "windows-1251", uniquifier := [0x0401, 0x0490, 0, 0, 0, 0], lang := some "ru" },
    { name := "koi8-r", uniquifier := [0x0401, 0x2219, 0, 0, 0, 0], lang := some "ru" },
    { name := "mulelao-1", uniquifier := [0x0E81, 0, 0, 0, 0, 0], lang := some "lo" },
    { name := "unicode-sip", uniquifier := [0x20000, 0, 0, 0, 0, 0] } ]

/-! ### The regexp matcher -/

/-- One element of a regexp: a literal character or `.`. -/
inductive ReAtom where
  | lit (c : Char)
  | any
  deriving DecidableEq, Repr

/-- Whether a character of the string matches an element of the regexp, case
being ignored; `.` matches every character but a newline. -/
def ReAtom.ok : ReAtom → Char → Bool
  | .lit c, d => c.toLower == d.toLower
  | .any, d => d != '\n'

/-- A `*` in a regexp: the element before it is repeated; as the first
character it stands for itself. -/
def re_star_last : List (ReAtom × Bool) → List (ReAtom × Bool)
  | [] => [(.lit '*', false)]
  | [x] => [(x.1, true)]
  | x :: y :: rest => x :: re_star_last (y :: rest)

/-- Reading one character of a regexp: the elements read so far, and whether
the character before was a quoting backslash. -/
def re_parse_step (acc : List (ReAtom × Bool) × Bool) (c : Char) : List (ReAtom × Bool) × Bool :=
  if acc.2 then (acc.1 ++ [(.lit c, false)], false)
  else if c = '\\' then (acc.1, true)
  else if c = '*' then (re_star_last acc.1, false)
  else if c = '.' then (acc.1 ++ [(.any, false)], false)
  else (acc.1 ++ [(.lit c, false)], false)

/-- The elements of a regexp, each with the flag "followed by `*`". -/
def re_parse (regexp : List Char) : List (ReAtom × Bool) :=
  (regexp.foldl re_parse_step ([], false)).1

/-- `a*` followed by the continuation `k`. -/
def re_star (a : ReAtom) (k : List Char → Bool) : List Char → Bool
  | [] => k []
  | c :: s => k (c :: s) || (a.ok c && re_star a k s)

/-- Whether the regexp matches a prefix of the string. -/
def re_match_here : List (ReAtom × Bool) → List Char → Bool
  | [] => fun _ => true
  | (a, false) :: items => fun s =>
    match s with
    | [] => false
    | c :: s => a.ok c && re_match_here items s
  | (a, true) :: items => re_star a (re_match_here items)

/-- The index of the first position of the string, counted from `i`, at which
the regexp matches, or -1. -/
def re_search (items : List (ReAtom × Bool)) : List Char → Nat → Int
  | [], i => if re_match_here items [] then i else -1
  | c :: s, i => if re_match_here items (c :: s) then i else re_search items s (i + 1)

/-- Modelled from the spec: `fast_c_string_match_ignore_case (regexp, string)`
is defined in `search.c`, which is not among the sources.  The spec gives the
tag matching as glob-style with `*` and `?` wildcards and case-insensitive;
the function is the regexp search of Emacs, which returns the index at which
the first match of `regexp` in `string` starts and a negative value when
there is none: `ftfont_get_charset` tests the result with `>= 0`.  The model
covers the regexps `ftfont_get_charset` builds from names free of the other
regexp operators (`[`, `^`, `$`, `+`, backslash): literal characters, quoted
characters, `.` and `.*`. -/
def fast_c_string_match_ignore_case (regexp : List Char) (string : List Char) : Int :=
  re_search (re_parse regexp) string 0

/-- Lines 571-581: the regexp built from the bytes of the registry name. -/
def registry_regexp : List Char → List Char
  | [] => []
  | c :: rest =>
    (if c = '.' then ['\\'] else if c = '*' then ['.'] else []) ++
      (if c = '?' then '.' else c) :: registry_regexp rest

/-- Lines 583-585: the index of the first table element whose name the regexp
matches, counted from `i`; `none` when the loop reaches the terminating
element. -/
def charset_table_search (regexp : List Char) : List CharsetEntry → Nat → Option Nat
  | [], _ => none
  | e :: rest, i =>
    if fast_c_string_match_ignore_case regexp e.name.toList ≥ 0 then some i
    else charset_table_search regexp rest (i + 1)

/-- Lines 595-600: `FcCharSetAddChar` for the elements of `uniquifier` up to
the first 0; `none` when a call fails. -/
def add_uniquifiers (P : Provider) : List Nat → FcCharSet → FtState → Option FcCharSet × FtState
  | [], charset, st => (some charset, st)
  | u :: rest, charset, st =>
    if u = 0 then (some charset, st)
    else
      let ok := P.FcCharSetAddChar st.clock
      let st := st.call (.FcCharSetAddChar u)
      if ok then add_uniquifiers P rest (charset ++ [u]) st
      else (none, st.call .FcCharSetDestroy)

/-- The `fc_charset` member of element `i` of `fc_charset_table`. -/
def FtState.table_charset (st : FtState) (i : Nat) : Option FcCharSet :=
  st.fc_charset_memo.lookup i

/-- `SYMBOL_NAME`. -/
def SYMBOL_NAME : Lisp_Object → String
  | sym s => s
  | nil => "nil"
  | _ => ""

/-- `ftfont_get_charset (registry)`: the index into `fc_charset_table`, or -1. -/
def ftfont_get_charset (P : Provider) (registry : Lisp_Object) (st : FtState) : Int × FtState :=
  let re := registry_regexp (SYMBOL_NAME registry).toList
  match charset_table_search re fc_charset_table 0 with
  | none => (-1, st)
  | some i =>
    match st.table_charset i with
    | some _ => (i, st)
    | none =>
      let ok := P.FcCharSetCreate st.clock
      let st := st.call .FcCharSetCreate
      if !ok then (-1, st) else
      let r := add_uniquifiers P ((fc_charset_table[i]?.map (·.uniquifier)).getD []) [] st
      match r.1 with
      | none => (-1, r.2)
      | some charset => (i, { r.2 with fc_charset_memo := (i, charset) :: r.2.fc_charset_memo })

/-! ## Generic families -/

def Qfreetype : Lisp_Object := sym "freetype"
def Qmonospace : Lisp_Object := sym "monospace"
def Qsans_serif : Lisp_Object := sym "sans-serif"
def Qserif : Lisp_Object := sym "serif"
def Qmono : Lisp_Object := sym "mono"
def Qsans : Lisp_Object := sym "sans"
def Qsans__serif : Lisp_Object := sym "sans serif"

/-- `intern`: the symbol of that name; the name `nil` gives `Qnil`. -/
def intern (s : String) : Lisp_Object := if s = "nil" then nil else sym s

/-- `Fdowncase` on a name (ASCII letters). -/
def Fdowncase (s : String) : String := String.mk (s.toList.map Char.toLower)

/-- The state `syms_of_ftfont` sets up: `ftfont_generic_family_list` is
`((monospace . t) (sans-serif . t) (sans . t))` and `ft_face_cache` is nil. -/
def syms_of_ftfont : FtState :=
  { ftfont_generic_family_list :=
      cons (cons Qmonospace Qt) (cons (cons Qsans_serif Qt) (cons (cons Qsans Qt) nil)),
    ft_face_cache := none }

/-- `XSETCDR (slot, v)` for the `slot` that `assq_no_quit (key, list)` finds:
the list with the cdr of that element replaced. -/
def XSETCDR_assq (key v : Lisp_Object) : Lisp_Object → Lisp_Object
  | cons (cons k d) rest =>
    if EQ k key then cons (cons k v) rest else cons (cons k d) (XSETCDR_assq key v rest)
  | cons x rest => cons x (XSETCDR_assq key v rest)
  | x => x

/-- Lines 297-301 of `ftfont_resolve_generic_family`: the family downcased,
with `mono` replaced by `monospace` and `sans`, `sans serif` by `sans-serif`. -/
def generic_family_symbol (family : Lisp_Object) : Lisp_Object :=
  let family := intern (Fdowncase (SYMBOL_NAME family))
  if EQ family Qmono then Qmonospace
  else if EQ family Qsans || EQ family Qsans__serif then Qsans_serif
  else family

/-- `ftfont_resolve_generic_family (family, pattern)`. -/
def ftfont_resolve_generic_family (P : Provider) (family : Lisp_Object) (pattern : FcPattern)
    (st : FtState) : Lisp_Object × FtState :=
  let family := generic_family_symbol family
  let slot := assq_no_quit family st.ftfont_generic_family_list
  if !CONSP slot then (Qnil, st) else
  if !EQ (XCDR slot) Qt then (XCDR slot, st) else
  let dup := P.FcPatternDuplicate st.clock
  let st := st.call .FcPatternDuplicate
  if !dup then (family, st) else
  let lang : List String :=
    match pattern.lang with
    | some l => l
    | none => ["en"]
  let pattern : FcPattern :=
    { pattern with foundry := none, family := some (SYMBOL_NAME family), lang := some lang }
  let st := (st.call .FcConfigSubstitute).call .FcDefaultSubstitute
  let m := P.FcFontMatch st.clock pattern
  let st := st.call (.FcFontMatch pattern)
  let resolved :=
    match m with
    | some m =>
      match m.family with
      | some fam => intern fam
      | none => family
    | none => Qnil
  (resolved,
   { st with
     ftfont_generic_family_list := XSETCDR_assq family resolved st.ftfont_generic_family_list })

/-! ## What the rest of Emacs provides -/

/-- The macros and functions of `font.h` and `font.c` and the Lisp variables
that `ftfont.c` uses and that are defined elsewhere.  `FONT_SLANT_NUMERIC` is
the numeric slant of a spec (-1 when the slant slot holds no number);
`FONT_SET_STYLE prop val` is the value the macro stores in style slot `prop`
for the fontconfig number `val`; `font_put_extra extra prop val` is the
`FONT_EXTRA_INDEX` slot after `font_put_extra`; `CHAR_VARIATION_SELECTOR_P`
is the macro of `character.h`. -/
structure Host where
  FONT_SLANT_NUMERIC : Font → Int
  FONT_SET_STYLE : Nat → Lisp_Object → Lisp_Object
  font_intern_prop : String → Bool → Lisp_Object
  font_style_to_value : Nat → Lisp_Object → Bool → Int
  font_put_extra : Lisp_Object → Lisp_Object → Lisp_Object → Lisp_Object
  Vscript_representative_chars : Lisp_Object
  Votf_script_alist : Lisp_Object
  CHAR_VARIATION_SELECTOR_P : Int → Bool

def FONT_WEIGHT_INDEX : Nat := 5
def FONT_SLANT_INDEX : Nat := 6
def FONT_WIDTH_INDEX : Nat := 7

def Qascii_0 : Lisp_Object := sym "ascii-0"
def Qiso10646_1 : Lisp_Object := sym "iso10646-1"
def Qunicode_bmp : Lisp_Object := sym "unicode-bmp"
def QCdpi : Lisp_Object := sym ":dpi"
def QClang : Lisp_Object := sym ":lang"
def QCotf : Lisp_Object := sym ":otf"
def QCscript : Lisp_Object := sym ":script"
def QCscalable : Lisp_Object := sym ":scalable"

def FC_WEIGHT_REGULAR : Int := 80
def FC_WEIGHT_MEDIUM : Int := 100

/-- `xstrcasecmp (a, b) == 0`. -/
def xstrcasecmp_eq (a b : List Char) : Bool := a.map Char.toLower == b.map Char.toLower

/-- `strstr (hay, needle) != NULL`. -/
def strstr : List Char → List Char → Bool
  | [], needle => needle.isEmpty
  | c :: hay, needle => needle.isPrefixOf (c :: hay) || strstr hay needle

/-! ## OpenType specs -/

/-- The C struct `OpenTypeSpec`; `features0` and `features1` are the filled
parts of `features[0]` and `features[1]`, so that `nfeatures[i]` is the length
of the list. -/
structure OpenTypeSpec where
  script : Lisp_Object := nil
  script_tag : Nat := 0
  langsys_tag : Nat := 0
  features0 : List Nat := []
  features1 : List Nat := []
  deriving DecidableEq, Repr, Inhabited

/-- Byte `i` of the name of a symbol.  Names are taken as unibyte strings, one
character standing for one byte; past the end of the name the byte is 0. -/
def name_byte (s : String) (i : Nat) : Nat :=
  match s.toList.get? i with
  | some c => c.toNat % 256
  | none => 0

/-- The macro `OTF_SYM_TAG (SYM, TAG)`: the value assigned to `TAG`. -/
def OTF_SYM_TAG (s : Lisp_Object) : Nat :=
  ((name_byte (SYMBOL_NAME s) 0 <<< 24) ||| (name_byte (SYMBOL_NAME s) 1 <<< 16) |||
    (name_byte (SYMBOL_NAME s) 2 <<< 8) ||| name_byte (SYMBOL_NAME s) 3) % 4294967296

/-- The macro `OTF_TAG_STR (TAG, P)`: the five bytes written to `P`. -/
def OTF_TAG_STR (tag : Nat) : List Nat :=
  [(tag >>> 24) % 256, (tag >>> 16) &&& 0xFF, (tag >>> 8) &&& 0xFF, tag &&& 0xFF, 0]

/-- The C string that starts a byte array: the characters before the first
0 byte. -/
def c_string (bytes : List Nat) : List Char :=
  (bytes.takeWhile (fun b => b != 0)).map Char.ofNat

/-- Lines 685-696 of `ftfont_get_open_type_spec`: the tags stored for one
feature list; `negative` is set once a nil element has been seen. -/
def read_features : Lisp_Object → Bool → List Nat
  | cons a d, negative =>
    if NILP a then read_features d true
    else (if negative then OTF_SYM_TAG a &&& 0x80000000 else OTF_SYM_TAG a) ::
      read_features d negative
  | _, _ => []

/-- `Flength` of a proper list. -/
def Flength (l : Lisp_Object) : Int := l.toList.length

/-- The loop of lines 666-698 from index `2 - n` on: the feature arrays for the
remaining indices, `none` when a `malloc` fails.  `otf_spec` is the list
before the `XCDR` of the iteration. -/
def feature_arrays (P : Provider) : Nat → Lisp_Object → FtState → Option (List (List Nat)) × FtState
  | 0, _, st => (some [], st)
  | n + 1, otf_spec, st =>
    let otf_spec := XCDR otf_spec
    if NILP otf_spec then (some [], st) else
    let val := XCAR otf_spec
    if NILP val then
      let r := feature_arrays P n otf_spec st
      (r.1.map (fun l => [] :: l), r.2)
    else
      let ok := P.fc_ok st.clock (.malloc (Flength val))
      let st := st.call (.malloc (Flength val))
      if !ok then (none, st) else
      let r := feature_arrays P n otf_spec st
      (r.1.map (fun l => read_features val false :: l), r.2)

/-- `ftfont_get_open_type_spec (otf_spec)`; `none` is a null pointer. -/
def ftfont_get_open_type_spec (H : Host) (P : Provider) (otf_spec : Lisp_Object)
    (st : FtState) : Option OpenTypeSpec × FtState :=
  let ok := P.fc_ok st.clock (.malloc 1)
  let st := st.call (.malloc 1)
  if !ok then (none, st) else
  let script0 := XCAR otf_spec
  let script_tag := if !NILP script0 then OTF_SYM_TAG script0 else 0x44464C54
  let script :=
    if !NILP script0 then
      let val := assq_no_quit script0 H.Votf_script_alist
      if CONSP val && SYMBOLP (XCDR val) then XCDR val else Qnil
    else script0
  let otf_spec := XCDR otf_spec
  let val := XCAR otf_spec
  let langsys_tag := if !NILP val then OTF_SYM_TAG val else 0
  let r := feature_arrays P 2 otf_spec st
  match r.1 with
  | none => (none, r.2)
  | some fs =>
    (some { script := script, script_tag := script_tag, langsys_tag := langsys_tag,
            features0 := fs.getD 0 [], features1 := fs.getD 1 [] }, r.2)

/-! ## Font entities -/

/-- `get_adstyle_property (p)`. -/
def get_adstyle_property (H : Host) (p : FcPattern) : Lisp_Object :=
  match p.style with
  | none => Qnil
  | some style =>
    let str := style.toList.takeWhile (fun c => c != ' ')
    if xstrcasecmp_eq str "Regular".toList || xstrcasecmp_eq str "Bold".toList
        || xstrcasecmp_eq str "Oblique".toList || xstrcasecmp_eq str "Italic".toList then Qnil
    else
      let adstyle := H.font_intern_prop (String.mk str) false
      if H.font_style_to_value FONT_WIDTH_INDEX adstyle false ≥ 0 then Qnil
      else adstyle

/-- Lines 262-276 of `ftfont_pattern_entity`: the `AVERAGE_WIDTH` property of
a font that is not scalable, read from a face opened for the purpose. -/
def bdf_average_width (P : Provider) (file : String) (index : Int) (st : FtState) :
    Option Int × FtState :=
  let r := lookup_face P file index st
  match r.1 with
  | none => (none, r.2)
  | some ft_face =>
    let rec_ := P.FT_Get_BDF_Property r.2.clock file index "AVERAGE_WIDTH"
    let st := r.2.call (.FT_Get_BDF_Property ft_face "AVERAGE_WIDTH")
    (rec_, FT_Done_Face (some ft_face) st)

/-- Lines 216-281 of `ftfont_pattern_entity`: the entity made for a pattern
that has none in the cache yet.  Pixel size and dpi, doubles in fontconfig,
are taken at their integer value. -/
def make_entity (H : Host) (P : Provider) (p : FcPattern) (extra key : Lisp_Object)
    (file : String) (index : Int) (st : FtState) : Font × FtState :=
  let entity : Font := { type := Qfreetype, registry := Qiso10646_1 }
  let entity :=
    match p.foundry with
    | some s => { entity with foundry := H.font_intern_prop s true }
    | none => entity
  let entity :=
    match p.family with
    | some s => { entity with family := H.font_intern_prop s true }
    | none => entity
  let entity :=
    match p.weight with
    | some numeric =>
      let numeric :=
        if numeric ≥ FC_WEIGHT_REGULAR ∧ numeric < FC_WEIGHT_MEDIUM then FC_WEIGHT_MEDIUM
        else numeric
      { entity with weight := H.FONT_SET_STYLE FONT_WEIGHT_INDEX (int numeric) }
    | none => entity
  let entity :=
    match p.slant with
    | some numeric => { entity with slant := H.FONT_SET_STYLE FONT_SLANT_INDEX (int (numeric + 100)) }
    | none => entity
  let entity :=
    match p.width with
    | some numeric => { entity with width := H.FONT_SET_STYLE FONT_WIDTH_INDEX (int numeric) }
    | none => entity
  let entity :=
    match p.pixel_size with
    | some dbl => { entity with size := int dbl }
    | none => { entity with size := int 0 }
  let entity :=
    match p.spacing with
    | some numeric => { entity with spacing := int numeric }
    | none => entity
  let entity :=
    match p.dpi with
    | some dbl => { entity with dpi := int dbl }
    | none => entity
  let r : Font × FtState :=
    if p.scalable = some true then
      ({ entity with size := int 0, avgwidth := int 0 }, st)
    else
      let entity := { entity with adstyle := get_adstyle_property H p }
      let w := bdf_average_width P file index st
      match w.1 with
      | some n => ({ entity with avgwidth := int n }, w.2)
      | none => (entity, w.2)
  ({ r.1 with extra := H.font_put_extra extra QCfont_entity key }, r.2)

/-- `ftfont_pattern_entity (p, extra)`; `none` is `Qnil`.  The entity stored
in the cache is the one returned: the C code stores the pointer before it
fills the slots. -/
def ftfont_pattern_entity (H : Host) (P : Provider) (p : FcPattern) (extra : Lisp_Object)
    (st : FtState) : Option Font × FtState :=
  match p.file with
  | none => (none, st)
  | some file =>
    match p.index with
    | none => (none, st)
    | some index =>
      let key := cons (str file) (int index)
      match ftfont_lookup_cache P (.key key) FTFONT_CACHE_FOR_ENTITY st with
      | some (some k, st) =>
        let cache := (st.entry k).getD {}
        match cache.entity with
        | some entity => (some entity, st)
        | none =>
          let r := make_entity H P p extra key file index st
          (some r.1, r.2.setEntry k { ((r.2.entry k).getD {}) with entity := some r.1 })
      | _ => (none, st)

/-! ## Patterns from font specs -/

/-- A library call answered by `fc_ok`: whether it succeeds, and the state
with the call logged. -/
def fc_call (P : Provider) (c : LibCall) (st : FtState) : Bool × FtState :=
  (P.fc_ok st.clock c, st.call c)

/-- The local variables of `ftfont_spec_pattern` that the loop over the extra
properties updates, with `otlayout` and `*otspec`.  `langset` is `none` for a
null pointer; `scalable` and `dpi` are -1 when not given. -/
structure SpecLocals where
  langset : Option (List String) := none
  dpi : Int := -1
  scalable : Int := -1
  script : Lisp_Object := nil
  otlayout : List Nat := [0]
  otspec : Option OpenTypeSpec := none
  deriving DecidableEq, Repr, Inhabited

/-- Lines 778-781: `FcLangSetAdd` for the symbols of a list; `none` is
`goto err`. -/
def add_langs (P : Provider) : Lisp_Object → List String → FtState → Option (List String) × FtState
  | cons a d, langset, st =>
    if SYMBOLP a then
      let r := fc_call P (.FcLangSetAdd (SYMBOL_NAME a)) st
      if !r.1 then (none, r.2) else add_langs P d (langset ++ [SYMBOL_NAME a]) r.2
    else add_langs P d langset st
  | _, langset, st => (some langset, st)

/-- Lines 766-782: the `:lang` property; `none` is `goto err`. -/
def spec_lang (P : Provider) (val : Lisp_Object) (v : SpecLocals) (st : FtState) :
    Option SpecLocals × FtState :=
  let created : Option (List String) × FtState :=
    match v.langset with
    | some l => (some l, st)
    | none =>
      let r := fc_call P .FcLangSetCreate st
      (if r.1 then some [] else none, r.2)
  match created.1 with
  | none => (none, created.2)
  | some langset =>
    if SYMBOLP val then
      let r := fc_call P (.FcLangSetAdd (SYMBOL_NAME val)) created.2
      if !r.1 then (none, r.2)
      else (some { v with langset := some (langset ++ [SYMBOL_NAME val]) }, r.2)
    else
      let r := add_langs P val langset created.2
      (r.1.map (fun l => { v with langset := some l }), r.2)

/-- Lines 783-791: the `:otf` property; `none` is `return NULL`.  `strcat`
appends to the string in `otlayout` and the tag is written at offset 9. -/
def spec_otf (H : Host) (P : Provider) (val : Lisp_Object) (v : SpecLocals) (st : FtState) :
    Option SpecLocals × FtState :=
  let r := ftfont_get_open_type_spec H P val st
  match r.1 with
  | none => (none, r.2)
  | some otspec =>
    let cat := (v.otlayout.takeWhile (fun b => b != 0)) ++ "otlayout:".toList.map Char.toNat
    (some { v with otspec := some otspec,
                   otlayout := cat.take 9 ++ OTF_TAG_STR otspec.script_tag,
                   script := otspec.script }, r.2)

/-- The loop of lines 758-796 over the extra properties; `none` is `goto err`
or `return NULL`. -/
def spec_extra (H : Host) (P : Provider) : Lisp_Object → SpecLocals → FtState →
    Option SpecLocals × FtState
  | cons x rest, v, st =>
    let key := XCAR x
    let val := XCDR x
    let r : Option SpecLocals × FtState :=
      if EQ key QCdpi then (some { v with dpi := XINT val }, st)
      else if EQ key QClang then spec_lang P val v st
      else if EQ key QCotf then spec_otf H P val v st
      else if EQ key QCscript then (some { v with script := val }, st)
      else if EQ key QCscalable then (some { v with scalable := if NILP val then 0 else 1 }, st)
      else (some v, st)
    match r.1 with
    | none => (none, r.2)
    | some v => spec_extra H P rest v r.2
  | _, v, st => (some v, st)

/-- Lines 807-810: `FcCharSetAddChar` for the characters of a list; `none` is
`goto err`. -/
def add_chars (P : Provider) : Lisp_Object → FcCharSet → FtState → Option FcCharSet × FtState
  | cons a d, charset, st =>
    if CHARACTERP a then
      let ok := P.FcCharSetAddChar st.clock
      let st := st.call (.FcCharSetAddChar (XINT a).toNat)
      if !ok then (none, st) else add_chars P d (charset ++ [(XINT a).toNat]) st
    else add_chars P d charset st
  | _, charset, st => (some charset, st)

/-- Lines 798-812: the charset of the representative characters of the script,
when there is a script and no charset yet; the outer `none` is `goto err`. -/
def spec_script_charset (H : Host) (P : Provider) (script : Lisp_Object)
    (charset : Option FcCharSet) (st : FtState) : Option (Option FcCharSet) × FtState :=
  if !NILP script && charset.isNone then
    let chars := assq_no_quit script H.Vscript_representative_chars
    if CONSP chars && CONSP (XCDR chars) then
      let ok := P.FcCharSetCreate st.clock
      let st := st.call .FcCharSetCreate
      if !ok then (none, st) else
      let r := add_chars P (XCDR chars) [] st
      (r.1.map some, r.2)
    else (some charset, st)
  else (some charset, st)

/-- One `FcPatternAdd...` of lines 817-836 when `cond` holds; `none` is
`goto err`. -/
def pattern_add (P : Provider) (cond : Bool) (c : LibCall) (f : FcPattern → FcPattern)
    (r : Option FcPattern × FtState) : Option FcPattern × FtState :=
  match r.1 with
  | none => r
  | some pattern =>
    if cond then
      let a := fc_call P c r.2
      if a.1 then (some (f pattern), a.2) else (none, a.2)
    else r

/-- Lines 814-836: the pattern built from the spec and the values gathered. -/
def spec_build (P : Provider) (spec : Font) (charset : Option FcCharSet) (v : SpecLocals)
    (st : FtState) : Option FcPattern × FtState :=
  let a := fc_call P .FcPatternCreate st
  if !a.1 then (none, a.2) else
  let r : Option FcPattern × FtState := (some {}, a.2)
  let r := pattern_add P (!NILP spec.foundry)
    (.FcPatternAddString "foundry" (SYMBOL_NAME spec.foundry))
    (fun p => { p with foundry := some (SYMBOL_NAME spec.foundry) }) r
  let r := pattern_add P (!NILP spec.family)
    (.FcPatternAddString "family" (SYMBOL_NAME spec.family))
    (fun p => { p with family := some (SYMBOL_NAME spec.family) }) r
  let r := pattern_add P charset.isSome .FcPatternAddCharSet
    (fun p => { p with charset := charset }) r
  let r := pattern_add P v.langset.isSome .FcPatternAddLangSet
    (fun p => { p with lang := v.langset }) r
  let r := pattern_add P (v.dpi ≥ 0) (.FcPatternAddDouble "dpi" v.dpi)
    (fun p => { p with dpi := some v.dpi }) r
  pattern_add P (v.scalable ≥ 0) (.FcPatternAddBool "scalable" (v.scalable != 0))
    (fun p => { p with scalable := some (v.scalable != 0) }) r

/-- Lines 733-755: the charset and language of the registry.  The outer `none`
is `return NULL` or `goto err`; otherwise the charset of the table element (or
`none`) and the language set. -/
def spec_registry (P : Provider) (registry : Lisp_Object) (st : FtState) :
    Option (Option FcCharSet × Option (List String)) × FtState :=
  if NILP registry || EQ registry Qascii_0 || EQ registry Qiso10646_1
      || EQ registry Qunicode_bmp then (some (none, none), st)
  else
    let r := ftfont_get_charset P registry st
    if r.1 < 0 then (none, r.2) else
    let charset := r.2.table_charset r.1.toNat
    match fc_charset_table[r.1.toNat]?.bind (fun e => e.lang) with
    | none => (some (charset, none), r.2)
    | some lang =>
      let a := fc_call P .FcLangSetCreate r.2
      if !a.1 then (none, a.2) else
      let b := fc_call P (.FcLangSetAdd lang) a.2
      (some (charset, some (if b.1 then [lang] else [])), b.2)

/-- The result of `ftfont_spec_pattern`: the pattern, the string left in
`otlayout` and `*otspec`. -/
structure SpecPattern where
  pattern : FcPattern
  otlayout : List Char
  otspec : Option OpenTypeSpec
  deriving DecidableEq, Repr

/-- `ftfont_spec_pattern (spec, otlayout, otspec)`; `none` is a null pattern
(with `*otspec` null). -/
def ftfont_spec_pattern (H : Host) (P : Provider) (spec : Font) (st : FtState) :
    Option SpecPattern × FtState :=
  let n := H.FONT_SLANT_NUMERIC spec
  if n ≥ 0 ∧ n < 100 then (none, st) else
  let dpi : Int := if INTEGERP spec.dpi then XINT spec.dpi else -1
  let scalable : Int := if INTEGERP spec.avgwidth && XINT spec.avgwidth == 0 then 1 else -1
  let reg := spec_registry P spec.registry st
  match reg.1 with
  | none => (none, reg.2)
  | some (charset, langset) =>
    let ex := spec_extra H P spec.extra
      { langset := langset, dpi := dpi, scalable := scalable } reg.2
    match ex.1 with
    | none => (none, ex.2)
    | some v =>
      let cs := spec_script_charset H P v.script charset ex.2
      match cs.1 with
      | none => (none, cs.2)
      | some charset =>
        let b := spec_build P spec charset v cs.2
        match b.1 with
        | none => (none, b.2)
        | some pattern =>
          (some { pattern := pattern, otlayout := c_string v.otlayout, otspec := v.otspec }, b.2)

/-! ## Listing fonts -/

/-- The objects `ftfont_list` asks `FcFontList` for (`FC_CAPABILITY` and
`FC_FONTFORMAT` are defined). -/
def list_objects : List String :=
  ["foundry", "family", "weight", "slant", "width", "pixelsize", "spacing", "scalable",
   "style", "file", "index", "capability", "fontformat"]

/-- Lines 990-1010: the check of the OpenType features of a candidate; `true`
means the candidate is skipped. -/
def otf_filter (P : Provider) (otspec : Option OpenTypeSpec) (font : FcPattern) (st : FtState) :
    Bool × FtState :=
  match otspec with
  | none => (false, st)
  | some otspec =>
    match font.file with
    | none => (true, st)
    | some file =>
      let otf := P.OTF_open st.clock file
      let st := st.call (.OTF_open file)
      if !otf then (true, st) else
      let c1 := P.OTF_check_features st.clock file true otspec.script_tag otspec.langsys_tag
        otspec.features0
      let st := st.call (.OTF_check_features file true otspec.script_tag otspec.langsys_tag
        otspec.features0)
      if c1 ≠ 1 then (true, st) else
      let c2 := P.OTF_check_features st.clock file false otspec.script_tag otspec.langsys_tag
        otspec.features1
      let st := st.call (.OTF_check_features file false otspec.script_tag otspec.langsys_tag
        otspec.features1)
      (c2 ≠ 1, st)

/-- Lines 1012-1025: whether the candidate is skipped for not covering any of
the representative characters. -/
def chars_filter (chars : Lisp_Object) (font : FcPattern) : Bool :=
  if VECTORP chars then
    match font.charset with
    | none => true
    | some charset =>
      !(chars.toList.any (fun c => NATNUMP c && charset.contains (XINT c).toNat))
  else false

/-- Lines 1026-1034: whether the candidate is skipped for its adstyle. -/
def adstyle_filter (H : Host) (adstyle : Lisp_Object) (font : FcPattern) : Bool :=
  if !NILP adstyle then
    let this_adstyle := get_adstyle_property H font
    NILP this_adstyle
      || !xstrcasecmp_eq (SYMBOL_NAME adstyle).toList (SYMBOL_NAME this_adstyle).toList
  else false

/-- Lines 968-976: whether the candidate is skipped for its spacing. -/
def spacing_filter (spacing : Int) (font : FcPattern) : Bool :=
  if spacing ≥ 0 then
    match font.spacing with
    | some this => spacing != this
    | none => false
  else false

/-- Lines 979-987: whether the candidate is skipped for not advertising the
`otlayout:` capability. -/
def capability_filter (otlayout : List Char) (font : FcPattern) : Bool :=
  if !otlayout.isEmpty then
    match font.capability with
    | some this => !strstr this.toList otlayout
    | none => true
  else false

/-- The loop of lines 964-1039 over the fonts of the font set: `val`, the list
consed up so far (last entity first). -/
def list_loop (H : Host) (P : Provider) (spec : Font) (spacing : Int) (otlayout : List Char)
    (otspec : Option OpenTypeSpec) (chars adstyle : Lisp_Object) :
    List FcPattern → List Font → FtState → List Font × FtState
  | [], val, st => (val, st)
  | font :: rest, val, st =>
    let next := list_loop H P spec spacing otlayout otspec chars adstyle rest
    if spacing_filter spacing font then next val st
    else if capability_filter otlayout font then next val st
    else
      let o := otf_filter P otspec font st
      if o.1 then next val o.2
      else if chars_filter chars font then next val o.2
      else if adstyle_filter H adstyle font then next val o.2
      else
        let e := ftfont_pattern_entity H P font spec.extra o.2
        match e.1 with
        | some entity => next (entity :: val) e.2
        | none => next val e.2

/-- `ftfont_list (frame, spec)`: the list of entities. -/
def ftfont_list (H : Host) (P : Provider) (spec : Font) (st : FtState) : List Font × FtState :=
  let st := if !st.fc_initialized then { st.call .FcInit with fc_initialized := true } else st
  let sp := ftfont_spec_pattern H P spec st
  match sp.1 with
  | none => ([], sp.2)
  | some sp1 =>
    let st := sp.2
    let pattern := sp1.pattern
    let chars : Lisp_Object :=
      if pattern.charset.isNone then
        let val := assq_no_quit QCscript spec.extra
        if !NILP val then
          let val := assq_no_quit (XCDR val) H.Vscript_representative_chars
          if CONSP val && VECTORP (XCDR val) then XCDR val else Qnil
        else Qnil
      else Qnil
    let spacing : Int := if INTEGERP spec.spacing then XINT spec.spacing else -1
    let fam : Option FcPattern × FtState :=
      if !NILP spec.family then
        let r := ftfont_resolve_generic_family P spec.family pattern st
        if !NILP r.1 then
          let a := fc_call P (.FcPatternAddString "family" (SYMBOL_NAME r.1)) r.2
          (if a.1 then some { pattern with family := some (SYMBOL_NAME r.1) } else none, a.2)
        else (some pattern, r.2)
      else (some pattern, st)
    match fam.1 with
    | none => ([], fam.2)
    | some pattern =>
      let st := fam.2
      let adstyle :=
        if !NILP spec.adstyle && (SYMBOL_NAME spec.adstyle).isEmpty then Qnil else spec.adstyle
      let objset := P.FcObjectSetBuild st.clock
      let st := st.call (.FcObjectSetBuild list_objects)
      if !objset then ([], st) else
      let st := if !NILP chars then st.call (.FcObjectSetAdd "charset") else st
      let objects := if !NILP chars then list_objects ++ ["charset"] else list_objects
      let fontset := P.FcFontList st.clock pattern objects
      let st := st.call (.FcFontList pattern objects)
      match fontset with
      | none => ([], st)
      | some fonts =>
        let r := list_loop H P spec spacing sp1.otlayout sp1.otspec chars adstyle fonts [] st
        (r.1.reverse, r.2)

/-! ## Concrete providers and inputs -/

/-- A provider for which every library call succeeds; fontconfig knows no
font. -/
def okProvider : Provider :=
  { FT_Init_FreeType := fun _ => true
    FT_New_Face := fun _ _ _ => true
    FT_New_Size := fun _ _ _ => true
    FT_Activate_Size := fun _ _ _ => true
    FT_Set_Pixel_Sizes := fun _ _ _ _ => true
    face_info := fun _ _ _ => {}
    FT_Load_Char := fun _ _ _ _ => none
    FcPatternBuild := fun _ => true
    FcObjectSetBuild := fun _ => true
    FcFontList := fun _ _ _ => some []
    FcCharSetCreate := fun _ => true
    FcCharSetAddChar := fun _ => true
    FcPatternDuplicate := fun _ => true
    FcFontMatch := fun _ _ => none
    fc_ok := fun _ _ => true
    OTF_open := fun _ _ => true
    OTF_check_features := fun _ _ _ _ _ _ => 1
    FT_Get_BDF_Property := fun _ _ _ _ => none }

/-- As `okProvider`, but `FT_Set_Pixel_Sizes` always fails. -/
def noPixelSizeProvider : Provider :=
  { okProvider with FT_Set_Pixel_Sizes := fun _ _ _ _ => false }

/-- As `okProvider`, but `FT_New_Face` always fails. -/
def noFaceProvider : Provider :=
  { okProvider with FT_New_Face := fun _ _ _ => false }

/-- As `okProvider`, but `FcFontList` always returns a null font set. -/
def noFontListProvider : Provider :=
  { okProvider with FcFontList := fun _ _ _ => none }

/-- As `okProvider`, but `FcPatternBuild` always fails. -/
def noPatternProvider : Provider :=
  { okProvider with FcPatternBuild := fun _ => false }

/-- As `okProvider`, but `FcObjectSetBuild` always fails. -/
def noObjectSetProvider : Provider :=
  { okProvider with FcObjectSetBuild := fun _ => false }

/-- The key `("a.ttf" . 0)`. -/
def sampleKey : Lisp_Object := cons (str "a.ttf") (int 0)

/-- A scalable monospace entity for `sampleKey`, as `ftfont_pattern_entity`
registers it. -/
def sampleEntity : Font :=
  { type := sym "freetype", registry := sym "iso10646-1", size := int 0, avgwidth := int 0,
    spacing := int 100, extra := cons (cons QCfont_entity sampleKey) nil }

/-- As `okProvider`, but `FcFontList` returns a null font set on its first
three library-call slots and afterwards one font covering `A`. -/
def lateFontListProvider : Provider :=
  { okProvider with
    FcFontList := fun t _ _ => if t < 3 then none else some [{ charset := some [65] }] }

/-- Whether a library call is an `FcFontList` query. -/
def LibCall.isFcFontList : LibCall → Bool
  | .FcFontList _ _ => true
  | _ => false

/-- Whether a library call is an `FcFontMatch` query. -/
def LibCall.isFcFontMatch : LibCall → Bool
  | .FcFontMatch _ => true
  | _ => false

/-- Two `ftfont_open` calls on the same entity followed by the two
`ftfont_close` calls (second font first): the two font objects and the final
state. -/
def open_open_close_close (P : Provider) (e : Font) (px : Int) (st : FtState) :
    Option (ftfont_info × ftfont_info × FtState) :=
  match ftfont_open P e px st with
  | some (some f1, s1) =>
    match ftfont_open P e px s1 with
    | some (some f2, s2) =>
      match ftfont_close P f2 s2 with
      | some s3 =>
        match ftfont_close P f1 s3 with
        | some s4 => some (f1, f2, s4)
        | none => none
      | none => none
    | _ => none
  | _ => none

/-- The first font object `ftfont_open okProvider sampleEntity 12` returns. -/
def sampleFont : ftfont_info :=
  { file := str "a.ttf", index := 0, ft_size := some 2, pixel_size := 12 }

/-- The second font object. -/
def sampleFont2 : ftfont_info :=
  { file := str "a.ttf", index := 0, ft_size := some 3, pixel_size := 12 }

/-- The state after two opens and two closes of `sampleEntity` from the
initial state: the counter of `sampleKey` is back to 0 and its face closed. -/
def closedTwiceState : FtState :=
  { ft_library := true,
    ft_face_cache := some [(sampleKey, {})],
    next := 4,
    log := [LibCall.FT_Init_FreeType, LibCall.FT_New_Face "a.ttf" 0,
            LibCall.FT_Set_Pixel_Sizes 1 12, LibCall.FT_New_Size 1, LibCall.FT_Activate_Size 3,
            LibCall.FT_Set_Pixel_Sizes 1 12, LibCall.FT_Done_Size 3,
            LibCall.FT_Done_Face (some 1)] }

/-- The state that lines 1299-1303 of a third `ftfont_close` leave from
`closedTwiceState`: the face is open again, under the new handle 4 with its
own size 5, and the counter of `sampleKey` is -1. -/
def reopenedState : FtState :=
  { ft_library := true,
    ft_face_cache := some [(sampleKey, { integer := -1, pointer := { ft_face := some 4 } })],
    faces := [{ handle := 4, file := "a.ttf", index := 0, size := some 5 }],
    sizes := [(5, 4)],
    next := 6,
    log := closedTwiceState.log ++ [LibCall.FT_New_Face "a.ttf" 0] }

/-- As `okProvider`, but `FcFontMatch` finds a font whose family is named
`t`. -/
def familyTProvider : Provider :=
  { okProvider with FcFontMatch := fun _ _ => some { family := some "t" } }

/-- As `okProvider`, but `FcFontMatch` finds a font of family `DejaVu Sans
Mono`. -/
def dejavuProvider : Provider :=
  { okProvider with FcFontMatch := fun _ _ => some { family := some "DejaVu Sans Mono" } }

/-- As `dejavuProvider`, but `FcPatternDuplicate` always fails. -/
def noDuplicateProvider : Provider :=
  { dejavuProvider with FcPatternDuplicate := fun _ => false }

/-- A host whose `FONT_SLANT_NUMERIC` reads the slant slot as `font.h` does
(the number shifted right by 8 bits), for which the variation selectors are
the characters `FE00 .. FE0F` and `E0100 .. E01EF`, and whose other functions
are the simplest possible. -/
def sampleHost : Host :=
  { FONT_SLANT_NUMERIC := fun f =>
      match f.slant with
      | .int n => n / 256
      | _ => -1
    FONT_SET_STYLE := fun _ v => v
    font_intern_prop := fun s _ => intern s
    font_style_to_value := fun _ _ _ => -1
    font_put_extra := fun extra prop val => cons (cons prop val) extra
    Vscript_representative_chars := nil
    Votf_script_alist := nil
    CHAR_VARIATION_SELECTOR_P := fun c =>
      (0xFE00 ≤ c && c ≤ 0xFE0F) || (0xE0100 ≤ c && c ≤ 0xE01EF) }

/-- A spec asking for the family `mono` with numeric slant 50 (reverse
italic). -/
def reverseSlantSpec : Font := { family := sym "mono", slant := int 12800 }

/-! ## The shaping driver: data

The shaping functions work on glyph strings handed in by the caller and on the
answers of libotf, FreeType and m17n-flt for one face; they touch none of the
globals in `FtState`.  The answers are the fields of a `Shaper`, and the calls
are logged in a list of `ShapeCall`.  A function whose C original can stop at
`abort ()`, or reads or writes outside the glyphs an array holds, returns
`none` there. -/

/-- Conversion of a value to `int` (32 bits, two's complement), for the
results of `int` arithmetic and for assignments of wider values. -/
def int32 (x : Int) : Int := c_int (c_uint x)

/-- Conversion of a value to `short` (16 bits, two's complement). -/
def int16 (x : Int) : Int :=
  if x % 65536 < 32768 then x % 65536 else x % 65536 - 65536

/-- `FONT_INVALID_CODE` of `font.h`. -/
def FONT_INVALID_CODE : Nat := 0xFFFFFFFF

/-- The struct `MFLTGlyph` of `m17n-flt.h`; `from_` and `to_` are the members
`from` and `to`. -/
structure MFLTGlyph where
  c : Int := 0
  code : Nat := 0
  from_ : Int := 0
  to_ : Int := 0
  xadv : Int := 0
  yadv : Int := 0
  ascent : Int := 0
  descent : Int := 0
  lbearing : Int := 0
  rbearing : Int := 0
  xoff : Int := 0
  yoff : Int := 0
  encoded : Bool := false
  measured : Bool := false
  adjusted : Bool := false
  internal : Nat := 0
  deriving DecidableEq, Repr, Inhabited

/-- The struct `MFLTGlyphString` of `m17n-flt.h`: `glyphs` holds the glyphs in
use, so `used` is its length; the `allocated - used` glyphs behind them are
not part of the model. -/
structure MFLTGlyphString where
  allocated : Nat := 0
  glyphs : List MFLTGlyph := []
  deriving DecidableEq, Repr, Inhabited

/-- The member `used` of a glyph string. -/
def MFLTGlyphString.used (gstring : MFLTGlyphString) : Nat := gstring.glyphs.length

/-- The struct `MFLTGlyphAdjustment` of `m17n-flt.h`. -/
structure MFLTGlyphAdjustment where
  xadv : Int := 0
  yadv : Int := 0
  xoff : Int := 0
  yoff : Int := 0
  back : Int := 0
  advance_is_absolute : Bool := false
  set : Bool := false
  deriving DecidableEq, Repr, Inhabited

/-- The struct `MFLTOtfSpec` of `m17n-flt.h`.  `features0` and `features1` are
`features[0]` and `features[1]`: `none` is a null pointer, and otherwise the
list holds the elements of the array, the terminating 0 included. -/
structure MFLTOtfSpec where
  script : Nat := 0
  langsys : Nat := 0
  features0 : Option (List Nat) := none
  features1 : Option (List Nat) := none
  deriving DecidableEq, Repr, Inhabited

/-- The struct `OTF_DeviceTable` of libotf; `DeltaValue` is `none` for a null
pointer. -/
structure OTF_DeviceTable where
  offset : Nat := 0
  StartSize : Nat := 0
  EndSize : Nat := 0
  DeltaFormat : Nat := 0
  DeltaValue : Option (List Int) := none
  deriving DecidableEq, Repr, Inhabited

/-- The struct `OTF_ValueRecord` of libotf. -/
structure OTF_ValueRecord where
  XPlacement : Int := 0
  YPlacement : Int := 0
  XAdvance : Int := 0
  YAdvance : Int := 0
  XPlaDevice : OTF_DeviceTable := {}
  YPlaDevice : OTF_DeviceTable := {}
  XAdvDevice : OTF_DeviceTable := {}
  YAdvDevice : OTF_DeviceTable := {}
  deriving DecidableEq, Repr, Inhabited

/-- The struct `OTF_Anchor` of libotf; `AnchorPoint` is `f.f1.AnchorPoint`, and
the device tables are those of `f.f2`. -/
structure OTF_Anchor where
  AnchorFormat : Nat := 0
  XCoordinate : Int := 0
  YCoordinate : Int := 0
  AnchorPoint : Nat := 0
  XDeviceTable : OTF_DeviceTable := {}
  YDeviceTable : OTF_DeviceTable := {}
  deriving DecidableEq, Repr, Inhabited

/-- The struct `OTF_Glyph` of libotf.  The members of the union `f` that the
driver reads are kept side by side: `index_from` and `index_to` are
`f.index.from` and `f.index.to`, `format` and `value` are `f.f1.format` and
`*f.f1.value`, `mark_anchor` and `base_anchor` are `*f.f4.mark_anchor` and
`*f.f4.base_anchor`. -/
structure OTF_Glyph where
  c : Int := 0
  glyph_id : Nat := 0
  GlyphClass : Nat := 0
  MarkAttachClass : Nat := 0
  positioning_type : Int := 0
  index_from : Int := 0
  index_to : Int := 0
  format : Nat := 0
  value : OTF_ValueRecord := {}
  mark_anchor : OTF_Anchor := {}
  base_anchor : OTF_Anchor := {}
  deriving DecidableEq, Repr, Inhabited

def OTF_GlyphClass0 : Nat := 0
def OTF_GlyphClassMark : Nat := 3

def OTF_XPlacement : Nat := 0x0001
def OTF_YPlacement : Nat := 0x0002
def OTF_XAdvance : Nat := 0x0004
def OTF_YAdvance : Nat := 0x0008
def OTF_XPlaDevice : Nat := 0x0010
def OTF_YPlaDevice : Nat := 0x0020
def OTF_XAdvDevice : Nat := 0x0040
def OTF_YAdvDevice : Nat := 0x0080

/-- The struct `FT_Glyph_Metrics` of FreeType (26.6 fixed point). -/
structure FT_Glyph_Metrics where
  width : Int := 0
  height : Int := 0
  horiBearingX : Int := 0
  horiBearingY : Int := 0
  horiAdvance : Int := 0
  deriving DecidableEq, Repr, Inhabited

/-- The struct `MFLTFontFT`, as far as the driver reads it: `space_width`,
`ascent` and `descent` are those of `font`.  The face `ft_face` and the table
handle `otf` are what the `Shaper` answers for. -/
structure MFLTFontFT where
  space_width : Int := 0
  ascent : Int := 0
  descent : Int := 0
  deriving DecidableEq, Repr, Inhabited

/-- One call of the shaping functions into FreeType, libotf or m17n-flt, with
the arguments that vary. -/
inductive ShapeCall where
  | FT_Load_Glyph (code : Nat) (monochrome : Bool)
  | OTF_drive_gdef (gstring : List OTF_Glyph)
  | OTF_drive_gsub (gstring : List OTF_Glyph) (script : List Char) (langsys : Option (List Char))
      (features : List Char)
  | OTF_drive_gpos (gstring : List OTF_Glyph) (script : List Char) (langsys : Option (List Char))
      (features : List Char)
  | OTF_drive_cmap (gstring : List OTF_Glyph)
  | M17N_INIT
  | mflt_run (gstring : MFLTGlyphString) (to_ : Nat) (family : Option String) (combining : Bool)
  | FT_Activate_Size (size : Option Nat)
  | OTF_check_features (gsubp : Bool) (script langsys : Nat) (tags : List Nat)
  deriving DecidableEq, Repr

/-- What the libraries answer for the face being shaped.  `x_ppem` .. `y_scale`
are `ft_face->size->metrics`, the scales already converted to `int`.
`FT_Load_Glyph code` gives the metrics in the glyph slot after
`FT_Load_Glyph (ft_face, code, FT_LOAD_DEFAULT)`, `none` when the call fails;
`outline code` gives the outline points in the glyph slot after
`FT_Load_Glyph (ft_face, code, FT_LOAD_MONOCHROME)`.  `OTF_drive_gdef` and
`OTF_drive_cmap` give the glyphs of `otf_gstring` after the call;
`OTF_drive_gsub` and `OTF_drive_gpos` too, `none` standing for a negative
return value.  `mflt_run gstring len family combining` gives the return value
of `mflt_run (&gstring, 0, len, &flt_font_ft.flt_font, flt)` and the glyph
string it leaves, `combining` telling whether `flt` is the `combining` table or
null.  `OTF_check_features gsubp script langsys tags` gives the return value of
`OTF_check_features (otf, gsubp, script, langsys, tags, n)` for the `n` tags
listed. -/
structure Shaper where
  x_ppem : Nat := 0
  y_ppem : Nat := 0
  x_scale : Int := 0
  y_scale : Int := 0
  FT_Load_Glyph : Nat → Option FT_Glyph_Metrics := fun _ => none
  outline : Nat → List (Int × Int) := fun _ => []
  OTF_drive_gdef : List OTF_Glyph → List OTF_Glyph := fun g => g
  OTF_drive_gsub : List OTF_Glyph → List Char → Option (List Char) → List Char →
    Option (List OTF_Glyph) := fun _ _ _ _ => none
  OTF_drive_gpos : List OTF_Glyph → List Char → Option (List Char) → List Char →
    Option (List OTF_Glyph) := fun _ _ _ _ => none
  OTF_drive_cmap : List OTF_Glyph → List OTF_Glyph := fun g => g
  mflt_run : MFLTGlyphString → Nat → Option String → Bool → Int × MFLTGlyphString :=
    fun g _ _ _ => (-1, g)
  OTF_check_features : Bool → Nat → Nat → List Nat → Int := fun _ _ _ _ => 0

/-- What `ftfont_drive_otf` reads and writes through its pointer arguments:
the glyphs of `in`, the glyph string `out`, the array `adjustment`; and the
log of library calls. -/
structure DriveState where
  in_ : List MFLTGlyph := []
  out : MFLTGlyphString := {}
  adjustment : List MFLTGlyphAdjustment := []
  log : List ShapeCall := []
  deriving DecidableEq, Repr, Inhabited

/-! ## The shaping driver: metrics -/

/-- The body of the loop of `ftfont_get_metrics` for the glyph `g`; `none` is
the `abort ()` after a failed `FT_Load_Glyph`. -/
def measure_glyph (E : Shaper) (font : MFLTFontFT) (g : MFLTGlyph) (log : List ShapeCall) :
    Option (MFLTGlyph × List ShapeCall) :=
  if g.measured then some (g, log)
  else if g.code != FONT_INVALID_CODE then
    match E.FT_Load_Glyph g.code with
    | none => none
    | some m =>
      some ({ g with
              lbearing := int32 m.horiBearingX,
              rbearing := int32 (m.horiBearingX + m.width),
              ascent := int32 m.horiBearingY,
              descent := int32 (m.height - m.horiBearingY),
              xadv := int32 m.horiAdvance,
              yadv := 0,
              measured := true },
            log ++ [ShapeCall.FT_Load_Glyph g.code false])
  else
    some ({ g with
            lbearing := 0,
            rbearing := int32 (font.space_width * 64),
            xadv := int32 (font.space_width * 64),
            ascent := int32 (font.ascent * 64),
            descent := int32 (font.descent * 64),
            yadv := 0,
            measured := true },
          log)

/-- The loop of `ftfont_get_metrics`: `n` glyphs from index `i` on. -/
def get_metrics_loop (E : Shaper) (font : MFLTFontFT) :
    Nat → Nat → List MFLTGlyph → List ShapeCall → Option (List MFLTGlyph × List ShapeCall)
  | 0, _, gs, log => some (gs, log)
  | n + 1, i, gs, log =>
    match gs[i]? with
    | none => none
    | some g =>
      match measure_glyph E font g log with
      | none => none
      | some r => get_metrics_loop E font n (i + 1) (gs.set i r.1) r.2

/-- `ftfont_get_metrics (font, gstring, from, to)`: the return value, the
glyphs of `gstring` and the log. -/
def ftfont_get_metrics (E : Shaper) (font : MFLTFontFT) (gstring : List MFLTGlyph)
    (from_ to_ : Nat) (log : List ShapeCall) : Option (Int × List MFLTGlyph × List ShapeCall) :=
  match get_metrics_loop E font (to_ - from_) from_ gstring log with
  | none => none
  | some r => some (0, r.1, r.2)

/-! ## The shaping driver: `ftfont_drive_otf` -/

/-- `OTF_tag_name (tag, name)` of libotf: the five bytes written to `name`. -/
def OTF_tag_name (tag : Nat) : List Nat :=
  [(tag >>> 24) % 256, (tag >>> 16) % 256, (tag >>> 8) % 256, tag % 256, 0]

/-- The bytes the loop of lines 1754-1764 writes for the tags of a feature
list: `*,` for the marker `0xFFFFFFFF`, the name and a comma for a tag. -/
def feature_bytes : List Nat → List Nat
  | [] => []
  | t :: ts =>
    (if t == 0xFFFFFFFF then [42, 44] else (OTF_tag_name t).take 4 ++ [44]) ++ feature_bytes ts

/-- Lines 1747-1766 for one stage: the string left in `gsub_features` or
`gpos_features`, the inner `none` being a null pointer.  The outer `none`
stands for an access outside an array: reading `features[i][1]` or a
terminator that the array does not hold, or the `*--p` of line 1765 when the
list names nothing and `p` still points to the start of the buffer. -/
def feature_names (features : Option (List Nat)) : Option (Option (List Char)) :=
  match features with
  | none => some none
  | some arr =>
    match arr[1]? with
    | none => none
    | some second =>
      if second == 0xFFFFFFFF then some none
      else
        let tags := arr.takeWhile (fun t => t != 0)
        if tags.length = arr.length then none
        else if tags.isEmpty then none
        else some (some (c_string ((feature_bytes tags).dropLast ++ [0])))

/-- The glyphs `gs[from_]` .. `gs[from_ + len - 1]`. -/
def glyph_range (gs : List MFLTGlyph) (from_ len : Nat) : Option (List MFLTGlyph) :=
  if from_ + len ≤ gs.length then some ((gs.drop from_).take len) else none

/-- The glyph `gs[j]` for an `int` index. -/
def glyph_at (gs : List MFLTGlyph) (j : Int) : Option MFLTGlyph :=
  if j < 0 then none else gs[j.toNat]?

/-- Lines 1794-1799: the copied glyph takes the glyph id of the record. -/
def substituted (g : MFLTGlyph) (otfg : OTF_Glyph) : MFLTGlyph :=
  if g.code != otfg.glyph_id then { g with c := 0, code := otfg.glyph_id, measured := false }
  else g

/-- The loops of lines 1806-1813 and 1936-1942: `n` glyphs from index `j` on
widen the range `(min_from, max_to)`. -/
def merge_range (gs : List MFLTGlyph) : Nat → Int → Int × Int → Option (Int × Int)
  | 0, _, r => some r
  | n + 1, j, r =>
    match glyph_at gs j with
    | none => none
    | some g =>
      merge_range gs n (j + 1)
        (if r.1 > g.from_ then g.from_ else r.1, if r.2 < g.to_ then g.to_ else r.2)

/-- Lines 1792-1816: the glyph appended for a record that the outer loop
handles. -/
def gsub_head (gs : List MFLTGlyph) (from_ : Nat) (otfg : OTF_Glyph) : Option MFLTGlyph :=
  match glyph_at gs (from_ + otfg.index_from) with
  | none => none
  | some g0 =>
    let g := substituted g0 otfg
    if otfg.index_from < otfg.index_to then
      match merge_range gs (otfg.index_to - otfg.index_from).toNat (from_ + otfg.index_from + 1)
          (g.from_, g.to_) with
      | none => none
      | some r => some { g with from_ := r.1, to_ := r.2 }
    else some g

/-- Lines 1821-1829: the glyph appended for a record that the inner loop
handles. -/
def gsub_follow (gs : List MFLTGlyph) (from_ : Nat) (otfg : OTF_Glyph) : Option MFLTGlyph :=
  match glyph_at gs (from_ + otfg.index_to) with
  | none => none
  | some g0 => some (substituted g0 otfg)

/-- The loops of lines 1786-1831 over the records of `otf_gstring`, appending
to the glyphs of `out`.  `prev` is the `f.index.from` of the record before
(`none` at the first record): a record is handled by the inner loop exactly
when it has the same `f.index.from` as the record before it, and by the outer
loop otherwise. -/
def gsub_loop (gs : List MFLTGlyph) (from_ : Nat) :
    Option Int → List OTF_Glyph → List MFLTGlyph → Option (List MFLTGlyph)
  | _, [], out => some out
  | prev, otfg :: rest, out =>
    match (if prev = some otfg.index_from then gsub_follow gs from_ otfg
           else gsub_head gs from_ otfg) with
    | none => none
    | some g => gsub_loop gs from_ (some otfg.index_from) rest (out ++ [g])

/-- The label `simple_copy`, lines 1960-1967; `font->get_metrics` is
`ftfont_get_metrics`. -/
def simple_copy (E : Shaper) (font : MFLTFontFT) (from_ to_ : Nat) (s : DriveState) :
    Option (Int × DriveState) :=
  if s.out.allocated < s.out.glyphs.length + (to_ - from_) then some (-2, s)
  else
    match ftfont_get_metrics E font s.in_ from_ to_ s.log with
    | none => none
    | some r =>
      match glyph_range r.2.1 from_ (to_ - from_) with
      | none => none
      | some l =>
        some ((to_ : Int),
              { s with in_ := r.2.1, out := { s.out with glyphs := s.out.glyphs ++ l },
                       log := r.2.2 })

/-- The macro `DEVICE_DELTA (table, size)`; `none` when `DeltaValue` is null or
does not hold the element. -/
def DEVICE_DELTA (table : OTF_DeviceTable) (size : Nat) : Option Int :=
  if table.StartSize ≤ size ∧ size ≤ table.EndSize then
    match table.DeltaValue with
    | none => none
    | some d =>
      match d[size - table.StartSize]? with
      | none => none
      | some v => some (int32 (v * 64))
  else some 0

/-- The value `v * scale / 0x10000` in `int` arithmetic. -/
def scaled (v scale : Int) : Int := (int32 (v * scale)).tdiv 0x10000

/-- `adjust_anchor (ft_face, anchor, code, x_ppem, y_ppem, x, y)`: the values
left in `*x` and `*y`, and the log. -/
def adjust_anchor (E : Shaper) (anchor : OTF_Anchor) (code : Nat) (xy : Int × Int)
    (log : List ShapeCall) : Option ((Int × Int) × List ShapeCall) :=
  if anchor.AnchorFormat = 2 then
    match (E.outline code)[anchor.AnchorPoint]? with
    | some p =>
      some ((int32 (p.1 * 64), int32 (p.2 * 64)), log ++ [ShapeCall.FT_Load_Glyph code true])
    | none => some (xy, log ++ [ShapeCall.FT_Load_Glyph code true])
  else if anchor.AnchorFormat = 3 then
    let x : Option Int :=
      if anchor.XDeviceTable.offset ≠ 0 ∧ anchor.XDeviceTable.DeltaValue.isSome then
        match DEVICE_DELTA anchor.XDeviceTable E.x_ppem with
        | none => none
        | some d => some (int32 (xy.1 + d))
      else some xy.1
    let y : Option Int :=
      if anchor.YDeviceTable.offset ≠ 0 ∧ anchor.YDeviceTable.DeltaValue.isSome then
        match DEVICE_DELTA anchor.YDeviceTable E.y_ppem with
        | none => none
        | some d => some (int32 (xy.2 + d))
      else some xy.2
    match x, y with
    | some x, some y => some ((x, y), log)
    | _, _ => none
  else some (xy, log)

/-- One of the eight steps of lines 1871-1894: when `format` has the bit,
the adjustment is updated with the value `v` gives. -/
def value_step (format bit : Nat) (v : Option Int)
    (f : MFLTGlyphAdjustment → Int → MFLTGlyphAdjustment) (a : Option MFLTGlyphAdjustment) :
    Option MFLTGlyphAdjustment :=
  match a with
  | none => none
  | some a =>
    if format &&& bit ≠ 0 then
      match v with
      | none => none
      | some d => some (f a d)
    else some a

/-- Lines 1868-1896: the adjustment of a single or pair positioning. -/
def single_adjust (E : Shaper) (otfg : OTF_Glyph) (a : MFLTGlyphAdjustment) :
    Option MFLTGlyphAdjustment :=
  let format := otfg.format
  let value := otfg.value
  let r := value_step format OTF_XPlacement (some (scaled value.XPlacement E.x_scale))
    (fun a d => { a with xoff := d }) (some a)
  let r := value_step format OTF_XPlaDevice (DEVICE_DELTA value.XPlaDevice E.x_ppem)
    (fun a d => { a with xoff := int32 (a.xoff + d) }) r
  let r := value_step format OTF_YPlacement (some (scaled value.YPlacement E.y_scale))
    (fun a d => { a with yoff := int32 (-d) }) r
  let r := value_step format OTF_YPlaDevice (DEVICE_DELTA value.YPlaDevice E.y_ppem)
    (fun a d => { a with yoff := int32 (a.yoff - d) }) r
  let r := value_step format OTF_XAdvance (some (scaled value.XAdvance E.x_scale))
    (fun a d => { a with xadv := int32 (a.xadv + d) }) r
  let r := value_step format OTF_XAdvDevice (DEVICE_DELTA value.XAdvDevice E.x_ppem)
    (fun a d => { a with xadv := int32 (a.xadv + d) }) r
  let r := value_step format OTF_YAdvance (some (scaled value.YAdvance E.y_scale))
    (fun a d => { a with yadv := int32 (a.yadv + d) }) r
  let r := value_step format OTF_YAdvDevice (DEVICE_DELTA value.YAdvDevice E.y_ppem)
    (fun a d => { a with yadv := int32 (a.yadv + d) }) r
  match r with
  | none => none
  | some a => some { a with set := true }

/-- What the positioning loop carries from one record to the next: `base` and
`mark` (indices into the glyphs of `out`, `none` for a null pointer), the
glyphs of `out`, the array `adjustment`, and the log. -/
structure PosState where
  base : Option Nat := none
  mark : Option Nat := none
  glyphs : List MFLTGlyph := []
  adjustment : List MFLTGlyphAdjustment := []
  log : List ShapeCall := []
  deriving DecidableEq, Repr, Inhabited

/-- The loop of lines 1943-1947: `n` glyphs from index `j` on get the range
`r`. -/
def set_range : Nat → Nat → Int × Int → List MFLTGlyph → Option (List MFLTGlyph)
  | 0, _, _, gs => some gs
  | n + 1, j, r, gs =>
    match gs[j]? with
    | none => none
    | some x => set_range n (j + 1) r (gs.set j { x with from_ := r.1, to_ := r.2 })

/-- The label `label_adjust_anchor`, lines 1912-1948, for record `i`, whose
glyph is `out->glyphs[g]`, attached to `out->glyphs[prev]`. -/
def mark_adjust (E : Shaper) (i g prev : Nat) (otfg : OTF_Glyph) (s : PosState) :
    Option PosState :=
  let base0 := (scaled otfg.base_anchor.XCoordinate E.x_scale,
                scaled otfg.base_anchor.YCoordinate E.y_scale)
  let mark0 := (scaled otfg.mark_anchor.XCoordinate E.x_scale,
                scaled otfg.mark_anchor.YCoordinate E.y_scale)
  let b : Option ((Int × Int) × List ShapeCall) :=
    if otfg.base_anchor.AnchorFormat ≠ 1 then
      match s.glyphs[prev]? with
      | none => none
      | some p => adjust_anchor E otfg.base_anchor p.code base0 s.log
    else some (base0, s.log)
  match b with
  | none => none
  | some b =>
    let m : Option ((Int × Int) × List ShapeCall) :=
      if otfg.mark_anchor.AnchorFormat ≠ 1 then
        match s.glyphs[g]? with
        | none => none
        | some gl => adjust_anchor E otfg.mark_anchor gl.code mark0 b.2
      else some (mark0, b.2)
    match m, s.adjustment[i]?, s.glyphs[g]? with
    | some m, some a, some gl =>
      let a := { a with
                 xoff := int32 (b.1.1 - m.1.1),
                 yoff := int32 (-(int32 (b.1.2 - m.1.2))),
                 back := int16 ((g : Int) - (prev : Int)),
                 xadv := 0,
                 advance_is_absolute := true,
                 set := true }
      match merge_range s.glyphs (g - prev) (prev : Int) (gl.from_, gl.to_) with
      | none => none
      | some r =>
        match set_range (g + 1 - prev) prev r s.glyphs with
        | none => none
        | some glyphs =>
          some { s with glyphs := glyphs, adjustment := s.adjustment.set i a, log := m.2 }
    | _, _, _ => none

/-- The `switch` of lines 1862-1949 for record `i`, whose glyph is
`out->glyphs[g]`. -/
def gpos_switch (E : Shaper) (i g : Nat) (otfg : OTF_Glyph) (s : PosState) : Option PosState :=
  if otfg.positioning_type = 0 then some s
  else if otfg.positioning_type = 1 ∨ otfg.positioning_type = 2 then
    match s.adjustment[i]? with
    | none => none
    | some a =>
      match single_adjust E otfg a with
      | none => none
      | some a => some { s with adjustment := s.adjustment.set i a }
  else if otfg.positioning_type = 3 then some s
  else if otfg.positioning_type = 4 ∨ otfg.positioning_type = 5 then
    match s.base with
    | none => some s
    | some prev => mark_adjust E i g prev otfg s
  else
    match s.mark with
    | none => some s
    | some prev => mark_adjust E i g prev otfg s

/-- Lines 1950-1955: the glyph `out->glyphs[g]` becomes the current base, the
current mark, or both, by the glyph class of its record. -/
def track_class (otfg : OTF_Glyph) (g : Nat) (s : PosState) : PosState :=
  if otfg.GlyphClass = OTF_GlyphClass0 then { s with base := some g, mark := some g }
  else if otfg.GlyphClass = OTF_GlyphClassMark then { s with mark := some g }
  else { s with base := some g }

/-- The body of the loop of lines 1855-1956 for record `i`; `gidx` is the
index of the first glyph this call has appended to `out`. -/
def gpos_step (E : Shaper) (gidx i : Nat) (otfg : OTF_Glyph) (s : PosState) : Option PosState :=
  if otfg.glyph_id = 0 then some s
  else
    match gpos_switch E i (gidx + i) otfg s with
    | none => none
    | some s => some (track_class otfg (gidx + i) s)

/-- The loop of lines 1855-1956 from record `i` on. -/
def gpos_loop (E : Shaper) (gidx : Nat) : Nat → List OTF_Glyph → PosState → Option PosState
  | _, [], s => some s
  | i, otfg :: rest, s =>
    match gpos_step E gidx i otfg s with
    | none => none
    | some s => gpos_loop E gidx (i + 1) rest s

/-- Lines 1841-1958: the positioning stage and the return value. -/
def drive_gpos (E : Shaper) (gpos_features : Option (List Char)) (script : List Char)
    (langsys : Option (List Char)) (gidx : Nat) (otf_gstring : List OTF_Glyph) (to_ : Nat)
    (s : DriveState) : Option (Int × DriveState) :=
  match gpos_features with
  | none => some ((to_ : Int), s)
  | some features =>
    let s := { s with
               log := s.log ++ [ShapeCall.OTF_drive_gpos otf_gstring script langsys features] }
    match E.OTF_drive_gpos otf_gstring script langsys features with
    | none => some ((to_ : Int), s)
    | some recs =>
      match gpos_loop E gidx 0 recs
          { glyphs := s.out.glyphs, adjustment := s.adjustment, log := s.log } with
      | none => none
      | some p =>
        some ((to_ : Int),
              { s with out := { s.out with glyphs := p.glyphs }, adjustment := p.adjustment,
                       log := p.log })

/-- The `f.index.from` of the record before record `k`, which is `prev` for the
first record. -/
def index_before (prev : Option Int) (recs : List OTF_Glyph) : Nat → Option Int
  | 0 => prev
  | k + 1 => (recs[k]?).map (fun p => p.index_from)

/-- Whether record `k` of the substituted glyph string continues the group of
the record before it, that is, has the same `f.index.from`. -/
def continues_group (recs : List OTF_Glyph) (k : Nat) : Bool :=
  match recs[k]? with
  | some r => index_before none recs k == some r.index_from
  | none => false

/-- Lines 1737-1742: the strings in `script` and `langsys`, the latter `none`
for a null pointer. -/
def script_name (spec : MFLTOtfSpec) : List Char := c_string (OTF_tag_name spec.script)

def langsys_name (spec : MFLTOtfSpec) : Option (List Char) :=
  if spec.langsys != 0 then some (c_string (OTF_tag_name spec.langsys)) else none

/-- Lines 1769-1774: the glyphs of `otf_gstring`, cleared by
`setup_otf_gstring` and given the character and glyph id of the input
glyphs. -/
def fill_otf_gstring (gs : List MFLTGlyph) : List OTF_Glyph :=
  gs.map (fun g => ({ c := g.c, glyph_id := g.code } : OTF_Glyph))

/-- `ftfont_drive_otf (font, spec, in, from, to, out, adjustment)`: the return
value and what the pointer arguments hold afterwards.  The static
`otf_gstring` is cleared and filled anew by every call, so it is a local
value here; `setup_otf_gstring` is taken to get the memory it asks for. -/
def ftfont_drive_otf (E : Shaper) (font : MFLTFontFT) (spec : MFLTOtfSpec) (from_ to_ : Nat)
    (s : DriveState) : Option (Int × DriveState) :=
  if to_ = from_ then some ((from_ : Int), s)
  else if to_ < from_ then none
  else
    let len := to_ - from_
    let script := script_name spec
    let langsys := langsys_name spec
    match feature_names spec.features0, feature_names spec.features1 with
    | some gsub_features, some gpos_features =>
      match glyph_range s.in_ from_ len with
      | none => none
      | some gs =>
        let glyphs := fill_otf_gstring gs
        let otf_gstring := E.OTF_drive_gdef glyphs
        let s := { s with log := s.log ++ [ShapeCall.OTF_drive_gdef glyphs] }
        let gidx := s.out.glyphs.length
        match gsub_features with
        | some features =>
          let s := { s with
                     log := s.log ++ [ShapeCall.OTF_drive_gsub otf_gstring script langsys features] }
          match E.OTF_drive_gsub otf_gstring script langsys features with
          | none => simple_copy E font from_ to_ s
          | some otf_gstring =>
            if s.out.allocated < s.out.glyphs.length + otf_gstring.length then some (-2, s)
            else
              match gsub_loop s.in_ from_ none otf_gstring s.out.glyphs with
              | none => none
              | some glyphs =>
                drive_gpos E gpos_features script langsys gidx otf_gstring to_
                  { s with out := { s.out with glyphs := glyphs } }
        | none =>
          if s.out.allocated < s.out.glyphs.length + len then some (-2, s)
          else
            drive_gpos E gpos_features script langsys gidx otf_gstring to_
              { s with out := { s.out with glyphs := s.out.glyphs ++ gs } }
    | _, _ => none

/-- The number of glyphs `ftfont_drive_otf` is about to append when it checks
the room in `out`: the glyphs the substitution engine has left when it was run
and succeeded, and the input glyphs `gs` otherwise. -/
def required_count (E : Shaper) (spec : MFLTOtfSpec) (gs : List MFLTGlyph)
    (gsub_features : Option (List Char)) : Nat :=
  match gsub_features with
  | none => gs.length
  | some names =>
    match E.OTF_drive_gsub (E.OTF_drive_gdef (fill_otf_gstring gs)) (script_name spec)
        (langsys_name spec) names with
    | none => gs.length
    | some recs => recs.length

/-! ## The shaping driver: `ftfont_shape_by_flt` -/

/-- A glyph of an lgstring, the Lisp vector that the macros `LGLYPH_FROM` ..
`LGLYPH_ADJUSTMENT` of `composite.h` read and the macros `LGLYPH_SET_FROM` ..
`LGLYPH_SET_ADJUSTMENT` write: a field holds what the setter has stored and
the getter returns.  `adjustment` is `none` for nil and otherwise the three
elements of the vector. -/
structure LGlyph where
  from_ : Int := 0
  to_ : Int := 0
  char : Int := 0
  code : Nat := 0
  width : Int := 0
  lbearing : Int := 0
  rbearing : Int := 0
  ascent : Int := 0
  descent : Int := 0
  adjustment : Option (Int × Int × Int) := none
  deriving DecidableEq, Repr, Inhabited

/-- An lgstring.  `family` is `Ffont_get (LGSTRING_FONT (lgstring), QCfamily)`.
The glyph vectors are Lisp objects that the C code updates in place and that
may sit in several slots at once, so they live in `heap`, and `glyphs` holds
for every slot `LGSTRING_GLYPH (lgstring, i)` either `none`, for nil, or the
index of the glyph vector in `heap`. -/
structure LGString where
  family : Lisp_Object := nil
  glyphs : List (Option Nat) := []
  heap : List LGlyph := []
  deriving DecidableEq, Repr, Inhabited

/-- `LGSTRING_GLYPH_LEN (lgstring)`. -/
def LGSTRING_GLYPH_LEN (lgstring : LGString) : Nat := lgstring.glyphs.length

/-- The glyph vector in slot `idx`, as index into the heap; `none` when the
slot does not exist or holds nil. -/
def LGSTRING_GLYPH (lgstring : LGString) (idx : Int) : Option Nat :=
  if idx < 0 then none
  else
    match lgstring.glyphs[idx.toNat]? with
    | some (some r) => some r
    | _ => none

/-- The glyph in slot `idx`, for the getters `LGLYPH_FROM (LGSTRING_GLYPH
(lgstring, idx))` and the like. -/
def lglyph_at (lgstring : LGString) (idx : Int) : Option LGlyph :=
  match LGSTRING_GLYPH lgstring idx with
  | none => none
  | some r => lgstring.heap[r]?

/-- The statics of `ftfont_shape_by_flt`: `m17n_flt_initialized`, the member
`allocated` of `gstring` (its glyphs are cleared and filled anew by every
call), and the log of library calls. -/
structure FltState where
  m17n_flt_initialized : Bool := false
  gstring_allocated : Nat := 0
  log : List ShapeCall := []
  deriving DecidableEq, Repr, Inhabited

/-- The loop of lines 1995-2005 over the slots: the number of glyphs before
the first nil and the number of variation selectors among them. -/
def scan_glyphs (H : Host) (heap : List LGlyph) : List (Option Nat) → Option (Nat × Nat)
  | [] => some (0, 0)
  | none :: _ => some (0, 0)
  | some r :: rest =>
    match heap[r]? with
    | none => none
    | some g =>
      match scan_glyphs H heap rest with
      | none => none
      | some n => some (n.1 + 1, if H.CHAR_VARIATION_SELECTOR_P g.char then n.2 + 1 else n.2)

/-- The glyphs in the slots `i`, .., `i + n - 1` of the lgstring. -/
def lglyph_range (lgstring : LGString) : Nat → Nat → Option (List LGlyph)
  | 0, _ => some []
  | n + 1, i =>
    match lglyph_at lgstring (i : Int), lglyph_range lgstring n (i + 1) with
    | some g, some l => some (g :: l)
    | _, _ => none

/-- The loop of lines 2019-2028 from record `i` on: the glyph of the record's
first character takes the glyph id and the end of the record's range, and goes
to slot `i`. -/
def cmap_loop : Nat → List OTF_Glyph → LGString → Option LGString
  | _, [], lgstring => some lgstring
  | i, otfg :: rest, lgstring =>
    match LGSTRING_GLYPH lgstring otfg.index_from, LGSTRING_GLYPH lgstring otfg.index_to with
    | some g0, some g1 =>
      match lgstring.heap[g0]? with
      | none => none
      | some v0 =>
        let heap := lgstring.heap.set g0 { v0 with code := otfg.glyph_id }
        match heap[g0]?, heap[g1]? with
        | some v0, some v1 =>
          if i < lgstring.glyphs.length then
            cmap_loop (i + 1) rest
              { lgstring with heap := heap.set g0 { v0 with to_ := v1.to_ },
                              glyphs := lgstring.glyphs.set i (some g0) }
          else none
        | _, _ => none
    | _, _ => none

/-- Lines 2007-2034: the lgstring, `len` and the log after the characters with
variation selectors have been mapped to glyphs by `OTF_drive_cmap`. -/
def variation_glyphs (E : Shaper) (lgstring : LGString) (len : Nat) (log : List ShapeCall) :
    Option (LGString × Nat × List ShapeCall) :=
  match lglyph_range lgstring len 0 with
  | none => none
  | some gs =>
    let glyphs := gs.map (fun g =>
      ({ c := g.char, index_from := g.from_, index_to := g.to_ } : OTF_Glyph))
    let otf_gstring := E.OTF_drive_cmap glyphs
    match cmap_loop 0 otf_gstring lgstring with
    | none => none
    | some lgstring =>
      if len > otf_gstring.length then
        some ({ lgstring with glyphs := lgstring.glyphs.set otf_gstring.length none },
              otf_gstring.length, log ++ [ShapeCall.OTF_drive_cmap glyphs])
      else some (lgstring, len, log ++ [ShapeCall.OTF_drive_cmap glyphs])

/-- The loop of lines 2089-2097: up to `n` runs of `mflt_run`, the glyph
string being doubled after a run that returns -2.  The value of `result` goes
no further than the test of the loop. -/
def flt_runs (E : Shaper) (len : Nat) (family : Option String) (combining : Bool) :
    Nat → MFLTGlyphString → List ShapeCall → MFLTGlyphString × List ShapeCall
  | 0, gstring, log => (gstring, log)
  | n + 1, gstring, log =>
    let r := E.mflt_run gstring len family combining
    let log := log ++ [ShapeCall.mflt_run gstring len family combining]
    if r.1 ≠ -2 then (r.2, log)
    else flt_runs E len family combining n
      { r.2 with allocated := r.2.allocated + r.2.allocated } log

/-- The loop of lines 2100-2106: the range of a glyph, given in slots of the
lgstring, becomes a range in characters. -/
def char_ranges (lgstring : LGString) : List MFLTGlyph → Option (List MFLTGlyph)
  | [] => some []
  | g :: rest =>
    match lglyph_at lgstring g.from_, lglyph_at lgstring g.to_, char_ranges lgstring rest with
    | some f, some t, some l => some ({ g with from_ := f.from_, to_ := t.to_ } :: l)
    | _, _, _ => none

/-- The loop of lines 2108-2137 from glyph `i` on: the glyphs of `gstring` are
written to the glyph vectors in the slots, a nil slot getting a new vector. -/
def write_glyphs : Nat → List MFLTGlyph → LGString → Option LGString
  | _, [], lgstring => some lgstring
  | i, g :: rest, lgstring =>
    match lgstring.glyphs[i]? with
    | none => none
    | some slot =>
      let lgstring : LGString :=
        match slot with
        | some _ => lgstring
        | none =>
          { lgstring with heap := lgstring.heap ++ [{}],
                          glyphs := lgstring.glyphs.set i (some lgstring.heap.length) }
      let r : Nat :=
        match slot with
        | some r => r
        | none => lgstring.heap.length - 1
      match lgstring.heap[r]? with
      | none => none
      | some v =>
        write_glyphs (i + 1) rest
          { lgstring with
            heap := lgstring.heap.set r
              { v with
                from_ := g.from_, to_ := g.to_, char := g.c, code := g.code,
                width := asr6 g.xadv, lbearing := asr6 g.lbearing, rbearing := asr6 g.rbearing,
                ascent := asr6 g.ascent, descent := asr6 g.descent,
                adjustment :=
                  if g.adjusted then some (asr6 g.xoff, asr6 g.yoff, asr6 g.xadv)
                  else v.adjustment } }

/-- Lines 2098-2138: the value returned, and the lgstring, for the glyphs that
the runs of `mflt_run` have left in `gstring`. -/
def write_lgstring (lgstring : LGString) (glyphs : List MFLTGlyph) :
    Option (Lisp_Object × LGString) :=
  if glyphs.length > LGSTRING_GLYPH_LEN lgstring then some (Qnil, lgstring)
  else
    match char_ranges lgstring glyphs with
    | none => none
    | some glyphs =>
      match write_glyphs 0 glyphs lgstring with
      | none => none
      | some lgstring => some (int glyphs.length, lgstring)

/-- `ftfont_shape_by_flt (lgstring, font, ft_face, otf)`: the value returned,
the lgstring and the statics afterwards.  The face and its tables are what the
`Shaper` answers for. -/
def ftfont_shape_by_flt (H : Host) (E : Shaper) (lgstring : LGString) (st : FltState) :
    Option (Lisp_Object × LGString × FltState) :=
  let st :=
    if !st.m17n_flt_initialized then
      { st with m17n_flt_initialized := true, log := st.log ++ [ShapeCall.M17N_INIT] }
    else st
  match scan_glyphs H lgstring.heap lgstring.glyphs with
  | none => none
  | some scan =>
    let with_variation_selector := scan.2
    let v : Option (LGString × Nat × List ShapeCall) :=
      if with_variation_selector ≠ 0 then variation_glyphs E lgstring scan.1 st.log
      else some (lgstring, scan.1, st.log)
    match v with
    | none => none
    | some v =>
      let lgstring := v.1
      let len := v.2.1
      let allocated :=
        if st.gstring_allocated = 0 then len * 2
        else if st.gstring_allocated < len * 2 then len * 2
        else st.gstring_allocated
      match lglyph_range lgstring len 0 with
      | none => none
      | some gs =>
        let glyphs := gs.map (fun g =>
          if with_variation_selector ≠ 0 then
            ({ c := g.char, code := g.code, encoded := true } : MFLTGlyph)
          else { c := g.char })
        let family :=
          if NILP lgstring.family then none else some (Fdowncase (SYMBOL_NAME lgstring.family))
        let combining :=
          match glyphs[1]? with
          | some g => decide (len > 1 ∧ g.c ≥ 0x300 ∧ g.c ≤ 0x36F)
          | none => false
        let run := flt_runs E len family combining 3
          { allocated := allocated, glyphs := glyphs } v.2.2
        let gstring := run.1
        let st := { st with gstring_allocated := gstring.allocated, log := run.2 }
        match write_lgstring lgstring gstring.glyphs with
        | none => none
        | some r => some (r.1, r.2, st)

/-! ## Text extents -/

/-- The struct `font_metrics`.  Its declaration is in `font.h`; the members
are taken to hold the values that `ftfont_text_extents` stores in them. -/
structure font_metrics where
  lbearing : Int := 0
  rbearing : Int := 0
  width : Int := 0
  ascent : Int := 0
  descent : Int := 0
  deriving DecidableEq, Repr, Inhabited

/-- Lines 1386-1409 of `ftfont_text_extents`: what a loaded glyph with the
metrics `m` does to `*metrics`, `width` being the advance so far. -/
def extend_metrics (m : FT_Glyph_Metrics) (width : Int) (first : Bool) (mt : font_metrics) :
    font_metrics :=
  let mt :=
    if first then
      { mt with
        lbearing := asr6 m.horiBearingX,
        rbearing := asr6 (m.horiBearingX + m.width),
        ascent := asr6 m.horiBearingY,
        descent := asr6 (m.height - m.horiBearingY) }
    else mt
  let mt :=
    if mt.lbearing > width + asr6 m.horiBearingX then
      { mt with lbearing := width + asr6 m.horiBearingX }
    else mt
  let mt :=
    if mt.rbearing < width + asr6 (m.horiBearingX + m.width) then
      { mt with rbearing := width + asr6 (m.horiBearingX + m.width) }
    else mt
  let mt :=
    if mt.ascent < asr6 m.horiBearingY then { mt with ascent := asr6 m.horiBearingY }
    else mt
  if mt.descent > asr6 (m.height - m.horiBearingY) then
    { mt with descent := asr6 (m.height - m.horiBearingY) }
  else mt

/-- What the loop of `ftfont_text_extents` carries from one glyph to the next:
`width`, `first`, `*metrics` (`none` when `metrics` is a null pointer), and
the log. -/
structure ExtentsState where
  width : Int := 0
  first : Bool := true
  metrics : Option font_metrics := none
  log : List ShapeCall := []
  deriving DecidableEq, Repr, Inhabited

/-- The body of the loop of lines 1380-1416 for one glyph code. -/
def extents_step (E : Shaper) (space_width : Int) (s : ExtentsState) (code : Nat) :
    ExtentsState :=
  let log := s.log ++ [ShapeCall.FT_Load_Glyph code false]
  match E.FT_Load_Glyph code with
  | some m =>
    { width := int32 (s.width + asr6 m.horiAdvance),
      first := false,
      metrics := s.metrics.map (extend_metrics m s.width s.first),
      log := log }
  | none => { s with width := int32 (s.width + space_width), log := log }

/-- `ftfont_text_extents (font, code, nglyphs, metrics)`: the return value,
`*metrics` and the log.  `code` lists the `nglyphs` codes, `active` is
`ft_face->size`, and `metrics` is `none` for a null pointer. -/
def ftfont_text_extents (E : Shaper) (font : ftfont_info) (active : Option Nat)
    (code : List Nat) (metrics : Option font_metrics) (log : List ShapeCall) :
    Int × Option font_metrics × List ShapeCall :=
  let log :=
    if font.ft_size ≠ active then log ++ [ShapeCall.FT_Activate_Size font.ft_size] else log
  let metrics := metrics.map (fun _ => ({} : font_metrics))
  let s := code.foldl (extents_step E font.space_width)
    { width := 0, first := true, metrics := metrics, log := log }
  (s.width, s.metrics.map (fun mt => { mt with width := s.width }), s.log)

/-! ## Checking the features of a face -/

/-- The loop of lines 1646-1654 of `ftfont_check_otf` over the elements before
the terminator, from index `n` on: the array `tags` (`none` for an element
never written) and `negative`.  The result is `none` for a write outside the
array. -/
def tags_loop : List Nat → Nat → Bool → List (Option Nat) → Option (List (Option Nat) × Bool)
  | [], _, negative, tags => some (tags, negative)
  | f :: fs, n, negative, tags =>
    if f == 0xFFFFFFFF then tags_loop fs (n + 1) true tags
    else if negative then
      if n - 1 < tags.length then
        tags_loop fs (n + 1) negative (tags.set (n - 1) (some (f ||| 0x80000000)))
      else none
    else if n < tags.length then tags_loop fs (n + 1) negative (tags.set n (some f))
    else none

/-- The elements of an array that the callee reads; `none` when one of them
was never written. -/
def read_tags : List (Option Nat) → Option (List Nat)
  | [] => some []
  | none :: _ => none
  | some t :: ts => (read_tags ts).map (fun l => t :: l)

/-- The body of the loop of lines 1640-1659 for one stage: whether the loop
goes on (`false` is `return 0`), and the log.  The result is `none` when the
feature array holds no terminator, and when the engine is handed an element of
`tags` that was never written. -/
def check_stage (E : Shaper) (spec : MFLTOtfSpec) (gsubp : Bool) (features : Option (List Nat))
    (log : List ShapeCall) : Option (Bool × List ShapeCall) :=
  match features with
  | none => some (true, log)
  | some arr =>
    let fs := arr.takeWhile (fun t => t != 0)
    if fs.length = arr.length then none
    else
      match tags_loop fs 0 false (List.replicate fs.length none) with
      | none => none
      | some r =>
        let count := fs.length - (if r.2 then 1 else 0)
        if count > 0 then
          match read_tags (r.1.take count) with
          | none => none
          | some tags =>
            some (E.OTF_check_features gsubp spec.script spec.langsys tags == 1,
                  log ++ [ShapeCall.OTF_check_features gsubp spec.script spec.langsys tags])
        else some (true, log)

/-- `ftfont_check_otf (font, spec)`: the return value and the log. -/
def ftfont_check_otf (E : Shaper) (spec : MFLTOtfSpec) (log : List ShapeCall) :
    Option (Int × List ShapeCall) :=
  match check_stage E spec true spec.features0 log with
  | none => none
  | some r0 =>
    if !r0.1 then some (0, r0.2)
    else
      match check_stage E spec false spec.features1 r0.2 with
      | none => none
      | some r1 => if !r1.1 then some (0, r1.2) else some (1, r1.2)

/-! ## Reading the log and the feature string -/

/-- Whether a logged call is a call of `OTF_drive_gsub`. -/
def ShapeCall.is_gsub : ShapeCall → Bool
  | .OTF_drive_gsub _ _ _ _ => true
  | _ => false

/-- The calls of `OTF_drive_gsub` in a log, oldest first. -/
def gsub_calls (log : List ShapeCall) : List ShapeCall := log.filter ShapeCall.is_gsub

/-- The name an element of a feature list stands for in a feature string: `*`
for the marker `0xFFFFFFFF`, the four bytes of the tag otherwise. -/
def element_name (t : Nat) : List Nat :=
  if t == 0xFFFFFFFF then [42] else (OTF_tag_name t).take 4

/-- The names of the elements of a feature list joined by commas, with no
comma after the last. -/
def comma_joined : List Nat → List Nat
  | [] => []
  | [t] => element_name t
  | t :: ts => element_name t ++ [44] ++ comma_joined ts

/-- The elements of a feature array before its terminating 0. -/
def named_elements (arr : List Nat) : List Nat := arr.takeWhile (fun t => t != 0)

/-! ## Device tables, as the specification words them -/

/-- A zero-terminated feature list with at most one marker: the tags
`a1 .. ak` before the marker, whether the marker `0xFFFFFFFF` is there, the
tags `b1 .. bm` after it, and what the array holds behind the terminator. -/
structure FeatureList where
  enabled : List Nat := []
  marker : Bool := false
  disabled : List Nat := []
  rest : List Nat := []
  deriving DecidableEq, Repr, Inhabited

/-- The elements of the array of a feature list. -/
def FeatureList.array (l : FeatureList) : List Nat :=
  l.enabled ++ (if l.marker then 0xFFFFFFFF :: l.disabled else []) ++ 0 :: l.rest

/-- Whether the tags of a feature list are tags: none is 0 or the marker. -/
def FeatureList.valid (l : FeatureList) : Bool :=
  (l.enabled ++ l.disabled).all (fun t => t != 0 && t != 0xFFFFFFFF)

/-- The tag array `[a1 .. ak, b1 | 0x80000000, .., bm | 0x80000000]` of a
feature list. -/
def FeatureList.tags (l : FeatureList) : List Nat :=
  l.enabled ++ (if l.marker then l.disabled.map (fun t => t ||| 0x80000000) else [])

/-- The tag array of a stage: empty for a null list. -/
def stage_tags (l : Option FeatureList) : List Nat := (l.map FeatureList.tags).getD []

/-- Whether a stage passes: no check is made for an empty tag array, and the
check made otherwise returns 1. -/
def stage_passes (E : Shaper) (spec : MFLTOtfSpec) (gsubp : Bool) (tags : List Nat) : Bool :=
  tags.isEmpty || E.OTF_check_features gsubp spec.script spec.langsys tags == 1

/-- The call a stage makes: none for an empty tag array. -/
def stage_calls (spec : MFLTOtfSpec) (gsubp : Bool) (tags : List Nat) : List ShapeCall :=
  if tags.isEmpty then [] else [ShapeCall.OTF_check_features gsubp spec.script spec.langsys tags]

/-! ## The `:otf` properties of a font spec -/

/-- The values of the `:otf` properties in the extra slot of a font spec, in
the order of the list. -/
def otf_properties : Lisp_Object → List Lisp_Object
  | cons x rest =>
    if EQ (XCAR x) QCotf then XCDR x :: otf_properties rest else otf_properties rest
  | _ => []

/-! ## The candidates of a listing -/

/-- The values `ftfont_list` holds when it enters the loop over the font set:
`spacing`, the string in `otlayout`, `otspec`, `chars`, `adstyle`, and
`fontset->fonts`. -/
structure ListQuery where
  spacing : Int
  otlayout : List Char
  otspec : Option OpenTypeSpec
  chars : Lisp_Object
  adstyle : Lisp_Object
  fonts : List FcPattern
  deriving DecidableEq, Repr

/-- Lines 880-936 of `ftfont_list`: everything up to the `FcFontList` query.
`none` stands for the exits that return `Qnil` before the loop (no pattern, an
error of fontconfig, a null font set). -/
def list_query (H : Host) (P : Provider) (spec : Font) (st : FtState) :
    Option ListQuery × FtState :=
  let st := if !st.fc_initialized then { st.call .FcInit with fc_initialized := true } else st
  let sp := ftfont_spec_pattern H P spec st
  match sp.1 with
  | none => (none, sp.2)
  | some sp1 =>
    let st := sp.2
    let pattern := sp1.pattern
    let chars : Lisp_Object :=
      if pattern.charset.isNone then
        let val := assq_no_quit QCscript spec.extra
        if !NILP val then
          let val := assq_no_quit (XCDR val) H.Vscript_representative_chars
          if CONSP val && VECTORP (XCDR val) then XCDR val else Qnil
        else Qnil
      else Qnil
    let spacing : Int := if INTEGERP spec.spacing then XINT spec.spacing else -1
    let fam : Option FcPattern × FtState :=
      if !NILP spec.family then
        let r := ftfont_resolve_generic_family P spec.family pattern st
        if !NILP r.1 then
          let a := fc_call P (.FcPatternAddString "family" (SYMBOL_NAME r.1)) r.2
          (if a.1 then some { pattern with family := some (SYMBOL_NAME r.1) } else none, a.2)
        else (some pattern, r.2)
      else (some pattern, st)
    match fam.1 with
    | none => (none, fam.2)
    | some pattern =>
      let st := fam.2
      let adstyle :=
        if !NILP spec.adstyle && (SYMBOL_NAME spec.adstyle).isEmpty then Qnil else spec.adstyle
      let objset := P.FcObjectSetBuild st.clock
      let st := st.call (.FcObjectSetBuild list_objects)
      if !objset then (none, st) else
      let st := if !NILP chars then st.call (.FcObjectSetAdd "charset") else st
      let objects := if !NILP chars then list_objects ++ ["charset"] else list_objects
      let fontset := P.FcFontList st.clock pattern objects
      let st := st.call (.FcFontList pattern objects)
      match fontset with
      | none => (none, st)
      | some fonts =>
        (some { spacing := spacing, otlayout := sp1.otlayout, otspec := sp1.otspec,
                chars := chars, adstyle := adstyle, fonts := fonts }, st)

/-- What one candidate of the font set contributes to the listing, in the
words of the specification: the entity it materializes to when it passes the
spacing, capability, feature-table, charset and ad-style filters, and nothing
when a filter rejects it or the entity is nil.  The state is the one in which
the candidate is examined; the new state records the library calls and cache
entries examining it has caused. -/
def candidate_entity (H : Host) (P : Provider) (spec : Font) (q : ListQuery) (font : FcPattern)
    (st : FtState) : Option Font × FtState :=
  if spacing_filter q.spacing font || capability_filter q.otlayout font then (none, st)
  else
    let o := otf_filter P q.otspec font st
    if o.1 || chars_filter q.chars font || adstyle_filter H q.adstyle font then (none, o.2)
    else ftfont_pattern_entity H P font spec.extra o.2

/-- The state in which candidate number `i` of `fonts` is examined, when the
first candidate is examined in `st`. -/
def state_before (H : Host) (P : Provider) (spec : Font) (q : ListQuery) :
    List FcPattern → Nat → FtState → FtState
  | font :: rest, i + 1, st => state_before H P spec q rest i (candidate_entity H P spec q font st).2
  | _, _, st => st

/-- The listing the specification asks for: the entities of the candidates, in
the order in which the matching engine returned them. -/
def listed_entities (H : Host) (P : Provider) (spec : Font) (q : ListQuery) (st : FtState) :
    List Font :=
  (List.range q.fonts.length).filterMap (fun i =>
    match q.fonts[i]? with
    | none => none
    | some font => (candidate_entity H P spec q font (state_before H P spec q q.fonts i st)).1)

/-! ## Ad-styles by token -/

/-- The first space-delimited token of a style string: the first of the pieces
the string falls into when it is cut at its spaces. -/
def first_token (s : List Char) : List Char := (s.splitOn ' ').headD []

/-- The ad-style the specification gives for the first token `t` of a style
string: nil when `t` is one of the standard weight and slant keywords, whatever
its case, or has a value on the width axis, and `t` as a property otherwise. -/
def adstyle_of_token (H : Host) (t : List Char) : Lisp_Object :=
  if t.map Char.toLower ∈ ["regular".toList, "bold".toList, "oblique".toList, "italic".toList]
  then Qnil
  else if 0 ≤ H.font_style_to_value FONT_WIDTH_INDEX (H.font_intern_prop (String.mk t) false) false
  then Qnil
  else H.font_intern_prop (String.mk t) false

/-! ## More concrete inputs -/

/-- Four candidates: a scalable monospace font `a.ttf`, a proportional font
`b.ttf`, a monospace candidate without a file, and a scalable monospace font
`c.ttf`. -/
def fourFonts : List FcPattern :=
  [{ file := some "a.ttf", index := some 0, spacing := some 100, scalable := some true },
   { file := some "b.ttf", index := some 0, spacing := some 0, scalable := some true },
   { spacing := some 100 },
   { file := some "c.ttf", index := some 0, spacing := some 100, scalable := some true }]

/-- As `okProvider`, but `FcFontList` returns `fourFonts`. -/
def fourFontsProvider : Provider :=
  { okProvider with FcFontList := fun _ _ _ => some fourFonts }

/-- A spec asking for monospace fonts. -/
def monoSpacingSpec : Font := { spacing := int 100 }

/-- What `ftfont_list` holds on entering its loop for `monoSpacingSpec` with
`fourFontsProvider`. -/
def fourFontsQuery : ListQuery :=
  { spacing := 100, otlayout := [], otspec := none, chars := nil, adstyle := nil,
    fonts := fourFonts }

/-- The entity of `c.ttf`. -/
def sampleEntityC : Font :=
  { sampleEntity with extra := cons (cons QCfont_entity (cons (str "c.ttf") (int 0))) nil }

/-! ## Concrete glyph strings and shapers -/

/-- The glyph of `f`, character 0 of the text. -/
def fGlyph : MFLTGlyph :=
  { c := 102, code := 73, from_ := 0, to_ := 0, encoded := true, measured := true }

/-- The glyph of `i`, character 1 of the text. -/
def iGlyph : MFLTGlyph :=
  { c := 105, code := 76, from_ := 1, to_ := 1, encoded := true, measured := true }

/-- The script `latn` with the substitution feature `liga` and no positioning
feature. -/
def ligaSpec : MFLTOtfSpec := { script := 0x6C61746E, features0 := some [0x6C696761, 0] }

/-- The arguments of a call that shapes `fi` into an empty glyph string with
room for four glyphs. -/
def ligaInput : DriveState :=
  { in_ := [fGlyph, iGlyph], out := { allocated := 4 }, adjustment := [{}, {}, {}, {}] }

/-- A face whose substitution table turns the two glyphs of `fi` into the
ligature glyph 300. -/
def ligaShaper : Shaper :=
  { OTF_drive_gsub := fun _ _ _ _ => some [{ glyph_id := 300, index_from := 0, index_to := 1 }] }

/-- A face whose substitution table turns the two glyphs of `fi` into the two
glyphs 300 and 301, both derived from both input glyphs. -/
def manyToManyShaper : Shaper :=
  { OTF_drive_gsub := fun _ _ _ _ =>
      some [{ glyph_id := 300, index_from := 0, index_to := 1 },
            { glyph_id := 301, index_from := 0, index_to := 1 }] }

/-- The script `latn` with the substitution feature `liga` and the positioning
feature `kern`. -/
def ligaKernSpec : MFLTOtfSpec :=
  { script := 0x6C61746E, features0 := some [0x6C696761, 0], features1 := some [0x6B65726E, 0] }

/-- A face whose tables change nothing: substitution hands every glyph back
as derived from itself, and positioning reports type 0 for every glyph. -/
def identityShaper : Shaper :=
  { OTF_drive_gsub := fun g _ _ _ =>
      some (List.zipWith (fun r i => { r with index_from := (i : Int), index_to := (i : Int) })
        g (List.range g.length))
    OTF_drive_gpos := fun g _ _ _ => some (g.map (fun r => { r with positioning_type := 0 })) }

/-- As `ligaInput`, with glyphs that have not been measured yet. -/
def unmeasuredInput : DriveState :=
  { ligaInput with
    in_ := [{ fGlyph with measured := false }, { iGlyph with measured := false }] }

/-- A face for which the substitution engine reports an error and no glyph
can be loaded. -/
def failingShaper : Shaper := {}

/-- A face for which the substitution engine reports an error and every glyph
loads with the same metrics. -/
def noTablesShaper : Shaper :=
  { FT_Load_Glyph := fun _ =>
      some { width := 512, height := 640, horiBearingX := 64, horiBearingY := 576,
             horiAdvance := 640 } }

/-- As `ligaInput`, but `out` has room for one glyph only. -/
def smallOutput : DriveState := { ligaInput with out := { allocated := 1 } }

/-- The script `latn` with the positioning feature `mark` and no substitution
feature. -/
def markSpec : MFLTOtfSpec := { script := 0x6C61746E, features1 := some [0x6D61726B, 0] }

/-- The record of a mark glyph attached to a base: positioning type 4
(mark-to-base), base anchor at (500, 700), mark anchor at (100, 100), both in
the fixed-coordinate format 1. -/
def markRecord : OTF_Glyph :=
  { glyph_id := 20, GlyphClass := 3, positioning_type := 4,
    base_anchor := { AnchorFormat := 1, XCoordinate := 500, YCoordinate := 700 },
    mark_anchor := { AnchorFormat := 1, XCoordinate := 100, YCoordinate := 100 } }

/-- A face at scale `0x10000` whose positioning table attaches the second
glyph, a mark, to the first, a base glyph. -/
def markShaper : Shaper :=
  { x_scale := 0x10000
    y_scale := 0x10000
    OTF_drive_gpos := fun _ _ _ _ => some [{ glyph_id := 10, GlyphClass := 1 }, markRecord] }

/-- The arguments of a call that shapes a base glyph and a combining mark
into an empty glyph string with room for four glyphs. -/
def markInput : DriveState :=
  { in_ := [{ c := 97, code := 10, from_ := 0, to_ := 0 },
            { c := 0x301, code := 20, from_ := 1, to_ := 1 }],
    out := { allocated := 4 }, adjustment := [{}, {}, {}, {}] }

/-- The state of the positioning loop of that call when it reaches the mark:
the base glyph is the current base and mark. -/
def markPosState : PosState :=
  { base := some 0, mark := some 0, glyphs := markInput.in_, adjustment := [{}, {}, {}, {}],
    log := [ShapeCall.OTF_drive_gdef (fill_otf_gstring markInput.in_),
            ShapeCall.OTF_drive_gpos (fill_otf_gstring markInput.in_) (script_name markSpec)
              (langsys_name markSpec) "mark".toList] }

/-- The lgstring of the text `ab`: two glyph vectors with codes, ranges and
metrics, and no nil slot. -/
def abString : LGString :=
  { glyphs := [some 0, some 1],
    heap := [{ from_ := 0, to_ := 0, char := 97, code := 68, width := 7, lbearing := 1,
               rbearing := 6, ascent := 8, descent := 0 },
             { from_ := 1, to_ := 1, char := 98, code := 69, width := 7, lbearing := 1,
               rbearing := 6, ascent := 11, descent := 0 }] }

/-- A face for which the layout run fails: `mflt_run` returns `r` and leaves
the glyph string as it got it. -/
def errorShaper (r : Int) : Shaper := { mflt_run := fun g _ _ _ => (r, g) }

/-- The lgstring `abString` after a call of `ftfont_shape_by_flt` whose layout
run has failed: codes and metrics are cleared and both glyphs have the range
of the first character. -/
def abStringAfterFailure : LGString :=
  { glyphs := [some 0, some 1],
    heap := [{ from_ := 0, to_ := 0, char := 97 }, { from_ := 0, to_ := 0, char := 98 }] }

/-! ## More sample data -/

/-- A state whose face cache holds an entity for the key of `a.ttf`, index 0. -/
def cachedEntityState : FtState :=
  { fc_initialized := true,
    ft_face_cache := some [(sampleKey, { entity := some sampleEntity })] }

/-- A pattern for `a.ttf`, index 0, whose other objects differ from the
properties of `sampleEntity`. -/
def otherPattern : FcPattern :=
  { file := some "a.ttf", index := some 0, family := some "Other", weight := some 200,
    scalable := some false }

/-- The glyph of the ligature `fi`: glyph 300 for the characters 0 to 1. -/
def fiGlyph : MFLTGlyph :=
  { c := 0, code := 300, from_ := 0, to_ := 1, encoded := true, measured := false }

/-- What the call on `ligaInput` with `ligaShaper` and `ligaSpec` leaves: the
ligature glyph in `out`, and the two library calls in the log. -/
def ligaResult : DriveState :=
  { in_ := [fGlyph, iGlyph],
    out := { allocated := 4, glyphs := [fiGlyph] },
    adjustment := [{}, {}, {}, {}],
    log := [ShapeCall.OTF_drive_gdef (fill_otf_gstring [fGlyph, iGlyph]),
            ShapeCall.OTF_drive_gsub (fill_otf_gstring [fGlyph, iGlyph]) "latn".toList none
              "liga".toList] }

/-- A face whose positioning table reports a mark-to-base record for the
first glyph, before any base glyph has been seen, and a base glyph after it. -/
def markFirstShaper : Shaper :=
  { x_scale := 0x10000
    y_scale := 0x10000
    OTF_drive_gpos := fun _ _ _ _ => some [markRecord, { glyph_id := 10, GlyphClass := 1 }] }

/-- The state of the positioning loop at its start for `markInput`: no base
and no mark yet. -/
def markStartState : PosState :=
  { glyphs := markInput.in_, adjustment := [{}, {}, {}, {}] }

/-- A glyph that has no glyph id in the font and has not been measured. -/
def unmappedGlyph : MFLTGlyph :=
  { c := 0x3042, code := FONT_INVALID_CODE, from_ := 1, to_ := 1, encoded := true }

/-- Three glyphs: a measured one, one without glyph id, and one with a glyph
id that has not been measured. -/
def mixedGlyphs : List MFLTGlyph := [fGlyph, unmappedGlyph, { iGlyph with measured := false }]

/-- A font with space width 7, ascent 10 and descent 3. -/
def sampleFltFont : MFLTFontFT := { space_width := 7, ascent := 10, descent := 3 }

/-- A face with two glyphs: glyph 1 reaches 8 pixels above and 2 below the
baseline, glyph 2 reaches 6 above and 5 below; both advance by 9 pixels.  No
other glyph can be loaded. -/
def twoGlyphShaper : Shaper :=
  { FT_Load_Glyph := fun code =>
      if code = 1 then
        some { width := 448, height := 640, horiBearingX := 64, horiBearingY := 512,
               horiAdvance := 576 }
      else if code = 2 then
        some { width := 448, height := 704, horiBearingX := 64, horiBearingY := 384,
               horiAdvance := 576 }
      else none }

/-- The feature list `[liga, 0xFFFFFFFF, kern, clig]`. -/
def ligaNotKernClig : FeatureList :=
  { enabled := [0x6C696761], marker := true, disabled := [0x6B65726E, 0x636C6967] }

/-- The script `latn` with that substitution feature list and no positioning
feature list. -/
def checkSpec : MFLTOtfSpec :=
  { script := 0x6C61746E, features0 := some [0x6C696761, 0xFFFFFFFF, 0x6B65726E, 0x636C6967, 0] }

/-- A face whose tables pass the feature check exactly for the tag array
`[liga, kern | 0x80000000, clig | 0x80000000]`. -/
def checkShaper : Shaper :=
  { OTF_check_features := fun _ _ _ tags =>
      if tags = [0x6C696761, 0xEB65726E, 0xE36C6967] then 1 else 0 }

/-- A font spec whose only extra property is `:otf` with the script `latn`. -/
def latnSpec : Font := { extra := cons (cons QCotf (cons (sym "latn") nil)) nil }

/-- A font spec whose only extra property is `:otf` without a script. -/
def noScriptSpec : Font := { extra := cons (cons QCotf (cons nil nil)) nil }

/-! # Theorems -/
theorem width_loop_log (P : Provider) (face : Nat) (file : String) (index : Int)
    (fuel i : Nat) (acc : Int × Int × Int × Int) (st : FtState) :
    ∃ l, (width_loop P face file index fuel i acc st).2 = { st with log := st.log ++ l } := by
  induction fuel generalizing i acc st with
  | zero => exact ⟨[], by simp [width_loop]⟩
  | succ n ih =>
    obtain ⟨a, b, c, d⟩ := acc
    simp only [width_loop]
    split
    · obtain ⟨l, hl⟩ := ih (i + 1) _ (st.call (LibCall.FT_Load_Char face i))
      exact ⟨LibCall.FT_Load_Char face i :: l, by rw [hl]; simp [FtState.call]⟩
    · obtain ⟨l, hl⟩ := ih (i + 1) _ (st.call (LibCall.FT_Load_Char face i))
      exact ⟨LibCall.FT_Load_Char face i :: l, by rw [hl]; simp [FtState.call]⟩

theorem font_widths_log (P : Provider) (entity : Font) (file : String) (index : Int)
    (ft_face size : Nat) (scalable : Bool) (info : FT_FaceInfo) (st : FtState) :
    ∃ l, (font_widths P entity file index ft_face size scalable info st).2
      = { st with log := st.log ++ l } := by
  unfold font_widths
  dsimp only
  by_cases h : (if INTEGERP entity.spacing = true then XINT entity.spacing
      else FC_PROPORTIONAL) ≠ FC_PROPORTIONAL
  · rw [if_pos h]; exact ⟨[], by simp⟩
  · rw [if_neg h]; exact width_loop_log _ _ _ _ _ _ _ _

theorem make_font_object_spec (P : Provider) (entity : Font) (filename index : Lisp_Object)
    (ft_face size : Nat) (st : FtState) :
    ∃ f l, make_font_object P entity filename index ft_face size st
        = (f, { st with log := st.log ++ l }) ∧
      f.file = filename ∧ f.index = XINT index ∧ f.ft_size = st.activeSize ft_face ∧
      f.otf = none := by
  obtain ⟨l, hl⟩ := font_widths_log P entity (SDATA filename) (XINT index) ft_face size
    (INTEGERP entity.avgwidth && XINT entity.avgwidth == 0)
    (P.face_info (SDATA filename) (XINT index) size) st
  refine ⟨(make_font_object P entity filename index ft_face size st).1, l, ?_, rfl, rfl, rfl, rfl⟩
  exact Prod.ext rfl hl

theorem Fgethash_Fputhash_self (k : Lisp_Object) (v : CacheCons) (l : List (Lisp_Object × CacheCons)) :
    Fgethash k (Fputhash k v l) = some v := by
  induction l with
  | nil => simp [Fputhash, Fgethash]
  | cons a l ih =>
    obtain ⟨k', w⟩ := a
    by_cases h : k' = k
    · simp [Fputhash, Fgethash, h]
    · simp [Fputhash, Fgethash, h, ih]

theorem Fgethash_Fputhash_of_ne (k k' : Lisp_Object) (v : CacheCons)
    (l : List (Lisp_Object × CacheCons)) (h : k' ≠ k) :
    Fgethash k' (Fputhash k v l) = Fgethash k' l := by
  induction l with
  | nil => simp [Fputhash, Fgethash, Ne.symm h]
  | cons a l ih =>
    obtain ⟨k'', w⟩ := a
    by_cases h1 : k'' = k
    · subst h1
      simp [Fputhash, Fgethash, Ne.symm h]
    · by_cases h2 : k'' = k'
      · subst h2
        simp [Fputhash, Fgethash, h1]
      · simp [Fputhash, Fgethash, h1, h2, ih]

@[simp] theorem entry_setEntry_self (st : FtState) (k : Lisp_Object) (v : CacheCons) :
    (st.setEntry k v).entry k = some v := by
  simp [FtState.setEntry, FtState.entry, Fgethash_Fputhash_self]

theorem entry_setEntry_of_ne (st : FtState) (k k' : Lisp_Object) (v : CacheCons) (h : k' ≠ k) :
    (st.setEntry k v).entry k' = st.entry k' := by
  unfold FtState.setEntry FtState.entry
  simp only [Fgethash_Fputhash_of_ne _ _ _ _ h]
  cases st.ft_face_cache <;> simp [Fgethash]

@[simp] theorem setEntry_faces (st : FtState) (k : Lisp_Object) (v : CacheCons) :
    (st.setEntry k v).faces = st.faces := rfl
@[simp] theorem setEntry_sizes (st : FtState) (k : Lisp_Object) (v : CacheCons) :
    (st.setEntry k v).sizes = st.sizes := rfl
@[simp] theorem setEntry_next (st : FtState) (k : Lisp_Object) (v : CacheCons) :
    (st.setEntry k v).next = st.next := rfl
@[simp] theorem setEntry_log (st : FtState) (k : Lisp_Object) (v : CacheCons) :
    (st.setEntry k v).log = st.log := rfl
@[simp] theorem setEntry_ft_library (st : FtState) (k : Lisp_Object) (v : CacheCons) :
    (st.setEntry k v).ft_library = st.ft_library := rfl
@[simp] theorem setEntry_clock (st : FtState) (k : Lisp_Object) (v : CacheCons) :
    (st.setEntry k v).clock = st.clock := rfl
@[simp] theorem call_faces (st : FtState) (c : LibCall) : (st.call c).faces = st.faces := rfl
@[simp] theorem call_sizes (st : FtState) (c : LibCall) : (st.call c).sizes = st.sizes := rfl
@[simp] theorem call_next (st : FtState) (c : LibCall) : (st.call c).next = st.next := rfl
@[simp] theorem call_log (st : FtState) (c : LibCall) : (st.call c).log = st.log ++ [c] := rfl
@[simp] theorem call_ft_library (st : FtState) (c : LibCall) :
    (st.call c).ft_library = st.ft_library := rfl
@[simp] theorem call_entry (st : FtState) (c : LibCall) (k : Lisp_Object) :
    (st.call c).entry k = st.entry k := rfl
@[simp] theorem call_setEntry (st : FtState) (c : LibCall) (k : Lisp_Object) (v : CacheCons) :
    (st.call c).setEntry k v = (st.setEntry k v).call c := rfl

theorem Fputhash_Fputhash (k : Lisp_Object) (v w : CacheCons)
    (l : List (Lisp_Object × CacheCons)) :
    Fputhash k v (Fputhash k w l) = Fputhash k v l := by
  induction l with
  | nil => simp [Fputhash]
  | cons a l ih =>
    obtain ⟨k', u⟩ := a
    by_cases h : k' = k
    · simp [Fputhash, h]
    · simp [Fputhash, h, ih]

@[simp] theorem setEntry_setEntry (st : FtState) (k : Lisp_Object) (v w : CacheCons) :
    (st.setEntry k w).setEntry k v = st.setEntry k v := by
  simp [FtState.setEntry, Fputhash_Fputhash]

theorem lookup_face_ok (P : Provider) (st : FtState) (file : String) (index : Int)
    (hinit : ∀ t, P.FT_Init_FreeType t = true)
    (hface : ∀ t, P.FT_New_Face t file index = true) :
    ∃ l, lookup_face P file index st =
      (some st.next,
       { st with
         ft_library := true,
         faces := { handle := st.next, file := file, index := index,
                    size := some (st.next + 1) } :: st.faces,
         sizes := (st.next + 1, st.next) :: st.sizes,
         next := st.next + 2,
         log := st.log ++ l }) ∧ LibCall.FT_New_Face file index ∈ l := by
  by_cases hlib : st.ft_library = true
  · refine ⟨[LibCall.FT_New_Face file index], ?_, by simp⟩
    simp [lookup_face, hlib, hface, FT_New_Face_ok, FtState.call]
  · refine ⟨[LibCall.FT_Init_FreeType, LibCall.FT_New_Face file index], ?_, by simp⟩
    simp [lookup_face, hlib, hinit, hface, FT_New_Face_ok, FtState.call]

/-- A face lookup on a key whose face is closed, when FreeType can open it. -/
theorem lookup_cache_face_opens (P : Provider) (st : FtState) (file : String) (index : Int)
    (hface0 : ((st.entry (cons (str file) (int index))).getD {}).pointer.ft_face = none)
    (hinit : ∀ t, P.FT_Init_FreeType t = true)
    (hface : ∀ t, P.FT_New_Face t file index = true) :
    ∃ l, ftfont_lookup_cache P (.key (cons (str file) (int index))) FTFONT_CACHE_FOR_FACE st =
      some (some (cons (str file) (int index)),
        { st with
          ft_library := true,
          ft_face_cache := some (Fputhash (cons (str file) (int index))
            { (st.entry (cons (str file) (int index))).getD {} with
              pointer := { ((st.entry (cons (str file) (int index))).getD {}).pointer with
                           ft_face := some st.next } }
            (st.ft_face_cache.getD [])),
          faces := { handle := st.next, file := file, index := index,
                     size := some (st.next + 1) } :: st.faces,
          sizes := (st.next + 1, st.next) :: st.sizes,
          next := st.next + 2,
          log := st.log ++ l }) ∧ LibCall.FT_New_Face file index ∈ l := by
  cases hent : st.entry (cons (str file) (int index)) with
  | none =>
    obtain ⟨l, hl, hmem⟩ := lookup_face_ok P (st.setEntry (cons (str file) (int index)) {})
      file index hinit hface
    refine ⟨l, ?_, hmem⟩
    simp [ftfont_lookup_cache, hent, hl]
    simp [FtState.setEntry, Fputhash_Fputhash]
  | some c =>
    rw [hent] at hface0
    obtain ⟨l, hl, hmem⟩ := lookup_face_ok P st file index hinit hface
    refine ⟨l, ?_, hmem⟩
    simp at hface0
    simp [ftfont_lookup_cache, hent, hl, hface0]
    simp [FtState.setEntry]

/-- A face lookup on a key whose face is open returns the entry untouched. -/
theorem lookup_cache_face_hit (P : Provider) (st : FtState) (key : Lisp_Object) (c : CacheCons)
    (h : Nat) (hent : st.entry key = some c) (hface : c.pointer.ft_face = some h) :
    ftfont_lookup_cache P (.key key) FTFONT_CACHE_FOR_FACE st = some (some key, st) := by
  simp [ftfont_lookup_cache, hent, hface]

@[simp] theorem XINT_int (n : Int) : XINT (int n) = n := rfl
@[simp] theorem XCAR_cons (a b : Lisp_Object) : XCAR (cons a b) = a := rfl
@[simp] theorem XCDR_cons (a b : Lisp_Object) : XCDR (cons a b) = b := rfl
@[simp] theorem SDATA_str (s : String) : SDATA (str s) = s := rfl

theorem lookup_cache_entity (P : Provider) (st : FtState) (e : Font) (a key : Lisp_Object)
    (cf : ftfont_cache_for)
    (hkey : assq_no_quit QCfont_entity e.extra = cons a key) :
    ftfont_lookup_cache P (.entity e) cf st = ftfont_lookup_cache P (.key key) cf st := by
  simp [ftfont_lookup_cache, hkey]

theorem entry_mk_Fputhash (a b : Bool) (k : Lisp_Object) (v : CacheCons)
    (t : List (Lisp_Object × CacheCons)) (d : Lisp_Object) (m : List (Nat × FcCharSet))
    (f : List FT_FaceRec) (s : List (Nat × Nat)) (n : Nat) (l : List LibCall) :
    FtState.entry ⟨a, b, some (Fputhash k v t), d, m, f, s, n, l⟩ k = some v := by
  simp [FtState.entry, Fgethash_Fputhash_self]

theorem setEntry_mk_Fputhash (a b : Bool) (k : Lisp_Object) (v w : CacheCons)
    (t : List (Lisp_Object × CacheCons)) (d : Lisp_Object) (m : List (Nat × FcCharSet))
    (f : List FT_FaceRec) (s : List (Nat × Nat)) (n : Nat) (l : List LibCall) :
    FtState.setEntry ⟨a, b, some (Fputhash k w t), d, m, f, s, n, l⟩ k v
      = ⟨a, b, some (Fputhash k v t), d, m, f, s, n, l⟩ := by
  simp [FtState.setEntry, Fputhash_Fputhash]

/-- The first open of a key: the face is opened, the counter goes up by one,
and the font object gets the default size of the new face. -/
theorem ftfont_open_first (P : Provider) (st : FtState) (e : Font) (a : Lisp_Object)
    (file : String) (index : Int) (px : Int) (c : CacheCons)
    (hkey : assq_no_quit QCfont_entity e.extra = cons a (cons (str file) (int index)))
    (hc : (st.entry (cons (str file) (int index))).getD {} = c)
    (hface0 : c.pointer.ft_face = none)
    (hcnt : c.integer ≤ 0)
    (hinit : ∀ t, P.FT_Init_FreeType t = true)
    (hface : ∀ t, P.FT_New_Face t file index = true)
    (hpix : ∀ t n, P.FT_Set_Pixel_Sizes t file index n = true) :
    ∃ f s' l, ftfont_open P e px st = some (some f, s') ∧ s' =
        { st with
          ft_library := true,
          ft_face_cache := some (Fputhash (cons (str file) (int index))
            { c with integer := c.integer + 1
                     pointer := { c.pointer with ft_face := some st.next } }
            (st.ft_face_cache.getD [])),
          faces := { handle := st.next, file := file, index := index,
                     size := some (st.next + 1) } :: st.faces,
          sizes := (st.next + 1, st.next) :: st.sizes,
          next := st.next + 2,
          log := st.log ++ l } ∧
      f.file = str file ∧ f.index = index ∧ f.ft_size = some (st.next + 1) ∧ f.otf = none := by
  rw [← hc] at hface0
  obtain ⟨l, hl, _⟩ := lookup_cache_face_opens P st file index hface0 hinit hface
  rw [← lookup_cache_entity P st e a _ _ hkey, hc] at hl
  have hcnt' : ¬ (c.integer > 0) := by omega
  simp only [ftfont_open, hkey, hl, entry_mk_Fputhash, hcnt', if_false, Bool.not_true,
    setEntry_mk_Fputhash, hpix, XCAR_cons, XCDR_cons, SDATA_str, XINT_int, Bool.false_eq_true]
  obtain ⟨f, l2, hmf, h1, h2, h3, h4⟩ := make_font_object_spec P e (str file) (int index) st.next
    (if c_uint (XINT e.size) = 0 then c_uint px else c_uint (XINT e.size))
    (FtState.call
      { st with
        ft_library := true,
        ft_face_cache := some (Fputhash (cons (str file) (int index))
          { c with integer := c.integer + 1
                   pointer := { c.pointer with ft_face := some st.next } }
          (st.ft_face_cache.getD [])),
        faces := { handle := st.next, file := file, index := index,
                   size := some (st.next + 1) } :: st.faces,
        sizes := (st.next + 1, st.next) :: st.sizes,
        next := st.next + 2,
        log := st.log ++ l }
      (LibCall.FT_Set_Pixel_Sizes st.next
        (if c_uint (XINT e.size) = 0 then c_uint px else c_uint (XINT e.size))))
  rw [hmf]
  refine ⟨f, _, l ++ [LibCall.FT_Set_Pixel_Sizes st.next
        (if c_uint (XINT e.size) = 0 then c_uint px else c_uint (XINT e.size))] ++ l2, rfl, ?_,
    h1, ?_, ?_, h4⟩
  · simp [FtState.call]
  · simpa using h2
  · rw [h3]; simp [FtState.activeSize, FtState.call]

/-- A further open of a key whose face is in use: a new size is created and
activated, and the counter goes up by one. -/
theorem ftfont_open_again (P : Provider) (st : FtState) (e : Font) (a : Lisp_Object)
    (file : String) (index : Int) (px : Int) (c : CacheCons) (h : Nat)
    (hkey : assq_no_quit QCfont_entity e.extra = cons a (cons (str file) (int index)))
    (hc : st.entry (cons (str file) (int index)) = some c)
    (hface1 : c.pointer.ft_face = some h)
    (hcnt : 0 < c.integer)
    (hsize : ∀ t, P.FT_New_Size t file index = true)
    (hact : ∀ t, P.FT_Activate_Size t file index = true)
    (hpix : ∀ t n, P.FT_Set_Pixel_Sizes t file index n = true) :
    ∃ f s' l, ftfont_open P e px st = some (some f, s') ∧ s' =
        { st with
          ft_face_cache := some (Fputhash (cons (str file) (int index))
            { c with integer := c.integer + 1 } (st.ft_face_cache.getD [])),
          faces := st.faces.map
            (fun r => if r.handle == h then { r with size := some st.next } else r),
          sizes := (st.next, h) :: st.sizes,
          next := st.next + 1,
          log := st.log ++ l } ∧
      f.file = str file ∧ f.index = index ∧ f.otf = none ∧
      f.ft_size = ((st.faces.map
            (fun r => if r.handle == h then { r with size := some st.next } else r)).find?
          (fun r => r.handle == h)).bind (fun r => r.size) := by
  have hl := lookup_cache_face_hit P st _ c h hc hface1
  rw [← lookup_cache_entity P st e a _ _ hkey] at hl
  have hcnt' : c.integer > 0 := hcnt
  simp only [ftfont_open, hkey, hl, hc, hface1, hcnt', if_true, hsize, hact, hpix,
    XCAR_cons, XCDR_cons, SDATA_str, XINT_int, Bool.not_true, Bool.false_eq_true, if_false,
    FT_New_Size_ok, FT_Activate_Size_ok, FtState.call, List.find?_cons, beq_self_eq_true,
    FtState.setEntry]
  obtain ⟨f, l2, hmf, h1, h2, h3, h4⟩ := make_font_object_spec P e (str file) (int index) h
    (if c_uint (XINT e.size) = 0 then c_uint px else c_uint (XINT e.size))
    { st with
      ft_face_cache := some (Fputhash (cons (str file) (int index))
        { c with integer := c.integer + 1 } (st.ft_face_cache.getD [])),
      faces := st.faces.map
        (fun r => if r.handle == h then { r with size := some st.next } else r),
      sizes := (st.next, h) :: st.sizes,
      next := st.next + 1,
      log := st.log ++ [LibCall.FT_New_Size h] ++ [LibCall.FT_Activate_Size st.next] ++
        [LibCall.FT_Set_Pixel_Sizes h
          (if c_uint (XINT e.size) = 0 then c_uint px else c_uint (XINT e.size))] }
  rw [hmf]
  refine ⟨f, _, [LibCall.FT_New_Size h] ++ [LibCall.FT_Activate_Size st.next] ++
        [LibCall.FT_Set_Pixel_Sizes h
          (if c_uint (XINT e.size) = 0 then c_uint px else c_uint (XINT e.size))] ++ l2,
    rfl, ?_, h1, ?_, h4, ?_⟩
  · simp
  · simpa using h2
  · rw [h3]; simp [FtState.activeSize]

/-- A close that does not bring the counter to zero destroys the size of the
font and nothing else. -/
theorem ftfont_close_other (P : Provider) (st : FtState) (font : ftfont_info)
    (file : String) (index : Int) (c : CacheCons) (h z : Nat)
    (hfile : font.file = str file) (hindex : font.index = index)
    (hz : font.ft_size = some z) (halive : st.sizeAlive z = true)
    (hc : st.entry (cons (str file) (int index)) = some c)
    (hface1 : c.pointer.ft_face = some h)
    (hcnt : c.integer ≠ 1) :
    ftfont_close P font st = some (FT_Done_Size_live z
      { st with
        ft_face_cache := some (Fputhash (cons (str file) (int index))
          { c with integer := c.integer - 1 } (st.ft_face_cache.getD [])) }) := by
  have hl := lookup_cache_face_hit P st _ c h hc hface1
  have hcnt' : ¬ (c.integer - 1 = 0) := by omega
  have ha : FtState.sizeAlive
      { st with
        ft_face_cache := some (Fputhash (cons (str file) (int index))
          { c with integer := c.integer - 1 } (st.ft_face_cache.getD [])) } z = true := halive
  simp only [ftfont_close, close_counter, hfile, hindex, hl, hc, hcnt', if_false, hz,
    FtState.setEntry, FT_Done_Size, ha, if_true]

/-- The close that brings the counter to zero closes the face and clears the
handle in the cache entry. -/
theorem ftfont_close_last (P : Provider) (st : FtState) (font : ftfont_info)
    (file : String) (index : Int) (c : CacheCons) (h : Nat)
    (hfile : font.file = str file) (hindex : font.index = index)
    (hotf : font.otf = none)
    (hc : st.entry (cons (str file) (int index)) = some c)
    (hface1 : c.pointer.ft_face = some h)
    (hcnt : c.integer = 1) :
    ftfont_close P font st = some
      { st with
        ft_face_cache := some (Fputhash (cons (str file) (int index))
          { c with integer := 0, pointer := { c.pointer with ft_face := none } }
          (st.ft_face_cache.getD [])),
        faces := st.faces.filter (fun r => r.handle != h),
        sizes := st.sizes.filter (fun s => s.2 != h),
        log := st.log ++ [LibCall.FT_Done_Face (some h)] } := by
  have hl := lookup_cache_face_hit P st _ c h hc hface1
  simp only [ftfont_close, close_counter, hfile, hindex, hl, hc, hcnt, hotf, FtState.setEntry,
    hface1, FT_Done_Face, FtState.call]
  simp [Fputhash_Fputhash]

theorem FT_Done_Size_live_cache (z : Nat) (st : FtState) :
    (FT_Done_Size_live z st).ft_face_cache = st.ft_face_cache := by
  unfold FT_Done_Size_live
  dsimp only
  split <;> rfl

theorem FT_Done_Size_live_entry (z : Nat) (st : FtState) (k : Lisp_Object) :
    (FT_Done_Size_live z st).entry k = st.entry k := by
  simp [FtState.entry, FT_Done_Size_live_cache]

theorem FT_Done_Size_live_log (z : Nat) (st : FtState) :
    (FT_Done_Size_live z st).log = st.log ++ [LibCall.FT_Done_Size z] := by
  unfold FT_Done_Size_live
  dsimp only
  split <;> rfl

theorem any_map_handle (l : List FT_FaceRec) (g : FT_FaceRec → FT_FaceRec)
    (hg : ∀ r, (g r).handle = r.handle) (h : Nat) :
    (l.map g).any (fun r => r.handle == h) = l.any (fun r => r.handle == h) := by
  induction l with
  | nil => rfl
  | cons x l ih => simp [hg, ih]

theorem FT_Done_Size_live_faceOpen (z : Nat) (st : FtState) (h : Nat) :
    (FT_Done_Size_live z st).faceOpen h = st.faceOpen h := by
  unfold FT_Done_Size_live FtState.faceOpen
  dsimp only
  split
  · rfl
  · apply any_map_handle
    intro r
    split <;> rfl

theorem FT_Done_Size_live_sizeAlive_self (z : Nat) (st : FtState) :
    (FT_Done_Size_live z st).sizeAlive z = false := by
  unfold FT_Done_Size_live FtState.sizeAlive
  dsimp only
  split
  · next hnone =>
    simp only [FtState.call]
    rw [List.find?_eq_none] at hnone
    simp only [List.any_eq_false]
    intro x hx
    exact hnone x hx
  · simp [List.any_filter]

theorem FT_Done_Size_live_sizeAlive_of_ne (z z' : Nat) (st : FtState) (hne : z' ≠ z) :
    (FT_Done_Size_live z st).sizeAlive z' = st.sizeAlive z' := by
  unfold FT_Done_Size_live FtState.sizeAlive
  dsimp only
  split
  · rfl
  · simp only [FtState.call, List.any_filter]
    congr 1
    funext s
    by_cases hs : s.1 = z'
    · simp [hs, hne]
    · simp [hs]

theorem any_filter_handle_ne (l : List FT_FaceRec) (h : Nat) :
    (l.filter (fun r => r.handle != h)).any (fun r => r.handle == h) = false := by
  induction l with
  | nil => rfl
  | cons x l ih =>
    by_cases hx : x.handle = h
    · simp [List.filter_cons, hx, ih]
    · simp [List.filter_cons, hx, ih]

/-- C1: from an entry with usage counter 0 and no open face (or no entry yet)
and a provider that can open and size the face, two `ftfont_open` calls
succeed, leave the counter at 2 and give two font objects whose sizes belong
to the one face handle of the entry; closing either font first leaves the
counter at 1 and the face open, the only library call being `FT_Done_Size` on
that font's size; closing the other font then brings the counter to 0, closes
the face (`FT_Done_Face`) and clears the handle in the entry. -/
theorem ftfont_open_twice_close_twice (P : Provider) (st : FtState) (e : Font)
    (a : Lisp_Object) (file : String) (index : Int) (px : Int)
    (hkey : assq_no_quit QCfont_entity e.extra = cons a (cons (str file) (int index)))
    (hcnt : ((st.entry (cons (str file) (int index))).getD {}).integer = 0)
    (hface0 : ((st.entry (cons (str file) (int index))).getD {}).pointer.ft_face = none)
    (hinit : ∀ t, P.FT_Init_FreeType t = true)
    (hface : ∀ t, P.FT_New_Face t file index = true)
    (hsize : ∀ t, P.FT_New_Size t file index = true)
    (hact : ∀ t, P.FT_Activate_Size t file index = true)
    (hpix : ∀ t n, P.FT_Set_Pixel_Sizes t file index n = true) :
    ∃ f1 s1 f2 s2 face z1 z2,
      ftfont_open P e px st = some (some f1, s1) ∧
      ftfont_open P e px s1 = some (some f2, s2) ∧
      (s2.entry (cons (str file) (int index))).map (fun c => c.integer) = some 2 ∧
      (s2.entry (cons (str file) (int index))).map (fun c => c.pointer.ft_face)
        = some (some face) ∧
      s2.faceOpen face = true ∧
      f1.ft_size = some z1 ∧ f2.ft_size = some z2 ∧ z1 ≠ z2 ∧
      s2.faceOfSize z1 = some face ∧ s2.faceOfSize z2 = some face ∧
      ∀ fa fb za zb, (fa = f1 ∧ fb = f2 ∧ za = z1 ∧ zb = z2) ∨
          (fa = f2 ∧ fb = f1 ∧ za = z2 ∧ zb = z1) →
        ∃ s3 s4,
          ftfont_close P fa s2 = some s3 ∧
          (s3.entry (cons (str file) (int index))).map (fun c => c.integer) = some 1 ∧
          (s3.entry (cons (str file) (int index))).map (fun c => c.pointer.ft_face)
            = some (some face) ∧
          s3.faceOpen face = true ∧
          s3.sizeAlive za = false ∧ s3.sizeAlive zb = true ∧
          s3.log = s2.log ++ [LibCall.FT_Done_Size za] ∧
          ftfont_close P fb s3 = some s4 ∧
          (s4.entry (cons (str file) (int index))).map (fun c => c.integer) = some 0 ∧
          (s4.entry (cons (str file) (int index))).map (fun c => c.pointer.ft_face)
            = some none ∧
          s4.faceOpen face = false ∧
          s4.log = s3.log ++ [LibCall.FT_Done_Face (some face)] := by
  generalize hc0 : (st.entry (cons (str file) (int index))).getD {} = c0 at hcnt hface0
  obtain ⟨f1, s1, l1, ho1, hs1, hf1, hi1, hz1, hotf1⟩ :=
    ftfont_open_first P st e a file index px c0 hkey hc0 hface0 (le_of_eq hcnt) hinit hface hpix
  have hc1 : s1.entry (cons (str file) (int index)) = some
      { c0 with integer := 1, pointer := { c0.pointer with ft_face := some st.next } } := by
    rw [hs1, entry_mk_Fputhash, hcnt]; rfl
  obtain ⟨f2, s2, l2, ho2, hs2, hf2, hi2, hotf2, hz2⟩ :=
    ftfont_open_again P s1 e a file index px _ st.next hkey hc1 rfl (by simp) hsize hact hpix
  have hn1 : s1.next = st.next + 2 := by rw [hs1]
  have hfaces1 : s1.faces =
      (⟨st.next, file, index, some (st.next + 1)⟩ : FT_FaceRec) :: st.faces := by rw [hs1]
  have hsizes1 : s1.sizes = (st.next + 1, st.next) :: st.sizes := by rw [hs1]
  rw [hfaces1, hn1] at hz2
  have hz2' : f2.ft_size = some (st.next + 2) := by rw [hz2]; simp
  have hc2 : s2.entry (cons (str file) (int index)) = some
      { c0 with integer := 2, pointer := { c0.pointer with ft_face := some st.next } } := by
    rw [hs2, entry_mk_Fputhash]; rfl
  have hfaces2 : s2.faces =
      (⟨st.next, file, index, some (st.next + 2)⟩ : FT_FaceRec) :: st.faces.map
        (fun r => if r.handle == st.next then { r with size := some (st.next + 2) } else r) := by
    rw [hs2]; simp [hfaces1, hn1]
  have hsizes2 : s2.sizes = (st.next + 2, st.next) :: (st.next + 1, st.next) :: st.sizes := by
    rw [hs2]; simp [hsizes1, hn1]
  refine ⟨f1, s1, f2, s2, st.next, st.next + 1, st.next + 2, ho1, ho2, ?_, ?_, ?_, hz1, hz2',
    ?_, ?_, ?_, ?_⟩
  · rw [hc2]; rfl
  · rw [hc2]; rfl
  · simp [FtState.faceOpen, hfaces2]
  · omega
  · simp [FtState.faceOfSize, hsizes2]
  · simp [FtState.faceOfSize, hsizes2]
  · intro fa fb za zb hor
    have hfa : fa.file = str file ∧ fa.index = index ∧ fa.ft_size = some za := by
      rcases hor with ⟨h1, _, h3, _⟩ | ⟨h1, _, h3, _⟩
      · subst h1 h3; exact ⟨hf1, hi1, hz1⟩
      · subst h1 h3; exact ⟨hf2, hi2, hz2'⟩
    have hfb : fb.file = str file ∧ fb.index = index ∧ fb.otf = none := by
      rcases hor with ⟨_, h2, _, _⟩ | ⟨_, h2, _, _⟩
      · subst h2; exact ⟨hf2, hi2, hotf2⟩
      · subst h2; exact ⟨hf1, hi1, hotf1⟩
    have hzz : (za = st.next + 1 ∧ zb = st.next + 2) ∨ (za = st.next + 2 ∧ zb = st.next + 1) := by
      rcases hor with ⟨_, _, h3, h4⟩ | ⟨_, _, h3, h4⟩
      · exact Or.inl ⟨h3, h4⟩
      · exact Or.inr ⟨h3, h4⟩
    have hzab : zb ≠ za := by omega
    have halive2 : s2.sizeAlive za = true := by
      rcases hzz with ⟨h1, _⟩ | ⟨h1, _⟩ <;> simp [FtState.sizeAlive, hsizes2, h1]
    have hcl1 := ftfont_close_other P s2 fa file index _ st.next za hfa.1 hfa.2.1 hfa.2.2 halive2
      hc2 rfl (by simp)
    obtain ⟨s3, hs3⟩ : ∃ s3, s3 = FT_Done_Size_live za
        { s2 with
          ft_face_cache := some (Fputhash (cons (str file) (int index))
            { c0 with integer := 1, pointer := { c0.pointer with ft_face := some st.next } }
            (s2.ft_face_cache.getD [])) } := ⟨_, rfl⟩
    have hcl1' : ftfont_close P fa s2 = some s3 := by rw [hcl1, hs3]; rfl
    have hc3 : s3.entry (cons (str file) (int index)) = some
        { c0 with integer := 1, pointer := { c0.pointer with ft_face := some st.next } } := by
      rw [hs3, FT_Done_Size_live_entry]; exact entry_mk_Fputhash _ _ _ _ _ _ _ _ _ _ _
    have hopen3 : s3.faceOpen st.next = true := by
      rw [hs3, FT_Done_Size_live_faceOpen]; simp [FtState.faceOpen, hfaces2]
    have halive3 : s3.sizeAlive zb = true := by
      rw [hs3, FT_Done_Size_live_sizeAlive_of_ne _ _ _ hzab]
      rcases hzz with ⟨_, h2⟩ | ⟨_, h2⟩ <;> simp [FtState.sizeAlive, hsizes2, h2]
    have hcl2 := ftfont_close_last P s3 fb file index _ st.next hfb.1 hfb.2.1 hfb.2.2 hc3 rfl rfl
    refine ⟨s3, _, hcl1', ?_, ?_, hopen3, ?_, halive3, ?_, hcl2, ?_, ?_, ?_, rfl⟩
    · rw [hc3]; rfl
    · rw [hc3]; rfl
    · rw [hs3]; exact FT_Done_Size_live_sizeAlive_self _ _
    · rw [hs3, FT_Done_Size_live_log]
    · rw [entry_mk_Fputhash]; rfl
    · rw [entry_mk_Fputhash]; rfl
    · exact any_filter_handle_ne _ _

/-- Witness for C1 at `okProvider`, `sampleEntity` and the initial state. -/
theorem ftfont_open_twice_close_twice_witness :
    ∃ f1 s1 f2 s2 face z1 z2,
      ftfont_open okProvider sampleEntity 12 {} = some (some f1, s1) ∧
      ftfont_open okProvider sampleEntity 12 s1 = some (some f2, s2) ∧
      (s2.entry (cons (str "a.ttf") (int 0))).map (fun c => c.integer) = some 2 ∧
      (s2.entry (cons (str "a.ttf") (int 0))).map (fun c => c.pointer.ft_face)
        = some (some face) ∧
      s2.faceOpen face = true ∧
      f1.ft_size = some z1 ∧ f2.ft_size = some z2 ∧ z1 ≠ z2 ∧
      s2.faceOfSize z1 = some face ∧ s2.faceOfSize z2 = some face ∧
      ∀ fa fb za zb, (fa = f1 ∧ fb = f2 ∧ za = z1 ∧ zb = z2) ∨
          (fa = f2 ∧ fb = f1 ∧ za = z2 ∧ zb = z1) →
        ∃ s3 s4,
          ftfont_close okProvider fa s2 = some s3 ∧
          (s3.entry (cons (str "a.ttf") (int 0))).map (fun c => c.integer) = some 1 ∧
          (s3.entry (cons (str "a.ttf") (int 0))).map (fun c => c.pointer.ft_face)
            = some (some face) ∧
          s3.faceOpen face = true ∧
          s3.sizeAlive za = false ∧ s3.sizeAlive zb = true ∧
          s3.log = s2.log ++ [LibCall.FT_Done_Size za] ∧
          ftfont_close okProvider fb s3 = some s4 ∧
          (s4.entry (cons (str "a.ttf") (int 0))).map (fun c => c.integer) = some 0 ∧
          (s4.entry (cons (str "a.ttf") (int 0))).map (fun c => c.pointer.ft_face)
            = some none ∧
          s4.faceOpen face = false ∧
          s4.log = s3.log ++ [LibCall.FT_Done_Face (some face)] :=
  ftfont_open_twice_close_twice okProvider {} sampleEntity QCfont_entity "a.ttf" 0 12
    (by decide) (by decide) (by decide) (fun _ => rfl) (fun _ => rfl) (fun _ => rfl)
    (fun _ => rfl) (fun _ _ => rfl)

/-- C2 (failing input): an `ftfont_open` that fails in `FT_Set_Pixel_Sizes`
returns `Qnil`, so no font object exists, yet the usage counter of the key has
been incremented to 1 and the face stays open: the test `integer == 0` that
guards `FT_Done_Face` comes after the increment and `FT_Done_Face` is never
called. -/
theorem ftfont_open_set_pixel_sizes_failure :
    ftfont_open noPixelSizeProvider sampleEntity 12 {} =
      some (none,
        { ft_library := true,
          ft_face_cache := some [(sampleKey,
            { entity := none, integer := 1, pointer := { ft_face := some 1, fc_charset := none } })],
          faces := [{ handle := 1, file := "a.ttf", index := 0, size := some 2 }],
          sizes := [(2, 1)],
          next := 3,
          log := [LibCall.FT_Init_FreeType, LibCall.FT_New_Face "a.ttf" 0,
                  LibCall.FT_Set_Pixel_Sizes 1 12] }) := by
  decide

theorem lookup_face_fails (P : Provider) (st : FtState) (file : String) (index : Int)
    (hfail : ∀ t, P.FT_New_Face t file index = false) :
    (lookup_face P file index st).1 = none ∧
    (lookup_face P file index st).2.ft_face_cache = st.ft_face_cache ∧
    (lookup_face P file index st).2.faces = st.faces := by
  unfold lookup_face
  by_cases hlib : st.ft_library = true
  · simp [hlib, hfail, FtState.call]
  · by_cases hinit : P.FT_Init_FreeType st.clock = true
    · simp [hlib, hinit, hfail, FtState.call]
    · simp [hlib, hinit, hfail, FtState.call]

/-- C3 (counterexample): after two opens and two closes the counter of the key
is 0, its face is closed, and the size 2 of the first font object has died
with the face.  A third `ftfont_close` on that font object makes no test and
reports nothing: lines 1299-1303 call `FT_New_Face` again, store the new face
handle 4 in the entry and decrement the counter to -1.  Line 1316 then hands
the dead size 2 to `FT_Done_Size`, and from there the call has no defined
result. -/
theorem ftfont_close_zero_counter_counterexample :
    open_open_close_close okProvider sampleEntity 12 {}
      = some (sampleFont, sampleFont2, closedTwiceState) ∧
    (closedTwiceState.entry sampleKey).map (fun c => c.integer) = some 0 ∧
    close_counter okProvider sampleFont closedTwiceState
      = some (sampleKey, { integer := -1, pointer := { ft_face := some 4 } }, reopenedState) ∧
    reopenedState.faceOpen 4 = true ∧
    sampleFont.ft_size = some 2 ∧ reopenedState.sizeAlive 2 = false ∧
    ftfont_close okProvider sampleFont closedTwiceState = none := by
  decide

/-- C3 (amended): `ftfont_close` has no test for a release without a matching
acquire and nothing to report one with.  For a key whose counter is 0 and
whose face is closed, and a font object whose size is no longer alive (it was
freed when the font was closed before), the call begins by re-acquiring the
face through `ftfont_lookup_cache`.  When the provider opens the file, lines
1299-1303 call `FT_New_Face`, store the new handle in the entry and decrement
the counter to -1; the size of the font is still dead then, so line 1316 hands
`FT_Done_Size` a freed size and the call has no defined result.  When the
provider cannot open the file, the lookup returns `Qnil` with no face opened,
`cache` is not a cons at `xassert (CONSP (cache))`, and the call has no
defined result either. -/
theorem ftfont_close_zero_counter (P : Provider) (st : FtState) (font : ftfont_info)
    (file : String) (index : Int) (c : CacheCons) (z : Nat)
    (hfile : font.file = str file) (hindex : font.index = index)
    (hz : font.ft_size = some z)
    (hc : st.entry (cons (str file) (int index)) = some c)
    (hcnt : c.integer = 0) (hface0 : c.pointer.ft_face = none)
    (hdead : st.sizeAlive z = false) (hold : z < st.next) :
    ((∀ t, P.FT_Init_FreeType t = true) → (∀ t, P.FT_New_Face t file index = true) →
      ∃ s1, close_counter P font st = some (cons (str file) (int index),
          { c with integer := -1, pointer := { c.pointer with ft_face := some st.next } }, s1) ∧
        s1.entry (cons (str file) (int index)) = some
          { c with integer := -1, pointer := { c.pointer with ft_face := some st.next } } ∧
        s1.faceOpen st.next = true ∧
        LibCall.FT_New_Face file index ∈ s1.log.drop st.log.length ∧
        s1.sizeAlive z = false ∧
        ftfont_close P font st = none) ∧
    ((∀ t, P.FT_New_Face t file index = false) →
      ∃ s1, ftfont_lookup_cache P (.key (cons (str file) (int index))) FTFONT_CACHE_FOR_FACE st
          = some (none, s1) ∧
        s1.faces = st.faces ∧ s1.entry (cons (str file) (int index)) = some c ∧
        close_counter P font st = none ∧ ftfont_close P font st = none) := by
  constructor
  · intro hinit hface
    obtain ⟨l, hl, hmem⟩ := lookup_cache_face_opens P st file index (by rw [hc]; exact hface0)
      hinit hface
    rw [hc] at hl
    simp only [Option.getD_some] at hl
    have hne : ¬ ((-1 : Int) = 0) := by decide
    have hcc : close_counter P font st = some (cons (str file) (int index),
        { c with integer := -1, pointer := { c.pointer with ft_face := some st.next } },
        { st with
          ft_library := true,
          ft_face_cache := some (Fputhash (cons (str file) (int index))
            { c with integer := -1, pointer := { c.pointer with ft_face := some st.next } }
            (st.ft_face_cache.getD [])),
          faces := { handle := st.next, file := file, index := index,
                     size := some (st.next + 1) } :: st.faces,
          sizes := (st.next + 1, st.next) :: st.sizes,
          next := st.next + 2,
          log := st.log ++ l }) := by
      simp only [close_counter, hfile, hindex, hl, entry_mk_Fputhash, hcnt,
        setEntry_mk_Fputhash]
      rfl
    have hdead1 : FtState.sizeAlive
        { st with
          ft_library := true,
          ft_face_cache := some (Fputhash (cons (str file) (int index))
            { c with integer := -1, pointer := { c.pointer with ft_face := some st.next } }
            (st.ft_face_cache.getD [])),
          faces := { handle := st.next, file := file, index := index,
                     size := some (st.next + 1) } :: st.faces,
          sizes := (st.next + 1, st.next) :: st.sizes,
          next := st.next + 2,
          log := st.log ++ l } z = false := by
      unfold FtState.sizeAlive at hdead ⊢
      simp only [List.any_cons, hdead, Bool.or_false, beq_eq_false_iff_ne, ne_eq]
      omega
    refine ⟨_, hcc, ?_, ?_, ?_, hdead1, ?_⟩
    · rw [entry_mk_Fputhash]
    · simp [FtState.faceOpen]
    · simp [hmem]
    · unfold ftfont_close
      rw [hcc]
      simp only [hne, if_false, hz, FT_Done_Size, hdead1, Bool.false_eq_true]
  · intro hfail
    have h := lookup_face_fails P st file index hfail
    have hlook : ftfont_lookup_cache P (.key (cons (str file) (int index)))
        FTFONT_CACHE_FOR_FACE st = some (none, (lookup_face P file index st).2) := by
      simp [ftfont_lookup_cache, hc, hface0, h.1]
    refine ⟨_, hlook, h.2.2, ?_, ?_, ?_⟩
    · unfold FtState.entry
      rw [h.2.1]
      exact hc
    · simp only [close_counter, hfile, hindex, hlook]
    · simp only [ftfont_close, close_counter, hfile, hindex, hlook]

/-- Witness for the amended C3: at `closedTwiceState`, where the size 2 of
`sampleFont` is dead, with a provider that opens the file and with one that
cannot. -/
theorem ftfont_close_zero_counter_witness :
    (closedTwiceState.sizeAlive 2 = false ∧ 2 < closedTwiceState.next) ∧
    (∃ s1, close_counter okProvider sampleFont closedTwiceState
        = some (cons (str "a.ttf") (int 0),
          { ({} : CacheCons) with
            integer := -1, pointer := { ({} : CacheCons).pointer with ft_face := some 4 } },
          s1) ∧
      s1.entry (cons (str "a.ttf") (int 0)) = some
        { ({} : CacheCons) with
          integer := -1, pointer := { ({} : CacheCons).pointer with ft_face := some 4 } } ∧
      s1.faceOpen 4 = true ∧
      LibCall.FT_New_Face "a.ttf" 0 ∈ s1.log.drop closedTwiceState.log.length ∧
      s1.sizeAlive 2 = false ∧
      ftfont_close okProvider sampleFont closedTwiceState = none) ∧
    (∃ s1, ftfont_lookup_cache noFaceProvider (.key (cons (str "a.ttf") (int 0)))
          FTFONT_CACHE_FOR_FACE closedTwiceState = some (none, s1) ∧
      s1.faces = closedTwiceState.faces ∧
      s1.entry (cons (str "a.ttf") (int 0)) = some {} ∧
      close_counter noFaceProvider sampleFont closedTwiceState = none ∧
      ftfont_close noFaceProvider sampleFont closedTwiceState = none) :=
  ⟨⟨by decide, by decide⟩,
   (ftfont_close_zero_counter okProvider closedTwiceState sampleFont "a.ttf" 0 {} 2 rfl rfl rfl
      (by decide) rfl rfl (by decide) (by decide)).1 (fun _ => rfl) (fun _ => rfl),
   (ftfont_close_zero_counter noFaceProvider closedTwiceState sampleFont "a.ttf" 0 {} 2 rfl rfl
      rfl (by decide) rfl rfl (by decide) (by decide)).2 (fun _ => rfl)⟩

/-- C4 (counterexample): with a provider that cannot open the file, the face
lookup for a key without cache entry returns `Qnil`, and so does `ftfont_open`,
but afterwards the cache does hold an entry for the key. -/
theorem ftfont_lookup_cache_failure_counterexample :
    ({} : FtState).entry sampleKey = none ∧
    ftfont_lookup_cache noFaceProvider (.key sampleKey) FTFONT_CACHE_FOR_FACE {} =
      some (none,
        { ft_library := true,
          ft_face_cache := some [(sampleKey, {})],
          log := [LibCall.FT_Init_FreeType, LibCall.FT_New_Face "a.ttf" 0] }) ∧
    ftfont_open noFaceProvider sampleEntity 12 {} =
      some (none,
        { ft_library := true,
          ft_face_cache := some [(sampleKey, {})],
          log := [LibCall.FT_Init_FreeType, LibCall.FT_New_Face "a.ttf" 0] }) ∧
    FtState.entry
        { ft_library := true,
          ft_face_cache := some [(sampleKey, {})],
          log := [LibCall.FT_Init_FreeType, LibCall.FT_New_Face "a.ttf" 0] } sampleKey
      ≠ none := by
  decide

/-- C4 (amended): when the provider cannot open the file of a key that has no
cache entry, the face lookup returns `Qnil` and so does `ftfont_open`; no face
is opened, and the cache is left with a placeholder entry for the key: nil
entity, usage counter 0, null face handle, null charset. -/
theorem ftfont_lookup_cache_face_failure (P : Provider) (st : FtState) (e : Font)
    (a : Lisp_Object) (file : String) (index : Int) (px : Int)
    (hkey : assq_no_quit QCfont_entity e.extra = cons a (cons (str file) (int index)))
    (hno : st.entry (cons (str file) (int index)) = none)
    (hfail : ∀ t, P.FT_New_Face t file index = false) :
    ∃ s', ftfont_lookup_cache P (.key (cons (str file) (int index))) FTFONT_CACHE_FOR_FACE st
        = some (none, s') ∧
      ftfont_lookup_cache P (.entity e) FTFONT_CACHE_FOR_FACE st = some (none, s') ∧
      ftfont_open P e px st = some (none, s') ∧
      s'.entry (cons (str file) (int index)) = some {} ∧
      s'.faces = st.faces := by
  have h := lookup_face_fails P (st.setEntry (cons (str file) (int index)) {}) file index hfail
  have hl : ftfont_lookup_cache P (.key (cons (str file) (int index))) FTFONT_CACHE_FOR_FACE st
      = some (none, (lookup_face P file index (st.setEntry (cons (str file) (int index)) {})).2) := by
    simp [ftfont_lookup_cache, hno, h.1]
  have hl' := hl
  rw [← lookup_cache_entity P st e a _ _ hkey] at hl'
  refine ⟨_, hl, hl', ?_, ?_, ?_⟩
  · simp only [ftfont_open, hkey, hl']
  · simp only [FtState.entry, h.2.1]
    simp [FtState.setEntry, Fgethash_Fputhash_self]
  · rw [h.2.2]; rfl

/-- Witness for the amended C4 at `noFaceProvider` and the initial state. -/
theorem ftfont_lookup_cache_face_failure_witness :
    ∃ s', ftfont_lookup_cache noFaceProvider (.key (cons (str "a.ttf") (int 0)))
          FTFONT_CACHE_FOR_FACE {} = some (none, s') ∧
      ftfont_lookup_cache noFaceProvider (.entity sampleEntity) FTFONT_CACHE_FOR_FACE {}
        = some (none, s') ∧
      ftfont_open noFaceProvider sampleEntity 12 {} = some (none, s') ∧
      s'.entry (cons (str "a.ttf") (int 0)) = some {} ∧
      s'.faces = ({} : FtState).faces :=
  ftfont_lookup_cache_face_failure noFaceProvider {} sampleEntity QCfont_entity "a.ttf" 0 12
    (by decide) (by decide) (fun _ => rfl)

/-- Once the cache entry holds a charset, `ftfont_get_fc_charset` returns it
and makes no library call. -/
theorem ftfont_get_fc_charset_hit (P : Provider) (st : FtState) (e : Font)
    (a key : Lisp_Object) (c : CacheCons) (cs : FcCharSet)
    (hkey : assq_no_quit QCfont_entity e.extra = cons a key)
    (hc : st.entry key = some c) (hcs : c.pointer.fc_charset = some cs) :
    ftfont_get_fc_charset P e st = some (some cs, st) := by
  simp [ftfont_get_fc_charset, ftfont_lookup_cache, hkey, hc, hcs]

/-- C5 (failing input): with a provider whose `FcFontList` returns a null font
set, two `ftfont_get_fc_charset` calls for one key both return a null charset
and `FcFontList` has been invoked twice; with a provider whose `FcFontList`
fails only the first time, the two calls return different results (null, then
the charset of the listed font). -/
theorem ftfont_get_fc_charset_not_memoized_on_failure :
    (ftfont_get_fc_charset noFontListProvider sampleEntity {}).bind (fun r1 =>
      (ftfont_get_fc_charset noFontListProvider sampleEntity r1.2).map (fun r2 =>
        (r1.1, r2.1, (r2.2.log.filter LibCall.isFcFontList).length)))
      = some (none, none, 2) ∧
    (ftfont_get_fc_charset lateFontListProvider sampleEntity {}).bind (fun r1 =>
      (ftfont_get_fc_charset lateFontListProvider sampleEntity r1.2).map (fun r2 =>
        (r1.1, r2.1, (r2.2.log.filter LibCall.isFcFontList).length)))
      = some (none, some [65], 2) := by
  decide

/-- C6 (failing input): when the pattern build, the object-set build or the
font listing fails, `ftfont_get_fc_charset` returns a null charset, not an
empty one; only a listing without usable charset (here: no font) gives the
empty charset. -/
theorem ftfont_get_fc_charset_null_on_failure :
    (ftfont_get_fc_charset noPatternProvider sampleEntity {}).map (fun r => r.1) = some none ∧
    (ftfont_get_fc_charset noObjectSetProvider sampleEntity {}).map (fun r => r.1) = some none ∧
    (ftfont_get_fc_charset noFontListProvider sampleEntity {}).map (fun r => r.1) = some none ∧
    (ftfont_get_fc_charset okProvider sampleEntity {}).map (fun r => r.1) = some (some []) := by
  decide

/-! ## The charset table -/

/-- Every table name selects its own element, and the uniquifiers of every
element are non-zero up to the first 0 and 0 from there on. -/
theorem fc_charset_table_own_names :
    ∀ p ∈ fc_charset_table.enum,
      charset_table_search (registry_regexp p.2.name.toList) fc_charset_table 0 = some p.1 ∧
      p.2.uniquifier.takeWhile (fun u => u != 0) = p.2.uniquifier.filter (fun u => u != 0) := by
  decide

theorem add_uniquifiers_some (P : Provider) (us : List Nat) (cs cs' : FcCharSet) (st : FtState)
    (h : (add_uniquifiers P us cs st).1 = some cs') :
    cs' = cs ++ us.takeWhile (fun u => u != 0) ∧
    (add_uniquifiers P us cs st).2.fc_charset_memo = st.fc_charset_memo := by
  induction us generalizing cs st with
  | nil => simp [add_uniquifiers] at h ⊢; exact h.symm
  | cons u us ih =>
    by_cases hu : u = 0
    · simp [add_uniquifiers, hu] at h ⊢; exact h.symm
    · by_cases hok : P.FcCharSetAddChar st.clock = true
      · simp only [add_uniquifiers, hu, if_false, hok, if_true] at h ⊢
        obtain ⟨h1, h2⟩ := ih _ _ h
        refine ⟨?_, ?_⟩
        · rw [h1]; simp [List.takeWhile_cons, hu]
        · rw [h2]; rfl
      · simp [add_uniquifiers, hu, hok] at h

/-- The charsets memoized in the table are the ones `ftfont_get_charset`
builds: the property holds initially and every call keeps it. -/
theorem ftfont_get_charset_memo_inv (P : Provider) (registry : Lisp_Object) (st : FtState)
    (hmemo : ∀ (j : Nat) (e : CharsetEntry) (cs : FcCharSet), fc_charset_table[j]? = some e →
      st.table_charset j = some cs → cs = e.uniquifier.filter (fun u => u != 0)) :
    ∀ (j : Nat) (e : CharsetEntry) (cs : FcCharSet), fc_charset_table[j]? = some e →
      (ftfont_get_charset P registry st).2.table_charset j = some cs →
      cs = e.uniquifier.filter (fun u => u != 0) := by
  intro j e cs he
  unfold ftfont_get_charset
  dsimp only
  cases hsearch : charset_table_search (registry_regexp (SYMBOL_NAME registry).toList)
      fc_charset_table 0 with
  | none => exact hmemo j e cs he
  | some i =>
    dsimp only
    cases hm : st.table_charset i with
    | some c => exact hmemo j e cs he
    | none =>
      dsimp only
      by_cases hok : P.FcCharSetCreate st.clock = true
      · simp only [hok, Bool.not_true, Bool.false_eq_true, if_false]
        cases hadd : (add_uniquifiers P ((fc_charset_table[i]?.map (·.uniquifier)).getD []) []
            (st.call LibCall.FcCharSetCreate)).1 with
        | none =>
          dsimp only
          have hframe : ∀ us cs0 s, (add_uniquifiers P us cs0 s).2.fc_charset_memo
              = s.fc_charset_memo := by
            intro us
            induction us with
            | nil => intro cs0 s; simp [add_uniquifiers]
            | cons u us ih =>
              intro cs0 s
              by_cases hu : u = 0
              · simp [add_uniquifiers, hu]
              · by_cases hk : P.FcCharSetAddChar s.clock = true
                · simp only [add_uniquifiers, hu, if_false, hk, if_true]
                  rw [ih]; rfl
                · simp [add_uniquifiers, hu, hk, FtState.call]
          intro h
          apply hmemo j e cs he
          simpa [FtState.table_charset, hframe, FtState.call] using h
        | some c' =>
          dsimp only
          obtain ⟨h1, h2⟩ := add_uniquifiers_some P _ [] c' _ hadd
          intro h
          simp only [FtState.table_charset, h2, List.lookup_cons] at h
          by_cases hji : j = i
          · subst hji
            simp only [beq_self_eq_true] at h
            have hown := fc_charset_table_own_names (j, e) (List.mk_mem_enum_iff_getElem?.2 he)
            simp only [Option.some.injEq] at h
            rw [← h, h1, he]
            simpa using hown.2
          · have hne : (j == i) = false := by simpa using hji
            simp only [hne] at h
            exact hmemo j e cs he (by simpa [FtState.table_charset, FtState.call] using h)
      · simp only [hok, Bool.not_false, if_true]
        intro h
        exact hmemo j e cs he (by simpa [FtState.table_charset, FtState.call] using h)

theorem assq_no_quit_XSETCDR_assq (key v : Lisp_Object) (l : Lisp_Object) (k d : Lisp_Object)
    (h : assq_no_quit key l = cons k d) :
    assq_no_quit key (XSETCDR_assq key v l) = cons k v := by
  induction l with
  | nil => simp [assq_no_quit] at h
  | sym s => simp [assq_no_quit] at h
  | int n => simp [assq_no_quit] at h
  | str s => simp [assq_no_quit] at h
  | vec l => simp [assq_no_quit] at h
  | cons x rest _ ih =>
    cases x with
    | cons k' d' =>
      by_cases hk : EQ k' key = true
      · simp only [assq_no_quit, hk, if_true, Lisp_Object.cons.injEq] at h
        obtain ⟨rfl, rfl⟩ := h
        simp [XSETCDR_assq, assq_no_quit, hk]
      · simp only [assq_no_quit, hk, if_false, Bool.false_eq_true] at h
        simp [XSETCDR_assq, assq_no_quit, hk, ih h]
    | nil => simp only [assq_no_quit] at h; simp [XSETCDR_assq, assq_no_quit, ih h]
    | sym s => simp only [assq_no_quit] at h; simp [XSETCDR_assq, assq_no_quit, ih h]
    | int n => simp only [assq_no_quit] at h; simp [XSETCDR_assq, assq_no_quit, ih h]
    | str s => simp only [assq_no_quit] at h; simp [XSETCDR_assq, assq_no_quit, ih h]
    | vec l => simp only [assq_no_quit] at h; simp [XSETCDR_assq, assq_no_quit, ih h]

/-- C10 (counterexample): from the list `syms_of_ftfont` sets up, resolving
`mono` twice issues two `FcFontMatch` queries when the matched family is named
`t`, the list's own marker for "not resolved yet", and no query at all when
`FcPatternDuplicate` fails, in which case the generic family itself is
returned. -/
theorem ftfont_resolve_generic_family_counterexample :
    ((ftfont_resolve_generic_family familyTProvider (sym "mono") {}
        (ftfont_resolve_generic_family familyTProvider (sym "mono") {} syms_of_ftfont).2).2.log.filter
      LibCall.isFcFontMatch).length = 2 ∧
    (ftfont_resolve_generic_family noDuplicateProvider (sym "mono") {} syms_of_ftfont).1
      = Qmonospace ∧
    ((ftfont_resolve_generic_family noDuplicateProvider (sym "mono") {}
        (ftfont_resolve_generic_family noDuplicateProvider (sym "mono") {} syms_of_ftfont).2).2.log.filter
      LibCall.isFcFontMatch).length = 0 := by
  decide

/-- C10 (amended): for a family that downcases to `monospace`, `mono`, `sans`,
`sans-serif` or `sans serif` and whose entry in `ftfont_generic_family_list`
is still unresolved, if the first call gets its copy of the pattern
(`FcPatternDuplicate` succeeds) and does not resolve to the symbol `t`, then a
second call, whatever its pattern, returns the same result, and the two calls
together issue exactly one `FcFontMatch` query; this includes a first query
that resolved to nil. -/
theorem ftfont_resolve_generic_family_memoized (P : Provider) (st : FtState)
    (family : Lisp_Object) (pattern pattern' : FcPattern)
    (hfam : Fdowncase (SYMBOL_NAME family) ∈
      ["monospace", "mono", "sans", "sans-serif", "sans serif"])
    (hslot : assq_no_quit (generic_family_symbol family) st.ftfont_generic_family_list
      = cons (generic_family_symbol family) Qt)
    (hdup : P.FcPatternDuplicate st.clock = true)
    (hres : (ftfont_resolve_generic_family P family pattern st).1 ≠ Qt) :
    (generic_family_symbol family = Qmonospace ∨ generic_family_symbol family = Qsans_serif) ∧
    (ftfont_resolve_generic_family P family pattern'
        (ftfont_resolve_generic_family P family pattern st).2).1
      = (ftfont_resolve_generic_family P family pattern st).1 ∧
    ((ftfont_resolve_generic_family P family pattern'
        (ftfont_resolve_generic_family P family pattern st).2).2.log.filter
      LibCall.isFcFontMatch).length
      = (st.log.filter LibCall.isFcFontMatch).length + 1 := by
  refine ⟨?_, ?_⟩
  · simp only [List.mem_cons, List.mem_singleton, List.not_mem_nil, or_false] at hfam
    unfold generic_family_symbol
    rcases hfam with h | h | h | h | h <;> rw [h] <;> decide
  have hfirst : ftfont_resolve_generic_family P family pattern st =
      ((ftfont_resolve_generic_family P family pattern st).1,
       { st with
         ftfont_generic_family_list := XSETCDR_assq (generic_family_symbol family)
           (ftfont_resolve_generic_family P family pattern st).1 st.ftfont_generic_family_list,
         log := st.log ++ [LibCall.FcPatternDuplicate, LibCall.FcConfigSubstitute,
           LibCall.FcDefaultSubstitute,
           LibCall.FcFontMatch
             { pattern with
               foundry := none,
               family := some (SYMBOL_NAME (generic_family_symbol family)),
               lang := some (match pattern.lang with
                             | some l => l
                             | none => ["en"]) }] }) := by
    simp [ftfont_resolve_generic_family, hslot, hdup, CONSP, XCDR, EQ, FtState.call]
  have hslot' := assq_no_quit_XSETCDR_assq (generic_family_symbol family)
    (ftfont_resolve_generic_family P family pattern st).1 st.ftfont_generic_family_list _ _ hslot
  generalize (ftfont_resolve_generic_family P family pattern st).1 = r at hfirst hres hslot'
  have hne : EQ r Qt = false := by simpa [EQ] using hres
  rw [hfirst]
  simp [ftfont_resolve_generic_family, hslot', CONSP, XCDR, hne, LibCall.isFcFontMatch,
    List.filter_append]

/-- Witness for the amended C10: `mono` from the list `syms_of_ftfont` sets
up, with a provider whose match is `DejaVu Sans Mono`. -/
theorem ftfont_resolve_generic_family_memoized_witness :
    (generic_family_symbol (sym "mono") = Qmonospace ∨
      generic_family_symbol (sym "mono") = Qsans_serif) ∧
    (ftfont_resolve_generic_family dejavuProvider (sym "mono") { family := some "courier" }
        (ftfont_resolve_generic_family dejavuProvider (sym "mono") {} syms_of_ftfont).2).1
      = (ftfont_resolve_generic_family dejavuProvider (sym "mono") {} syms_of_ftfont).1 ∧
    ((ftfont_resolve_generic_family dejavuProvider (sym "mono") { family := some "courier" }
        (ftfont_resolve_generic_family dejavuProvider (sym "mono") {} syms_of_ftfont).2).2.log.filter
      LibCall.isFcFontMatch).length
      = (syms_of_ftfont.log.filter LibCall.isFcFontMatch).length + 1 :=
  ftfont_resolve_generic_family_memoized dejavuProvider syms_of_ftfont (sym "mono") {}
    { family := some "courier" } (by decide) (by decide) rfl (by decide)

/-! ## Reverse slants -/

/-- C7: for a spec whose numeric slant `n` satisfies `0 <= n < 100`,
`ftfont_spec_pattern` returns no pattern and touches nothing, and `ftfont_list`
returns the empty list; the only library call `ftfont_list` can make is the
`FcInit` of its first call, so no `FcFontList` or `FcFontMatch` query is
issued. -/
theorem ftfont_list_reverse_slant (H : Host) (P : Provider) (spec : Font) (st : FtState)
    (h0 : 0 ≤ H.FONT_SLANT_NUMERIC spec) (h100 : H.FONT_SLANT_NUMERIC spec < 100) :
    ftfont_spec_pattern H P spec st = (none, st) ∧
    (ftfont_list H P spec st).1 = [] ∧
    (ftfont_list H P spec st).2.log
      = st.log ++ (if st.fc_initialized then [] else [LibCall.FcInit]) ∧
    (ftfont_list H P spec st).2.log.filter (fun c => c.isFcFontList || c.isFcFontMatch)
      = st.log.filter (fun c => c.isFcFontList || c.isFcFontMatch) := by
  have hsp : ∀ s, ftfont_spec_pattern H P spec s = (none, s) := by
    intro s
    simp [ftfont_spec_pattern, h0, h100]
  have hlog : (ftfont_list H P spec st).2.log
      = st.log ++ (if st.fc_initialized then [] else [LibCall.FcInit]) := by
    unfold ftfont_list
    simp only [hsp]
    cases st.fc_initialized <;> simp [FtState.call]
  refine ⟨hsp st, ?_, hlog, ?_⟩
  · unfold ftfont_list
    simp only [hsp]
  · rw [hlog]
    cases st.fc_initialized <;> simp [LibCall.isFcFontList, LibCall.isFcFontMatch]

/-- Witness for C7 at `reverseSlantSpec`, whose numeric slant is 50. -/
theorem ftfont_list_reverse_slant_witness :
    (0 ≤ sampleHost.FONT_SLANT_NUMERIC reverseSlantSpec ∧
      sampleHost.FONT_SLANT_NUMERIC reverseSlantSpec < 100) ∧
    ftfont_spec_pattern sampleHost dejavuProvider reverseSlantSpec syms_of_ftfont
      = (none, syms_of_ftfont) ∧
    (ftfont_list sampleHost dejavuProvider reverseSlantSpec syms_of_ftfont).1 = [] ∧
    (ftfont_list sampleHost dejavuProvider reverseSlantSpec syms_of_ftfont).2.log
      = syms_of_ftfont.log ++ (if syms_of_ftfont.fc_initialized then [] else [LibCall.FcInit]) ∧
    (ftfont_list sampleHost dejavuProvider reverseSlantSpec syms_of_ftfont).2.log.filter
        (fun c => c.isFcFontList || c.isFcFontMatch)
      = syms_of_ftfont.log.filter (fun c => c.isFcFontList || c.isFcFontMatch) :=
  ⟨by decide,
   ftfont_list_reverse_slant sampleHost dejavuProvider reverseSlantSpec syms_of_ftfont
     (by decide) (by decide)⟩

/-! ## The order of a listing -/

theorem ftfont_list_eq_list_query (H : Host) (P : Provider) (spec : Font) (st : FtState) :
    ftfont_list H P spec st =
      match (list_query H P spec st).1 with
      | none => ([], (list_query H P spec st).2)
      | some q =>
        ((list_loop H P spec q.spacing q.otlayout q.otspec q.chars q.adstyle q.fonts []
            (list_query H P spec st).2).1.reverse,
         (list_loop H P spec q.spacing q.otlayout q.otspec q.chars q.adstyle q.fonts []
            (list_query H P spec st).2).2) := by
  unfold ftfont_list list_query
  simp only []
  generalize (if (!st.fc_initialized) = true then
      ({ st.call LibCall.FcInit with fc_initialized := true } : FtState) else st) = st1
  generalize ftfont_spec_pattern H P spec st1 = sp
  rcases sp with ⟨_ | sp1, st2⟩
  · rfl
  · simp only []
    generalize (if (!NILP spec.family) = true then
        if (!NILP (ftfont_resolve_generic_family P spec.family sp1.pattern st2).1) = true then
          (if (fc_call P (LibCall.FcPatternAddString "family"
                (SYMBOL_NAME (ftfont_resolve_generic_family P spec.family sp1.pattern st2).1))
                (ftfont_resolve_generic_family P spec.family sp1.pattern st2).2).1 = true
            then some { sp1.pattern with
              family := some (SYMBOL_NAME
                (ftfont_resolve_generic_family P spec.family sp1.pattern st2).1) }
            else none,
           (fc_call P (LibCall.FcPatternAddString "family"
                (SYMBOL_NAME (ftfont_resolve_generic_family P spec.family sp1.pattern st2).1))
                (ftfont_resolve_generic_family P spec.family sp1.pattern st2).2).2)
        else (some sp1.pattern, (ftfont_resolve_generic_family P spec.family sp1.pattern st2).2)
      else (some sp1.pattern, st2)) = fam
    rcases fam with ⟨_ | pattern, st3⟩
    · rfl
    · simp only []
      by_cases hobj : P.FcObjectSetBuild st3.clock = true
      · simp only [hobj, Bool.not_true, Bool.false_eq_true, if_false]
        generalize (if (!NILP _) = true then
          (st3.call (LibCall.FcObjectSetBuild list_objects)).call (LibCall.FcObjectSetAdd "charset")
          else st3.call (LibCall.FcObjectSetBuild list_objects)) = st4
        generalize P.FcFontList st4.clock pattern _ = fontset
        rcases fontset with _ | fonts
        · rfl
        · rfl
      · simp only [hobj, Bool.not_false, if_true]

theorem list_loop_step (H : Host) (P : Provider) (spec : Font) (q : ListQuery) (font : FcPattern)
    (rest : List FcPattern) (val : List Font) (st : FtState) :
    list_loop H P spec q.spacing q.otlayout q.otspec q.chars q.adstyle (font :: rest) val st
      = list_loop H P spec q.spacing q.otlayout q.otspec q.chars q.adstyle rest
          (match (candidate_entity H P spec q font st).1 with
           | some e => e :: val
           | none => val)
          (candidate_entity H P spec q font st).2 := by
  rw [list_loop]
  unfold candidate_entity
  by_cases h1 : spacing_filter q.spacing font = true
  · simp [h1]
  · by_cases h2 : capability_filter q.otlayout font = true
    · simp [h1, h2]
    · by_cases h3 : (otf_filter P q.otspec font st).1 = true
      · simp [h1, h2, h3]
      · by_cases h4 : chars_filter q.chars font = true
        · simp [h1, h2, h3, h4]
        · by_cases h5 : adstyle_filter H q.adstyle font = true
          · simp [h1, h2, h3, h4, h5]
          · simp only [h1, h2, h3, h4, h5, Bool.false_eq_true, if_false, Bool.or_self]
            cases (ftfont_pattern_entity H P font spec.extra (otf_filter P q.otspec font st).2).1
              <;> rfl


theorem list_loop_listed (H : Host) (P : Provider) (spec : Font) (q : ListQuery) :
    ∀ (fonts : List FcPattern) (val : List Font) (st : FtState),
    (list_loop H P spec q.spacing q.otlayout q.otspec q.chars q.adstyle fonts val st).1
      = ((List.range fonts.length).filterMap (fun i =>
          match fonts[i]? with
          | none => none
          | some font =>
            (candidate_entity H P spec q font (state_before H P spec q fonts i st)).1)).reverse
        ++ val := by
  intro fonts
  induction fonts with
  | nil => intro val st; simp [list_loop]
  | cons font rest ih =>
    intro val st
    rw [list_loop_step, ih]
    rw [List.length_cons, List.range_succ_eq_map, List.filterMap_cons, List.filterMap_map]
    have hfun : ((fun i => match (font :: rest)[i]? with
          | none => none
          | some f =>
            (candidate_entity H P spec q f (state_before H P spec q (font :: rest) i st)).1)
          ∘ Nat.succ)
        = (fun i => match rest[i]? with
          | none => none
          | some f => (candidate_entity H P spec q f
              (state_before H P spec q rest i (candidate_entity H P spec q font st).2)).1) := by
      funext i
      simp [state_before]
    rw [hfun]
    have h0 : state_before H P spec q (font :: rest) 0 st = st := by simp [state_before]
    simp only [List.getElem?_cons_zero, h0]
    cases (candidate_entity H P spec q font st).1 <;> simp

/-- C11: when `ftfont_list` gets a font set from the matching engine, the list
it returns is the list of the entities of the candidates that pass all filters
and materialize to a non-nil entity, in the order in which the engine returned
the candidates. -/
theorem ftfont_list_engine_order (H : Host) (P : Provider) (spec : Font) (st : FtState)
    (q : ListQuery) (hq : (list_query H P spec st).1 = some q) :
    (ftfont_list H P spec st).1 = listed_entities H P spec q (list_query H P spec st).2 := by
  rw [ftfont_list_eq_list_query]
  simp only [hq]
  rw [list_loop_listed]
  simp only [listed_entities, List.append_nil, List.reverse_reverse]

/-- Witness for C11: of the four candidates of `fourFonts` the second fails the
spacing filter and the third has no entity; the listing is the entities of the
first and the fourth, in that order. -/
theorem ftfont_list_engine_order_witness :
    (list_query sampleHost fourFontsProvider monoSpacingSpec syms_of_ftfont).1
      = some fourFontsQuery ∧
    (ftfont_list sampleHost fourFontsProvider monoSpacingSpec syms_of_ftfont).1
      = listed_entities sampleHost fourFontsProvider monoSpacingSpec fourFontsQuery
          (list_query sampleHost fourFontsProvider monoSpacingSpec syms_of_ftfont).2 ∧
    (ftfont_list sampleHost fourFontsProvider monoSpacingSpec syms_of_ftfont).1
      = [sampleEntity, sampleEntityC] :=
  ⟨by decide,
   ftfont_list_engine_order sampleHost fourFontsProvider monoSpacingSpec syms_of_ftfont
     fourFontsQuery (by decide),
   by decide⟩


/-! ## The ad-style of a style string -/

theorem first_token_eq_takeWhile (s : List Char) :
    first_token s = s.takeWhile (fun c => c != ' ') := by
  unfold first_token List.splitOn
  induction s with
  | nil => simp
  | cons c rest ih =>
    rw [List.splitOnP_cons]
    by_cases h : c = ' '
    · simp [h]
    · have hne : (rest.splitOnP (fun x => x == ' ')) ≠ [] := List.splitOnP_ne_nil _ _
      have hb : (c == ' ') = false := by simpa using h
      have hb2 : (c != ' ') = true := by simpa using h
      rw [List.takeWhile_cons, hb2, if_pos rfl]
      simp only [hb, Bool.false_eq_true, if_false]
      cases hsp : rest.splitOnP (fun x => x == ' ') with
      | nil => exact absurd hsp hne
      | cons a as =>
        rw [hsp] at ih
        simp only [List.headD_cons] at ih
        simp [List.modifyHead, ih]

/-- C12: `get_adstyle_property` is nil for a pattern without a style string,
and for a style string it is a function of the first space-delimited token `t`
alone: nil when `t` is `Regular`, `Bold`, `Oblique` or `Italic` in any case,
nil when `t` has a value on the width axis, and `t` as a property otherwise. -/
theorem get_adstyle_property_first_token (H : Host) (p : FcPattern) :
    get_adstyle_property H p =
      match p.style with
      | none => Qnil
      | some style => adstyle_of_token H (first_token style.toList) := by
  unfold get_adstyle_property
  cases p.style with
  | none => rfl
  | some style =>
    simp only [first_token_eq_takeWhile]
    unfold adstyle_of_token xstrcasecmp_eq
    have e1 : "Regular".toList.map Char.toLower = "regular".toList := by decide
    have e2 : "Bold".toList.map Char.toLower = "bold".toList := by decide
    have e3 : "Oblique".toList.map Char.toLower = "oblique".toList := by decide
    have e4 : "Italic".toList.map Char.toLower = "italic".toList := by decide
    rw [e1, e2, e3, e4]
    simp only [List.mem_cons, List.mem_singleton, List.not_mem_nil, or_false, Bool.or_eq_true,
      beq_iff_eq, ge_iff_le, or_assoc]


/-! ## Disabled feature tags -/

theorem name_byte_lt (s : String) (i : Nat) : name_byte s i < 256 := by
  unfold name_byte
  cases s.toList.get? i with
  | none => simp
  | some c => exact Nat.mod_lt _ (by decide)

theorem OTF_SYM_TAG_land_of_ascii (s : Lisp_Object) (h : name_byte (SYMBOL_NAME s) 0 < 128) :
    OTF_SYM_TAG s &&& 0x80000000 = 0 := by
  have h1 := name_byte_lt (SYMBOL_NAME s) 1
  have h2 := name_byte_lt (SYMBOL_NAME s) 2
  have h3 := name_byte_lt (SYMBOL_NAME s) 3
  have hlt : OTF_SYM_TAG s < 2 ^ 31 := by
    unfold OTF_SYM_TAG
    apply lt_of_le_of_lt (Nat.mod_le _ _)
    apply Nat.or_lt_two_pow
    · apply Nat.or_lt_two_pow
      · apply Nat.or_lt_two_pow
        · rw [Nat.shiftLeft_eq]; omega
        · rw [Nat.shiftLeft_eq]; omega
      · rw [Nat.shiftLeft_eq]; omega
    · omega
  have : (0x80000000 : Nat) = 2 ^ 31 := by norm_num
  rw [this, Nat.and_two_pow, Nat.testBit_lt_two_pow hlt]
  simp

/-- C13 (failing input): a substitution feature list `(e nil x y)` whose
disabled features `x` and `y` have names that start with an ASCII character.
`ftfont_get_open_type_spec` stores the enabled tag unchanged and stores 0 for
both disabled features: line 694 keeps of a disabled tag only its bit 31
(`tag & 0x80000000`), so the stored values do not identify the tags and
distinct disabled tags are stored as the same value.  The number of stored
values is the number of non-nil entries. -/
theorem ftfont_get_open_type_spec_disabled_tags (H : Host) (P : Provider) (st : FtState)
    (script langsys : Lisp_Object) (e x y : String)
    (hm : ∀ t c, P.fc_ok t (LibCall.malloc c) = true)
    (hx : name_byte x 0 < 128) (hy : name_byte y 0 < 128) :
    (ftfont_get_open_type_spec H P
        (cons script (cons langsys
          (cons (cons (sym e) (cons nil (cons (sym x) (cons (sym y) nil)))) nil))) st).1.map
        (fun spec => spec.features0)
      = some [OTF_SYM_TAG (sym e), 0, 0] := by
  have hx0 := OTF_SYM_TAG_land_of_ascii (sym x) (by simpa [SYMBOL_NAME] using hx)
  have hy0 := OTF_SYM_TAG_land_of_ascii (sym y) (by simpa [SYMBOL_NAME] using hy)
  simp only [ftfont_get_open_type_spec, feature_arrays, hm, read_features, XCAR, XCDR, NILP,
    hx0, hy0]
  simp

/-- Witness for C13: with `liga` enabled and `kern` and `clig` disabled the
stored tags are `liga`, 0 and 0. -/
theorem ftfont_get_open_type_spec_disabled_tags_witness :
    (name_byte "kern" 0 < 128 ∧ name_byte "clig" 0 < 128) ∧
    (ftfont_get_open_type_spec sampleHost okProvider
        (cons nil (cons nil
          (cons (cons (sym "liga") (cons nil (cons (sym "kern") (cons (sym "clig") nil)))) nil)))
        syms_of_ftfont).1.map (fun spec => spec.features0)
      = some [OTF_SYM_TAG (sym "liga"), 0, 0] :=
  ⟨by decide,
   ftfont_get_open_type_spec_disabled_tags sampleHost okProvider syms_of_ftfont nil nil
     "liga" "kern" "clig" (fun _ _ => rfl) (by decide) (by decide)⟩


/-! ## Lemmas on the shaping driver -/

theorem int32_of_range (x : Int) (h1 : -2147483648 ≤ x) (h2 : x < 2147483648) : int32 x = x := by
  unfold int32 c_int c_uint
  by_cases hx : 0 ≤ x
  · have e : x % 4294967296 = x := Int.emod_eq_of_lt hx (by omega)
    rw [e]
    have e2 : x.toNat % 4294967296 = x.toNat := Nat.mod_eq_of_lt (by omega)
    rw [e2]
    have : x.toNat < 2147483648 := by omega
    rw [if_pos this]
    omega
  · have e : x % 4294967296 = x + 4294967296 := by omega
    rw [e]
    have e2 : (x + 4294967296).toNat % 4294967296 = (x + 4294967296).toNat :=
      Nat.mod_eq_of_lt (by omega)
    rw [e2]
    have : ¬ (x + 4294967296).toNat < 2147483648 := by omega
    rw [if_neg this]
    omega

theorem int32_bounds (x : Int) : -2147483648 ≤ int32 x ∧ int32 x < 2147483648 := by
  unfold int32 c_int
  have : c_uint x % 4294967296 < 4294967296 := Nat.mod_lt _ (by decide)
  split <;> omega

theorem tdiv_65536_bounds (x : Int) (h1 : -2147483648 ≤ x) (h2 : x < 2147483648) :
    -32768 ≤ x.tdiv 65536 ∧ x.tdiv 65536 ≤ 32767 := by
  by_cases hx : 0 ≤ x
  · rw [Int.tdiv_eq_ediv hx (by decide)]
    omega
  · have e : x = -(-x) := by omega
    rw [e, Int.neg_tdiv, Int.tdiv_eq_ediv (by omega) (by decide)]
    omega

theorem scaled_bounds (v scale : Int) : -32768 ≤ scaled v scale ∧ scaled v scale ≤ 32767 := by
  unfold scaled
  have h := int32_bounds (v * scale)
  exact tdiv_65536_bounds _ h.1 h.2

theorem glyph_range_length (gs l : List MFLTGlyph) (from_ len : Nat)
    (h : glyph_range gs from_ len = some l) : l.length = len ∧ from_ + len ≤ gs.length := by
  unfold glyph_range at h
  split at h
  · simp only [Option.some.injEq] at h
    subst h
    simp
    omega
  · simp at h

theorem glyph_range_get (gs l : List MFLTGlyph) (from_ len : Nat)
    (h : glyph_range gs from_ len = some l) (i : Nat) (hi : i < len) :
    l[i]? = gs[from_ + i]? := by
  unfold glyph_range at h
  split at h
  · simp only [Option.some.injEq] at h
    subst h
    rw [List.getElem?_take_of_lt hi, List.getElem?_drop]
  · simp at h

theorem glyph_at_natCast (gs : List MFLTGlyph) (n : Nat) : glyph_at gs (n : Int) = gs[n]? := by
  unfold glyph_at
  simp

theorem glyph_at_some (gs : List MFLTGlyph) (j : Int) (h0 : 0 ≤ j) (h1 : j < gs.length) :
    ∃ g, glyph_at gs j = some g := by
  unfold glyph_at
  rw [if_neg (by omega)]
  have : j.toNat < gs.length := by omega
  exact ⟨gs[j.toNat], List.getElem?_eq_getElem this⟩

theorem merge_range_spec (gs : List MFLTGlyph) :
    ∀ (n : Nat) (j : Int) (r : Int × Int), 0 ≤ j → j + n ≤ gs.length →
    ∃ r', merge_range gs n j r = some r' ∧ r'.1 ≤ r.1 ∧ r.2 ≤ r'.2 ∧
      (∀ (k : Int) (x : MFLTGlyph), j ≤ k → k < j + n → glyph_at gs k = some x →
        r'.1 ≤ x.from_ ∧ x.to_ ≤ r'.2) ∧
      (r'.1 = r.1 ∨ ∃ (k : Int) (x : MFLTGlyph), j ≤ k ∧ k < j + n ∧ glyph_at gs k = some x ∧
        r'.1 = x.from_) ∧
      (r'.2 = r.2 ∨ ∃ (k : Int) (x : MFLTGlyph), j ≤ k ∧ k < j + n ∧ glyph_at gs k = some x ∧
        r'.2 = x.to_) := by
  intro n
  induction n with
  | zero =>
    intro j r _ _
    refine ⟨r, rfl, le_refl _, le_refl _, ?_, Or.inl rfl, Or.inl rfl⟩
    intro k x h1 h2
    simp at h2
    omega
  | succ n ih =>
    intro j r h0 h1
    obtain ⟨g, hg⟩ := glyph_at_some gs j h0 (by push_cast at h1; omega)
    rw [merge_range, hg]
    obtain ⟨r', hr', hle1, hle2, hall, hex1, hex2⟩ :=
      ih (j + 1) (if r.1 > g.from_ then g.from_ else r.1, if r.2 < g.to_ then g.to_ else r.2)
        (by omega) (by push_cast at h1 ⊢; omega)
    simp only [] at hle1 hle2 hex1 hex2
    refine ⟨r', hr', ?_, ?_, ?_, ?_, ?_⟩
    · split at hle1 <;> omega
    · split at hle2 <;> omega
    · intro k x hk1 hk2 hx
      by_cases hkj : k = j
      · subst hkj
        rw [hg] at hx
        simp only [Option.some.injEq] at hx
        subst hx
        constructor
        · split at hle1 <;> omega
        · split at hle2 <;> omega
      · exact hall k x (by omega) (by push_cast at hk2 ⊢; omega) hx
    · rcases hex1 with h | ⟨k, x, hk1, hk2, hx, he⟩
      · by_cases hc : r.1 > g.from_
        · rw [if_pos hc] at h
          exact Or.inr ⟨j, g, le_refl _, by push_cast; omega, hg, h⟩
        · rw [if_neg hc] at h
          exact Or.inl h
      · exact Or.inr ⟨k, x, by omega, by push_cast at hk2 ⊢; omega, hx, he⟩
    · rcases hex2 with h | ⟨k, x, hk1, hk2, hx, he⟩
      · by_cases hc : r.2 < g.to_
        · rw [if_pos hc] at h
          exact Or.inr ⟨j, g, le_refl _, by push_cast; omega, hg, h⟩
        · rw [if_neg hc] at h
          exact Or.inl h
      · exact Or.inr ⟨k, x, by omega, by push_cast at hk2 ⊢; omega, hx, he⟩

theorem substituted_range (g : MFLTGlyph) (otfg : OTF_Glyph) :
    (substituted g otfg).from_ = g.from_ ∧ (substituted g otfg).to_ = g.to_ := by
  unfold substituted
  split <;> simp

theorem substituted_code (g : MFLTGlyph) (otfg : OTF_Glyph) :
    (substituted g otfg).code = otfg.glyph_id := by
  unfold substituted
  split
  · rfl
  · rename_i h
    simpa using h

theorem gsub_head_spec (gs : List MFLTGlyph) (from_ : Nat) (r : OTF_Glyph)
    (h0 : 0 ≤ r.index_from) (h1 : r.index_from ≤ r.index_to)
    (h2 : from_ + r.index_to < gs.length) :
    ∃ (g0 : MFLTGlyph) (lo hi : Int),
      glyph_at gs (from_ + r.index_from) = some g0 ∧
      gsub_head gs from_ r = some { substituted g0 r with from_ := lo, to_ := hi } ∧
      (∀ (k : Int) (x : MFLTGlyph), from_ + r.index_from ≤ k → k ≤ from_ + r.index_to →
        glyph_at gs k = some x → lo ≤ x.from_ ∧ x.to_ ≤ hi) ∧
      (∃ (k : Int) (x : MFLTGlyph), from_ + r.index_from ≤ k ∧ k ≤ from_ + r.index_to ∧
        glyph_at gs k = some x ∧ lo = x.from_) ∧
      (∃ (k : Int) (x : MFLTGlyph), from_ + r.index_from ≤ k ∧ k ≤ from_ + r.index_to ∧
        glyph_at gs k = some x ∧ hi = x.to_) := by
  obtain ⟨g0, hg0⟩ := glyph_at_some gs (from_ + r.index_from) (by omega) (by omega)
  have hsr := substituted_range g0 r
  unfold gsub_head
  rw [hg0]
  simp only []
  by_cases hlt : r.index_from < r.index_to
  · rw [if_pos hlt]
    obtain ⟨r', hr', hle1, hle2, hall, hex1, hex2⟩ :=
      merge_range_spec gs (r.index_to - r.index_from).toNat (from_ + r.index_from + 1)
        ((substituted g0 r).from_, (substituted g0 r).to_) (by omega) (by omega)
    rw [hr']
    simp only [hsr.1, hsr.2] at hle1 hle2 hex1 hex2
    refine ⟨g0, r'.1, r'.2, rfl, rfl, ?_, ?_, ?_⟩
    · intro k x hk1 hk2 hx
      by_cases hk : k = from_ + r.index_from
      · subst hk
        rw [hg0] at hx
        simp only [Option.some.injEq] at hx
        subst hx
        exact ⟨hle1, hle2⟩
      · exact hall k x (by omega) (by omega) hx
    · rcases hex1 with h | ⟨k, x, hk1, hk2, hx, he⟩
      · exact ⟨from_ + r.index_from, g0, le_refl _, by omega, hg0, h⟩
      · exact ⟨k, x, by omega, by omega, hx, he⟩
    · rcases hex2 with h | ⟨k, x, hk1, hk2, hx, he⟩
      · exact ⟨from_ + r.index_from, g0, le_refl _, by omega, hg0, h⟩
      · exact ⟨k, x, by omega, by omega, hx, he⟩
  · rw [if_neg hlt]
    have heq : r.index_to = r.index_from := by omega
    refine ⟨g0, g0.from_, g0.to_, rfl, ?_, ?_, ?_, ?_⟩
    · rw [← hsr.1, ← hsr.2]
    · intro k x hk1 hk2 hx
      have hk : k = from_ + r.index_from := by omega
      subst hk
      rw [hg0] at hx
      simp only [Option.some.injEq] at hx
      subst hx
      exact ⟨le_refl _, le_refl _⟩
    · exact ⟨from_ + r.index_from, g0, le_refl _, by omega, hg0, rfl⟩
    · exact ⟨from_ + r.index_from, g0, le_refl _, by omega, hg0, rfl⟩

theorem gsub_follow_spec (gs : List MFLTGlyph) (from_ : Nat) (r : OTF_Glyph)
    (h0 : 0 ≤ r.index_to) (h2 : from_ + r.index_to < gs.length) :
    ∃ g0, glyph_at gs (from_ + r.index_to) = some g0 ∧
      gsub_follow gs from_ r = some (substituted g0 r) := by
  obtain ⟨g0, hg0⟩ := glyph_at_some gs (from_ + r.index_to) (by omega) (by omega)
  refine ⟨g0, hg0, ?_⟩
  unfold gsub_follow
  rw [hg0]

theorem gsub_loop_spec (gs : List MFLTGlyph) (from_ : Nat) :
    ∀ (recs : List OTF_Glyph) (prev : Option Int) (out : List MFLTGlyph),
    (∀ r ∈ recs, 0 ≤ r.index_from ∧ r.index_from ≤ r.index_to ∧
      from_ + r.index_to < gs.length) →
    ∃ l, gsub_loop gs from_ prev recs out = some (out ++ l) ∧ l.length = recs.length ∧
      ∀ (k : Nat) (r : OTF_Glyph), recs[k]? = some r →
        l[k]? = (if index_before prev recs k = some r.index_from
                 then gsub_follow gs from_ r else gsub_head gs from_ r) := by
  intro recs
  induction recs with
  | nil =>
    intro prev out _
    exact ⟨[], by simp [gsub_loop], rfl, by simp⟩
  | cons otfg rest ih =>
    intro prev out hin
    have hr := hin otfg (List.mem_cons_self _ _)
    obtain ⟨g0, lo, hi, _, hhead, _⟩ := gsub_head_spec gs from_ otfg hr.1 hr.2.1 hr.2.2
    obtain ⟨g1, _, hfollow⟩ := gsub_follow_spec gs from_ otfg (by omega) hr.2.2
    have hsome : ∃ g, (if prev = some otfg.index_from then gsub_follow gs from_ otfg
        else gsub_head gs from_ otfg) = some g := by
      by_cases hp : prev = some otfg.index_from
      · rw [if_pos hp]; exact ⟨_, hfollow⟩
      · rw [if_neg hp]; exact ⟨_, hhead⟩
    obtain ⟨g, hg⟩ := hsome
    obtain ⟨l, hl, hlen, hget⟩ := ih (some otfg.index_from) (out ++ [g])
      (fun r hr => hin r (List.mem_cons_of_mem _ hr))
    refine ⟨g :: l, ?_, by simp [hlen], ?_⟩
    · rw [gsub_loop, hg]
      simp only []
      rw [hl]
      simp
    · intro k r hk
      cases k with
      | zero =>
        simp only [List.getElem?_cons_zero, Option.some.injEq] at hk
        subst hk
        simp only [List.getElem?_cons_zero, index_before]
        exact hg.symm
      | succ k =>
        simp only [List.getElem?_cons_succ] at hk
        simp only [List.getElem?_cons_succ]
        rw [hget k r hk]
        cases k with
        | zero => simp [index_before]
        | succ k => simp [index_before]

theorem ftfont_drive_otf_gsub_path (E : Shaper) (font : MFLTFontFT) (spec : MFLTOtfSpec)
    (from_ to_ : Nat) (s : DriveState) (gs : List MFLTGlyph) (names : List Char)
    (f1 : Option (List Char)) (recs : List OTF_Glyph)
    (hlt : from_ < to_) (hr : glyph_range s.in_ from_ (to_ - from_) = some gs)
    (h0 : feature_names spec.features0 = some (some names))
    (h1 : feature_names spec.features1 = some f1)
    (hsub : E.OTF_drive_gsub (E.OTF_drive_gdef (fill_otf_gstring gs)) (script_name spec)
      (langsys_name spec) names = some recs) :
    ftfont_drive_otf E font spec from_ to_ s =
      if s.out.allocated < s.out.glyphs.length + recs.length then
        some (-2, { s with log := s.log ++ [ShapeCall.OTF_drive_gdef (fill_otf_gstring gs),
          ShapeCall.OTF_drive_gsub (E.OTF_drive_gdef (fill_otf_gstring gs)) (script_name spec)
            (langsys_name spec) names] })
      else
        (gsub_loop s.in_ from_ none recs s.out.glyphs).bind (fun glyphs =>
          drive_gpos E f1 (script_name spec) (langsys_name spec) s.out.glyphs.length recs to_
            { s with out := { s.out with glyphs := glyphs },
                     log := s.log ++ [ShapeCall.OTF_drive_gdef (fill_otf_gstring gs),
                       ShapeCall.OTF_drive_gsub (E.OTF_drive_gdef (fill_otf_gstring gs))
                         (script_name spec) (langsys_name spec) names] }) := by
  unfold ftfont_drive_otf
  rw [if_neg (by omega), if_neg (by omega)]
  simp only [h0, h1, hr, hsub, List.append_assoc, List.singleton_append]
  by_cases hc : s.out.allocated < s.out.glyphs.length + recs.length
  · rw [if_pos hc, if_pos hc]
  · rw [if_neg hc, if_neg hc]
    generalize gsub_loop s.in_ from_ none recs s.out.glyphs = x
    cases x <;> rfl

theorem ftfont_drive_otf_error_path (E : Shaper) (font : MFLTFontFT) (spec : MFLTOtfSpec)
    (from_ to_ : Nat) (s : DriveState) (gs : List MFLTGlyph) (names : List Char)
    (f1 : Option (List Char))
    (hlt : from_ < to_) (hr : glyph_range s.in_ from_ (to_ - from_) = some gs)
    (h0 : feature_names spec.features0 = some (some names))
    (h1 : feature_names spec.features1 = some f1)
    (hsub : E.OTF_drive_gsub (E.OTF_drive_gdef (fill_otf_gstring gs)) (script_name spec)
      (langsys_name spec) names = none) :
    ftfont_drive_otf E font spec from_ to_ s =
      simple_copy E font from_ to_
        { s with log := s.log ++ [ShapeCall.OTF_drive_gdef (fill_otf_gstring gs),
          ShapeCall.OTF_drive_gsub (E.OTF_drive_gdef (fill_otf_gstring gs)) (script_name spec)
            (langsys_name spec) names] } := by
  unfold ftfont_drive_otf
  rw [if_neg (by omega), if_neg (by omega)]
  simp only [h0, h1, hr, hsub, List.append_assoc, List.singleton_append]

theorem ftfont_drive_otf_copy_path (E : Shaper) (font : MFLTFontFT) (spec : MFLTOtfSpec)
    (from_ to_ : Nat) (s : DriveState) (gs : List MFLTGlyph) (f1 : Option (List Char))
    (hlt : from_ < to_) (hr : glyph_range s.in_ from_ (to_ - from_) = some gs)
    (h0 : feature_names spec.features0 = some none)
    (h1 : feature_names spec.features1 = some f1) :
    ftfont_drive_otf E font spec from_ to_ s =
      if s.out.allocated < s.out.glyphs.length + (to_ - from_) then
        some (-2, { s with log := s.log ++ [ShapeCall.OTF_drive_gdef (fill_otf_gstring gs)] })
      else
        drive_gpos E f1 (script_name spec) (langsys_name spec) s.out.glyphs.length
          (E.OTF_drive_gdef (fill_otf_gstring gs)) to_
          { s with out := { s.out with glyphs := s.out.glyphs ++ gs },
                   log := s.log ++ [ShapeCall.OTF_drive_gdef (fill_otf_gstring gs)] } := by
  unfold ftfont_drive_otf
  rw [if_neg (by omega), if_neg (by omega)]
  simp only [h0, h1, hr]

theorem continues_group_iff (recs : List OTF_Glyph) (k : Nat) (r : OTF_Glyph)
    (hk : recs[k]? = some r) :
    index_before none recs k = some r.index_from ↔ continues_group recs k = true := by
  simp [continues_group, hk]


/-! ## Ranges after substitution -/

/-- C14 (counterexample): the substitution pass turns the glyphs of `fi`, with
ranges [0,0] and [1,1], into two glyphs that both derive from both inputs
(`index.from` = 0, `index.to` = 1).  The first output glyph gets the merged
range [0,1]; the second, appended by the inner loop, gets the range [1,1] of
`in[from + index.to]` alone, though the smallest `from` over its inputs is
0. -/
theorem ftfont_drive_otf_group_range_counterexample :
    ligaInput.in_.map (fun g => (g.from_, g.to_)) = [(0, 0), (1, 1)] ∧
    (ftfont_drive_otf manyToManyShaper {} ligaSpec 0 2 ligaInput).map
        (fun r => (r.1, r.2.out.glyphs.map (fun g => (g.code, g.from_, g.to_))))
      = some (2, [(300, 0, 1), (301, 1, 1)]) := by
  decide

/-- C14 (amended): after a successful substitution pass with no positioning
stage, `ftfont_drive_otf` returns `to` having appended one glyph per record of
the engine.  For a record that starts a group (it is the first record, or its
`index.from` differs from that of the record before it) the glyph has `from`
equal to the smallest `from` and `to` equal to the largest `to` over
`in[from + index.from .. from + index.to]`.  For a record that continues a
group the glyph has the range of `in[from + index.to]` alone. -/
theorem ftfont_drive_otf_group_range (E : Shaper) (font : MFLTFontFT) (spec : MFLTOtfSpec)
    (from_ to_ : Nat) (s : DriveState) (gs : List MFLTGlyph) (names : List Char)
    (recs : List OTF_Glyph)
    (hlt : from_ < to_) (hr : glyph_range s.in_ from_ (to_ - from_) = some gs)
    (h0 : feature_names spec.features0 = some (some names))
    (h1 : feature_names spec.features1 = some none)
    (hsub : E.OTF_drive_gsub (E.OTF_drive_gdef (fill_otf_gstring gs)) (script_name spec)
      (langsys_name spec) names = some recs)
    (hcap : s.out.glyphs.length + recs.length ≤ s.out.allocated)
    (hin : ∀ r ∈ recs, 0 ≤ r.index_from ∧ r.index_from ≤ r.index_to ∧
      r.index_to < ((to_ - from_ : Nat) : Int)) :
    ∃ s', ftfont_drive_otf E font spec from_ to_ s = some ((to_ : Int), s') ∧
      s'.out.glyphs.length = s.out.glyphs.length + recs.length ∧
      ∀ (k : Nat) (r : OTF_Glyph), recs[k]? = some r →
        ∃ g, s'.out.glyphs[s.out.glyphs.length + k]? = some g ∧
          (continues_group recs k = false →
            (∀ (j : Int) (x : MFLTGlyph), from_ + r.index_from ≤ j → j ≤ from_ + r.index_to →
              glyph_at s.in_ j = some x → g.from_ ≤ x.from_ ∧ x.to_ ≤ g.to_) ∧
            (∃ (j : Int) (x : MFLTGlyph), from_ + r.index_from ≤ j ∧ j ≤ from_ + r.index_to ∧
              glyph_at s.in_ j = some x ∧ g.from_ = x.from_) ∧
            (∃ (j : Int) (x : MFLTGlyph), from_ + r.index_from ≤ j ∧ j ≤ from_ + r.index_to ∧
              glyph_at s.in_ j = some x ∧ g.to_ = x.to_)) ∧
          (continues_group recs k = true →
            ∃ x, glyph_at s.in_ (from_ + r.index_to) = some x ∧
              g.from_ = x.from_ ∧ g.to_ = x.to_) := by
  have hlen := (glyph_range_length _ _ _ _ hr).2
  have hin' : ∀ r ∈ recs, 0 ≤ r.index_from ∧ r.index_from ≤ r.index_to ∧
      from_ + r.index_to < s.in_.length := by
    intro r hr'
    have := hin r hr'
    omega
  obtain ⟨l, hl, hllen, hget⟩ := gsub_loop_spec s.in_ from_ recs none s.out.glyphs hin'
  rw [ftfont_drive_otf_gsub_path E font spec from_ to_ s gs names none recs hlt hr h0 h1 hsub,
    if_neg (by omega), hl]
  simp only [drive_gpos, Option.some_bind]
  refine ⟨_, rfl, by simp [hllen], ?_⟩
  intro k r hk
  have hkl : k < l.length := by
    rw [hllen]
    exact (List.getElem?_eq_some_iff.mp hk).1
  have hmem : r ∈ recs := List.getElem?_mem hk
  have hr3 := hin' r hmem
  have hgk := hget k r hk
  simp only []
  rw [List.getElem?_append_right (by omega), Nat.add_sub_cancel_left]
  by_cases hc : continues_group recs k = true
  · rw [if_pos ((continues_group_iff recs k r hk).mpr hc)] at hgk
    obtain ⟨x, hx, hf⟩ := gsub_follow_spec s.in_ from_ r (by omega) hr3.2.2
    rw [hf] at hgk
    refine ⟨substituted x r, hgk, ?_, ?_⟩
    · intro hcf; rw [hc] at hcf; exact absurd hcf (by decide)
    · intro _
      exact ⟨x, hx, (substituted_range x r).1, (substituted_range x r).2⟩
  · rw [if_neg (fun h => hc ((continues_group_iff recs k r hk).mp h))] at hgk
    obtain ⟨g0, lo, hi, hg0, hh, hall, hex1, hex2⟩ :=
      gsub_head_spec s.in_ from_ r hr3.1 hr3.2.1 hr3.2.2
    rw [hh] at hgk
    refine ⟨_, hgk, ?_, ?_⟩
    · intro _
      exact ⟨hall, hex1, hex2⟩
    · intro hct; exact absurd hct hc

/-- Witness for C14 (amended): the pass of `manyToManyShaper` over `fi`. -/
theorem ftfont_drive_otf_group_range_witness :
    (glyph_range ligaInput.in_ 0 (2 - 0) = some [fGlyph, iGlyph] ∧
      feature_names ligaSpec.features0 = some (some "liga".toList) ∧
      feature_names ligaSpec.features1 = some none ∧
      ligaInput.out.glyphs.length + 2 ≤ ligaInput.out.allocated) ∧
    ∃ s', ftfont_drive_otf manyToManyShaper {} ligaSpec 0 2 ligaInput
        = some (((2 : Nat) : Int), s') ∧
      s'.out.glyphs.length = ligaInput.out.glyphs.length +
        [({ glyph_id := 300, index_from := 0, index_to := 1 } : OTF_Glyph),
         { glyph_id := 301, index_from := 0, index_to := 1 }].length ∧
      ∀ (k : Nat) (r : OTF_Glyph),
        [({ glyph_id := 300, index_from := 0, index_to := 1 } : OTF_Glyph),
         { glyph_id := 301, index_from := 0, index_to := 1 }][k]? = some r →
        ∃ g, s'.out.glyphs[ligaInput.out.glyphs.length + k]? = some g ∧
          (continues_group
              [({ glyph_id := 300, index_from := 0, index_to := 1 } : OTF_Glyph),
               { glyph_id := 301, index_from := 0, index_to := 1 }] k = false →
            (∀ (j : Int) (x : MFLTGlyph), ((0 : Nat) : Int) + r.index_from ≤ j →
              j ≤ ((0 : Nat) : Int) + r.index_to →
              glyph_at ligaInput.in_ j = some x → g.from_ ≤ x.from_ ∧ x.to_ ≤ g.to_) ∧
            (∃ (j : Int) (x : MFLTGlyph), ((0 : Nat) : Int) + r.index_from ≤ j ∧
              j ≤ ((0 : Nat) : Int) + r.index_to ∧
              glyph_at ligaInput.in_ j = some x ∧ g.from_ = x.from_) ∧
            (∃ (j : Int) (x : MFLTGlyph), ((0 : Nat) : Int) + r.index_from ≤ j ∧
              j ≤ ((0 : Nat) : Int) + r.index_to ∧
              glyph_at ligaInput.in_ j = some x ∧ g.to_ = x.to_)) ∧
          (continues_group
              [({ glyph_id := 300, index_from := 0, index_to := 1 } : OTF_Glyph),
               { glyph_id := 301, index_from := 0, index_to := 1 }] k = true →
            ∃ x, glyph_at ligaInput.in_ (((0 : Nat) : Int) + r.index_to) = some x ∧
              g.from_ = x.from_ ∧ g.to_ = x.to_) :=
  ⟨by decide,
   ftfont_drive_otf_group_range manyToManyShaper {} ligaSpec 0 2 ligaInput [fGlyph, iGlyph]
     "liga".toList
     [{ glyph_id := 300, index_from := 0, index_to := 1 },
      { glyph_id := 301, index_from := 0, index_to := 1 }]
     (by decide) (by decide) (by decide) (by decide) rfl (by decide) (by decide)⟩


/-! ## Ligatures -/

/-- C15: when the substitution pass succeeds, there is no positioning stage,
and a record of the engine starts a group, derives from the input glyphs
`index.from .. index.to` (two or more for a ligature) and has a glyph id other
than the code of the first of them, `ftfont_drive_otf` returns `to` having
appended one glyph per record, and the glyph for this record has character
code 0, the glyph id of the record as code, the measured flag cleared, and a
range `[from, to]` that is the smallest `from` and the largest `to` of the
input glyphs it derives from.  When the record is the only one, as for `fi`,
that glyph is the one glyph appended. -/
theorem ftfont_drive_otf_ligature (E : Shaper) (font : MFLTFontFT) (spec : MFLTOtfSpec)
    (from_ to_ : Nat) (s : DriveState) (gs : List MFLTGlyph) (names : List Char)
    (recs : List OTF_Glyph) (k : Nat) (r : OTF_Glyph) (g0 : MFLTGlyph)
    (hlt : from_ < to_) (hr : glyph_range s.in_ from_ (to_ - from_) = some gs)
    (h0 : feature_names spec.features0 = some (some names))
    (h1 : feature_names spec.features1 = some none)
    (hsub : E.OTF_drive_gsub (E.OTF_drive_gdef (fill_otf_gstring gs)) (script_name spec)
      (langsys_name spec) names = some recs)
    (hcap : s.out.glyphs.length + recs.length ≤ s.out.allocated)
    (hin : ∀ r ∈ recs, 0 ≤ r.index_from ∧ r.index_from ≤ r.index_to ∧
      r.index_to < ((to_ - from_ : Nat) : Int))
    (hk : recs[k]? = some r)
    (hhead : continues_group recs k = false)
    (hg0 : glyph_at s.in_ (from_ + r.index_from) = some g0) (hid : r.glyph_id ≠ g0.code) :
    ∃ s' g, ftfont_drive_otf E font spec from_ to_ s = some ((to_ : Int), s') ∧
      s'.out.glyphs.length = s.out.glyphs.length + recs.length ∧
      s'.out.glyphs[s.out.glyphs.length + k]? = some g ∧
      (recs.length = 1 → s'.out.glyphs = s.out.glyphs ++ [g]) ∧
      g.c = 0 ∧ g.code = r.glyph_id ∧ g.measured = false ∧
      (∀ (j : Int) (x : MFLTGlyph), from_ + r.index_from ≤ j → j ≤ from_ + r.index_to →
        glyph_at s.in_ j = some x → g.from_ ≤ x.from_ ∧ x.to_ ≤ g.to_) ∧
      (∃ (j : Int) (x : MFLTGlyph), from_ + r.index_from ≤ j ∧ j ≤ from_ + r.index_to ∧
        glyph_at s.in_ j = some x ∧ g.from_ = x.from_) ∧
      (∃ (j : Int) (x : MFLTGlyph), from_ + r.index_from ≤ j ∧ j ≤ from_ + r.index_to ∧
        glyph_at s.in_ j = some x ∧ g.to_ = x.to_) := by
  have hlen := (glyph_range_length _ _ _ _ hr).2
  have hin' : ∀ r ∈ recs, 0 ≤ r.index_from ∧ r.index_from ≤ r.index_to ∧
      from_ + r.index_to < s.in_.length := by
    intro r hr'
    have := hin r hr'
    omega
  obtain ⟨l, hl, hllen, hget⟩ := gsub_loop_spec s.in_ from_ recs none s.out.glyphs hin'
  rw [ftfont_drive_otf_gsub_path E font spec from_ to_ s gs names none recs hlt hr h0 h1 hsub,
    if_neg (by omega), hl]
  simp only [drive_gpos, Option.some_bind]
  have hr3 := hin' r (List.getElem?_mem hk)
  have hgk := hget k r hk
  have hnc : ¬ index_before none recs k = some r.index_from := by
    intro h
    rw [(continues_group_iff recs k r hk).mp h] at hhead
    exact absurd hhead (by decide)
  rw [if_neg hnc] at hgk
  obtain ⟨g0', lo, hi, hg0', hh, hall, hex1, hex2⟩ :=
    gsub_head_spec s.in_ from_ r hr3.1 hr3.2.1 hr3.2.2
  rw [hg0] at hg0'
  simp only [Option.some.injEq] at hg0'
  subst hg0'
  rw [hh] at hgk
  have hsub' : substituted g0 r = { g0 with c := 0, code := r.glyph_id, measured := false } := by
    unfold substituted
    rw [if_pos]
    simpa using fun h => hid h.symm
  refine ⟨_, { substituted g0 r with from_ := lo, to_ := hi }, rfl, by simp [hllen], ?_, ?_, ?_,
    ?_, ?_, hall, hex1, hex2⟩
  · simp only []
    rw [List.getElem?_append_right (by omega), Nat.add_sub_cancel_left]
    exact hgk
  · intro h1len
    have hk0 : k = 0 := by
      have := (List.getElem?_eq_some_iff.mp hk).1
      omega
    subst hk0
    have hl1 : l.length = 1 := by omega
    obtain ⟨x, hx⟩ := List.length_eq_one.mp hl1
    subst hx
    simp only [List.getElem?_cons_zero, Option.some.injEq] at hgk
    rw [hgk]
  · simp [hsub']
  · simp [hsub']
  · simp [hsub']

/-- Witness for C15: the scenario of the specification.  The glyphs of `f` and
`i`, with ranges [0,0] and [1,1], become the one ligature glyph 300. -/
theorem ftfont_drive_otf_ligature_witness :
    (ftfont_drive_otf ligaShaper {} ligaSpec 0 2 ligaInput).map (fun r => (r.1, r.2.out.glyphs))
      = some (2, [{ fGlyph with c := 0, code := 300, measured := false, from_ := 0, to_ := 1 }]) ∧
    ∃ s' g, ftfont_drive_otf ligaShaper {} ligaSpec 0 2 ligaInput = some (((2 : Nat) : Int), s') ∧
      s'.out.glyphs.length = ligaInput.out.glyphs.length +
        [({ glyph_id := 300, index_from := 0, index_to := 1 } : OTF_Glyph)].length ∧
      s'.out.glyphs[ligaInput.out.glyphs.length + 0]? = some g ∧
      ([({ glyph_id := 300, index_from := 0, index_to := 1 } : OTF_Glyph)].length = 1 →
        s'.out.glyphs = ligaInput.out.glyphs ++ [g]) ∧
      g.c = 0 ∧
      g.code = ({ glyph_id := 300, index_from := 0, index_to := 1 } : OTF_Glyph).glyph_id ∧
      g.measured = false ∧
      (∀ (j : Int) (x : MFLTGlyph),
        ((0 : Nat) : Int) + ({ glyph_id := 300, index_from := 0, index_to := 1 } : OTF_Glyph).index_from
          ≤ j →
        j ≤ ((0 : Nat) : Int) + ({ glyph_id := 300, index_from := 0, index_to := 1 } : OTF_Glyph).index_to →
        glyph_at ligaInput.in_ j = some x → g.from_ ≤ x.from_ ∧ x.to_ ≤ g.to_) ∧
      (∃ (j : Int) (x : MFLTGlyph),
        ((0 : Nat) : Int) + ({ glyph_id := 300, index_from := 0, index_to := 1 } : OTF_Glyph).index_from
          ≤ j ∧
        j ≤ ((0 : Nat) : Int) + ({ glyph_id := 300, index_from := 0, index_to := 1 } : OTF_Glyph).index_to ∧
        glyph_at ligaInput.in_ j = some x ∧ g.from_ = x.from_) ∧
      (∃ (j : Int) (x : MFLTGlyph),
        ((0 : Nat) : Int) + ({ glyph_id := 300, index_from := 0, index_to := 1 } : OTF_Glyph).index_from
          ≤ j ∧
        j ≤ ((0 : Nat) : Int) + ({ glyph_id := 300, index_from := 0, index_to := 1 } : OTF_Glyph).index_to ∧
        glyph_at ligaInput.in_ j = some x ∧ g.to_ = x.to_) :=
  ⟨by decide,
   ftfont_drive_otf_ligature ligaShaper {} ligaSpec 0 2 ligaInput [fGlyph, iGlyph] "liga".toList
     [{ glyph_id := 300, index_from := 0, index_to := 1 }] 0
     { glyph_id := 300, index_from := 0, index_to := 1 } fGlyph
     (by decide) (by decide) (by decide) (by decide) rfl (by decide) (by decide) rfl
     (by decide) (by decide) (by decide)⟩


/-! ## Identity tables -/

theorem substituted_same (g : MFLTGlyph) (r : OTF_Glyph) (h : r.glyph_id = g.code) :
    substituted g r = g := by
  unfold substituted
  rw [if_neg]
  simp [h]

theorem gsub_loop_identity (gs : List MFLTGlyph) (from_ : Nat) :
    ∀ (recs : List OTF_Glyph) (l : List MFLTGlyph) (offset : Nat) (prev : Option Int)
      (out : List MFLTGlyph),
    recs.length = l.length →
    (∀ (i : Nat) (r : OTF_Glyph) (g : MFLTGlyph), recs[i]? = some r → l[i]? = some g →
      r.glyph_id = g.code ∧ r.index_from = ((offset + i : Nat) : Int) ∧
      r.index_to = ((offset + i : Nat) : Int) ∧ gs[from_ + offset + i]? = some g) →
    (∀ p, prev = some p → p < (offset : Int)) →
    gsub_loop gs from_ prev recs out = some (out ++ l) := by
  intro recs
  induction recs with
  | nil =>
    intro l offset prev out hlen _ _
    have : l = [] := List.length_eq_zero.mp hlen.symm
    subst this
    simp [gsub_loop]
  | cons r rest ih =>
    intro l offset prev out hlen hrec hprev
    cases l with
    | nil => simp at hlen
    | cons g l =>
      have h0 := hrec 0 r g (by simp) (by simp)
      simp only [Nat.add_zero] at h0
      have hne : ¬ prev = some r.index_from := by
        intro h
        have := hprev _ h
        omega
      have hat : glyph_at gs (from_ + r.index_from) = some g := by
        rw [h0.2.1]
        have : ((from_ : Int) + ((offset : Nat) : Int)) = ((from_ + offset : Nat) : Int) := by
          push_cast; rfl
        rw [this, glyph_at_natCast]
        exact h0.2.2.2
      have hhead : gsub_head gs from_ r = some g := by
        unfold gsub_head
        rw [hat]
        simp only [substituted_same g r h0.1]
        rw [if_neg (by omega)]
      rw [gsub_loop, if_neg hne, hhead]
      simp only []
      rw [ih l (offset + 1) (some r.index_from) (out ++ [g]) (by simpa using hlen)]
      · simp
      · intro i r' g' hr' hg'
        have := hrec (i + 1) r' g' (by simpa using hr') (by simpa using hg')
        refine ⟨this.1, ?_, ?_, ?_⟩
        · rw [this.2.1]; push_cast; omega
        · rw [this.2.2.1]; push_cast; omega
        · rw [← this.2.2.2]; congr 1; omega
      · intro p hp
        simp only [Option.some.injEq] at hp
        rw [← hp, h0.2.1]
        push_cast
        omega

theorem gpos_loop_type0 (E : Shaper) (gidx : Nat) :
    ∀ (recs : List OTF_Glyph) (i : Nat) (s : PosState),
    (∀ r ∈ recs, r.positioning_type = 0) →
    ∃ s', gpos_loop E gidx i recs s = some s' ∧ s'.glyphs = s.glyphs ∧
      s'.adjustment = s.adjustment ∧ s'.log = s.log := by
  intro recs
  induction recs with
  | nil => intro i s _; exact ⟨s, rfl, rfl, rfl, rfl⟩
  | cons r rest ih =>
    intro i s h
    have h0 := h r (List.mem_cons_self _ _)
    have hstep : ∃ s1, gpos_step E gidx i r s = some s1 ∧ s1.glyphs = s.glyphs ∧
        s1.adjustment = s.adjustment ∧ s1.log = s.log := by
      unfold gpos_step
      by_cases hid : r.glyph_id = 0
      · rw [if_pos hid]; exact ⟨s, rfl, rfl, rfl, rfl⟩
      · rw [if_neg hid]
        have hsw : gpos_switch E i (gidx + i) r s = some s := by
          unfold gpos_switch
          rw [if_pos h0]
        rw [hsw]
        refine ⟨_, rfl, ?_, ?_, ?_⟩ <;>
          · unfold track_class
            split
            · rfl
            · split <;> rfl
    obtain ⟨s1, hs1, e1, e2, e3⟩ := hstep
    obtain ⟨s', hs', f1, f2, f3⟩ := ih (i + 1) s1 (fun r hr => h r (List.mem_cons_of_mem _ hr))
    refine ⟨s', ?_, by rw [f1, e1], by rw [f2, e2], by rw [f3, e3]⟩
    rw [gpos_loop, hs1]
    exact hs'

theorem drive_gpos_type0 (E : Shaper) (f1 : Option (List Char)) (script : List Char)
    (langsys : Option (List Char)) (gidx : Nat) (otf_gstring : List OTF_Glyph) (to_ : Nat)
    (s : DriveState)
    (hpos : ∀ names recs, f1 = some names →
      E.OTF_drive_gpos otf_gstring script langsys names = some recs →
      ∀ r ∈ recs, r.positioning_type = 0) :
    ∃ log, drive_gpos E f1 script langsys gidx otf_gstring to_ s
      = some ((to_ : Int), { s with log := log }) := by
  unfold drive_gpos
  cases f1 with
  | none => exact ⟨s.log, rfl⟩
  | some names =>
    simp only []
    cases hg : E.OTF_drive_gpos otf_gstring script langsys names with
    | none => exact ⟨_, rfl⟩
    | some recs =>
      simp only []
      obtain ⟨p, hp, e1, e2, e3⟩ := gpos_loop_type0 E gidx recs 0
        { glyphs := s.out.glyphs, adjustment := s.adjustment,
          log := s.log ++ [ShapeCall.OTF_drive_gpos otf_gstring script langsys names] }
        (hpos names recs rfl hg)
      rw [hp]
      simp only [] at e1 e2 e3
      simp only [e1, e2, e3]
      exact ⟨_, rfl⟩

/-- C16: if the substitution engine hands every glyph back unchanged (record
`i` has the glyph id of input glyph `i` and `index.from = index.to = i`) and
the positioning engine reports positioning type 0 for every glyph, then for a
valid input range and an output with room for it `ftfont_drive_otf` returns
`to`, the glyphs appended to `out` are the input glyphs `in[from .. to - 1]`
themselves, and `in` and the adjustment array are as before: only the log of
library calls has grown. -/
theorem ftfont_drive_otf_identity (E : Shaper) (font : MFLTFontFT) (spec : MFLTOtfSpec)
    (from_ to_ : Nat) (s : DriveState) (gs : List MFLTGlyph) (f0 f1 : Option (List Char))
    (hle : from_ ≤ to_) (hr : glyph_range s.in_ from_ (to_ - from_) = some gs)
    (h0 : feature_names spec.features0 = some f0)
    (h1 : feature_names spec.features1 = some f1)
    (hcap : s.out.glyphs.length + (to_ - from_) ≤ s.out.allocated)
    (hsub : ∀ names, f0 = some names →
      ∃ recs, E.OTF_drive_gsub (E.OTF_drive_gdef (fill_otf_gstring gs)) (script_name spec)
          (langsys_name spec) names = some recs ∧
        recs.length = gs.length ∧
        ∀ (i : Nat) (r : OTF_Glyph) (g : MFLTGlyph), recs[i]? = some r → gs[i]? = some g →
          r.glyph_id = g.code ∧ r.index_from = (i : Int) ∧ r.index_to = (i : Int))
    (hpos : ∀ names otf_gstring recs, f1 = some names →
      E.OTF_drive_gpos otf_gstring (script_name spec) (langsys_name spec) names = some recs →
      ∀ r ∈ recs, r.positioning_type = 0) :
    ∃ log, ftfont_drive_otf E font spec from_ to_ s
      = some ((to_ : Int),
          { s with out := { s.out with glyphs := s.out.glyphs ++ gs }, log := log }) := by
  have hgl := glyph_range_length _ _ _ _ hr
  by_cases heq : to_ = from_
  · subst heq
    have hnil : gs = [] := List.length_eq_zero.mp (by omega)
    subst hnil
    refine ⟨s.log, ?_⟩
    unfold ftfont_drive_otf
    rw [if_pos rfl]
    simp
  · have hlt : from_ < to_ := by omega
    cases f0 with
    | none =>
      rw [ftfont_drive_otf_copy_path E font spec from_ to_ s gs f1 hlt hr h0 h1,
        if_neg (by omega)]
      obtain ⟨log, hlog⟩ := drive_gpos_type0 E f1 (script_name spec) (langsys_name spec)
        s.out.glyphs.length (E.OTF_drive_gdef (fill_otf_gstring gs)) to_
        { s with out := { s.out with glyphs := s.out.glyphs ++ gs },
                 log := s.log ++ [ShapeCall.OTF_drive_gdef (fill_otf_gstring gs)] }
        (fun names recs hn hg => hpos names _ recs hn hg)
      exact ⟨log, hlog⟩
    | some names =>
      obtain ⟨recs, hrecs, hrlen, hrec⟩ := hsub names rfl
      rw [ftfont_drive_otf_gsub_path E font spec from_ to_ s gs names f1 recs hlt hr h0 h1 hrecs,
        if_neg (by omega)]
      have hloop : gsub_loop s.in_ from_ none recs s.out.glyphs = some (s.out.glyphs ++ gs) := by
        apply gsub_loop_identity s.in_ from_ recs gs 0 none s.out.glyphs hrlen
        · intro i r g hri hgi
          have := hrec i r g hri hgi
          refine ⟨this.1, by simpa using this.2.1, by simpa using this.2.2, ?_⟩
          have hi : i < to_ - from_ := by
            rw [← hgl.1]
            exact (List.getElem?_eq_some_iff.mp hgi).1
          rw [← hgi, glyph_range_get _ _ _ _ hr i hi]
          rfl
        · intro p hp
          exact absurd hp (by simp)
      rw [hloop]
      simp only [Option.some_bind]
      obtain ⟨log, hlog⟩ := drive_gpos_type0 E f1 (script_name spec) (langsys_name spec)
        s.out.glyphs.length recs to_
        { s with out := { s.out with glyphs := s.out.glyphs ++ gs },
                 log := s.log ++ [ShapeCall.OTF_drive_gdef (fill_otf_gstring gs),
                   ShapeCall.OTF_drive_gsub (E.OTF_drive_gdef (fill_otf_gstring gs))
                     (script_name spec) (langsys_name spec) names] }
        (fun names recs hn hg => hpos names _ recs hn hg)
      exact ⟨log, hlog⟩

/-- Witness for C16: `identityShaper` with both a substitution and a
positioning feature, shaping the two glyphs of `fi`. -/
theorem ftfont_drive_otf_identity_witness :
    (glyph_range ligaInput.in_ 0 (2 - 0) = some [fGlyph, iGlyph] ∧
      feature_names ligaKernSpec.features0 = some (some "liga".toList) ∧
      feature_names ligaKernSpec.features1 = some (some "kern".toList) ∧
      ligaInput.out.glyphs.length + (2 - 0) ≤ ligaInput.out.allocated) ∧
    ∃ log, ftfont_drive_otf identityShaper {} ligaKernSpec 0 2 ligaInput
      = some (((2 : Nat) : Int),
          { ligaInput with
            out := { ligaInput.out with glyphs := ligaInput.out.glyphs ++ [fGlyph, iGlyph] },
            log := log }) :=
  ⟨by decide,
   ftfont_drive_otf_identity identityShaper {} ligaKernSpec 0 2 ligaInput [fGlyph, iGlyph]
     (some "liga".toList) (some "kern".toList) (by decide) (by decide) (by decide) (by decide)
     (by decide)
     (fun names _ =>
       ⟨_, rfl, by decide, fun i r g hr hg => by
         match i, hr, hg with
         | 0, hr, hg =>
           simp only [List.getElem?_cons_zero, Option.some.injEq] at hg
           subst hg
           have hr' : r = { c := 102, glyph_id := 73, index_from := 0, index_to := 0 } := by
             have := Option.some.inj hr
             rw [← this]
             decide
           subst hr'
           decide
         | 1, hr, hg =>
           simp only [List.getElem?_cons_succ, List.getElem?_cons_zero,
             Option.some.injEq] at hg
           subst hg
           have hr' : r = { c := 105, glyph_id := 76, index_from := 1, index_to := 1 } := by
             have := Option.some.inj hr
             rw [← this]
             decide
           subst hr'
           decide
         | i + 2, hr, hg => simp at hg⟩)
     (fun names otf_gstring recs _ hg r hr => by
       have hrecs : recs = otf_gstring.map (fun r => { r with positioning_type := 0 }) :=
         (Option.some.inj hg).symm
       subst hrecs
       obtain ⟨a, _, ha⟩ := List.mem_map.mp hr
       rw [← ha])⟩


/-! ## The fallback copy -/

theorem measure_glyph_some (E : Shaper) (font : MFLTFontFT) (g : MFLTGlyph) (log : List ShapeCall)
    (h : g.measured = true ∨ g.code = FONT_INVALID_CODE ∨ (E.FT_Load_Glyph g.code).isSome) :
    ∃ r, measure_glyph E font g log = some r := by
  unfold measure_glyph
  by_cases hm : g.measured = true
  · rw [if_pos hm]; exact ⟨_, rfl⟩
  · rw [if_neg hm]
    by_cases hc : g.code = FONT_INVALID_CODE
    · rw [if_neg (by simp [hc])]; exact ⟨_, rfl⟩
    · rw [if_pos (by simpa using hc)]
      rcases h with h | h | h
      · exact absurd h hm
      · exact absurd h hc
      · obtain ⟨m, hm'⟩ := Option.isSome_iff_exists.mp h
        rw [hm']
        exact ⟨_, rfl⟩

theorem get_metrics_loop_some (E : Shaper) (font : MFLTFontFT) :
    ∀ (n i : Nat) (gs : List MFLTGlyph) (log : List ShapeCall), i + n ≤ gs.length →
    (∀ (j : Nat) (g : MFLTGlyph), i ≤ j → j < i + n → gs[j]? = some g →
      g.measured = true ∨ g.code = FONT_INVALID_CODE ∨ (E.FT_Load_Glyph g.code).isSome) →
    ∃ r, get_metrics_loop E font n i gs log = some r ∧ r.1.length = gs.length := by
  intro n
  induction n with
  | zero => intro i gs log _ _; exact ⟨(gs, log), rfl, rfl⟩
  | succ n ih =>
    intro i gs log hlen hload
    have hi : i < gs.length := by omega
    have hgi : gs[i]? = some gs[i] := List.getElem?_eq_getElem hi
    obtain ⟨r, hr⟩ := measure_glyph_some E font gs[i] log (hload i gs[i] (le_refl _) (by omega) hgi)
    rw [get_metrics_loop, hgi]
    simp only [hr]
    obtain ⟨r', hr', hlen'⟩ := ih (i + 1) (gs.set i r.1) r.2 (by simp; omega) (by
      intro j g hj1 hj2 hg
      rw [List.getElem?_set_ne (by omega)] at hg
      exact hload j g (by omega) (by omega) hg)
    exact ⟨r', hr', by rw [hlen']; simp⟩

/-- C17 (counterexample): the substitution engine reports an error and `out`
has room for the two input glyphs, but the glyphs are not measured yet and
`FT_Load_Glyph` fails: `ftfont_get_metrics`, called on the way to the copy,
stops at `abort ()`, and `ftfont_drive_otf` does not return. -/
theorem ftfont_drive_otf_gsub_error_counterexample :
    failingShaper.OTF_drive_gsub (failingShaper.OTF_drive_gdef
        (fill_otf_gstring unmeasuredInput.in_)) (script_name ligaSpec) (langsys_name ligaSpec)
        "liga".toList = none ∧
    unmeasuredInput.out.glyphs.length + (2 - 0) ≤ unmeasuredInput.out.allocated ∧
    ftfont_drive_otf failingShaper {} ligaSpec 0 2 unmeasuredInput = none := by
  decide

/-- C17 (amended): when the substitution engine reports an error, `out` has
room for the `to - from` input glyphs, and every glyph of the range is already
measured, has the invalid code or can be loaded, `ftfont_drive_otf` fills the
metrics of the input glyphs with `ftfont_get_metrics`, appends the glyphs
`in[from .. to - 1]` as they then are to `out`, returns `to`, and leaves the
adjustment array as it was. -/
theorem ftfont_drive_otf_gsub_error (E : Shaper) (font : MFLTFontFT) (spec : MFLTOtfSpec)
    (from_ to_ : Nat) (s : DriveState) (gs : List MFLTGlyph) (names : List Char)
    (f1 : Option (List Char))
    (hlt : from_ < to_) (hr : glyph_range s.in_ from_ (to_ - from_) = some gs)
    (h0 : feature_names spec.features0 = some (some names))
    (h1 : feature_names spec.features1 = some f1)
    (herr : E.OTF_drive_gsub (E.OTF_drive_gdef (fill_otf_gstring gs)) (script_name spec)
      (langsys_name spec) names = none)
    (hcap : s.out.glyphs.length + (to_ - from_) ≤ s.out.allocated)
    (hload : ∀ g ∈ gs, g.measured = true ∨ g.code = FONT_INVALID_CODE ∨
      (E.FT_Load_Glyph g.code).isSome) :
    ∃ in' log' copy,
      ftfont_get_metrics E font s.in_ from_ to_
          (s.log ++ [ShapeCall.OTF_drive_gdef (fill_otf_gstring gs),
            ShapeCall.OTF_drive_gsub (E.OTF_drive_gdef (fill_otf_gstring gs)) (script_name spec)
              (langsys_name spec) names])
        = some (0, in', log') ∧
      glyph_range in' from_ (to_ - from_) = some copy ∧
      copy.length = to_ - from_ ∧
      ftfont_drive_otf E font spec from_ to_ s
        = some ((to_ : Int),
            { in_ := in', out := { s.out with glyphs := s.out.glyphs ++ copy },
              adjustment := s.adjustment, log := log' }) := by
  have hgl := glyph_range_length _ _ _ _ hr
  obtain ⟨r, hr1, hr2⟩ := get_metrics_loop_some E font (to_ - from_) from_ s.in_
    (s.log ++ [ShapeCall.OTF_drive_gdef (fill_otf_gstring gs),
      ShapeCall.OTF_drive_gsub (E.OTF_drive_gdef (fill_otf_gstring gs)) (script_name spec)
        (langsys_name spec) names]) hgl.2 (by
      intro j g hj1 hj2 hg
      apply hload g
      have hjj : j = from_ + (j - from_) := by omega
      rw [hjj, ← glyph_range_get _ _ _ _ hr (j - from_) (by omega)] at hg
      exact List.getElem?_mem hg)
  have hcopy : glyph_range r.1 from_ (to_ - from_) = some ((r.1.drop from_).take (to_ - from_)) := by
    unfold glyph_range
    rw [if_pos (by rw [hr2]; exact hgl.2)]
  have hmet : ftfont_get_metrics E font s.in_ from_ to_
      (s.log ++ [ShapeCall.OTF_drive_gdef (fill_otf_gstring gs),
        ShapeCall.OTF_drive_gsub (E.OTF_drive_gdef (fill_otf_gstring gs)) (script_name spec)
          (langsys_name spec) names]) = some (0, r.1, r.2) := by
    unfold ftfont_get_metrics
    rw [hr1]
  refine ⟨r.1, r.2, _, hmet, hcopy, (glyph_range_length _ _ _ _ hcopy).1, ?_⟩
  rw [ftfont_drive_otf_error_path E font spec from_ to_ s gs names f1 hlt hr h0 h1 herr]
  unfold simple_copy
  simp only []
  rw [if_neg (by omega), hmet]
  simp only [hcopy]

/-- Witness for C17 (amended): the glyphs are not measured and loading them
succeeds. -/
theorem ftfont_drive_otf_gsub_error_witness :
    (glyph_range unmeasuredInput.in_ 0 (2 - 0) = some unmeasuredInput.in_ ∧
      feature_names ligaSpec.features0 = some (some "liga".toList) ∧
      feature_names ligaSpec.features1 = some none ∧
      unmeasuredInput.out.glyphs.length + (2 - 0) ≤ unmeasuredInput.out.allocated) ∧
    ∃ in' log' copy,
      ftfont_get_metrics noTablesShaper {} unmeasuredInput.in_ 0 2
          (unmeasuredInput.log ++ [ShapeCall.OTF_drive_gdef (fill_otf_gstring unmeasuredInput.in_),
            ShapeCall.OTF_drive_gsub
              (noTablesShaper.OTF_drive_gdef (fill_otf_gstring unmeasuredInput.in_))
              (script_name ligaSpec) (langsys_name ligaSpec) "liga".toList])
        = some (0, in', log') ∧
      glyph_range in' 0 (2 - 0) = some copy ∧
      copy.length = 2 - 0 ∧
      ftfont_drive_otf noTablesShaper {} ligaSpec 0 2 unmeasuredInput
        = some (((2 : Nat) : Int),
            { in_ := in',
              out := { unmeasuredInput.out with glyphs := unmeasuredInput.out.glyphs ++ copy },
              adjustment := unmeasuredInput.adjustment, log := log' }) :=
  ⟨by decide,
   ftfont_drive_otf_gsub_error noTablesShaper {} ligaSpec 0 2 unmeasuredInput
     unmeasuredInput.in_ "liga".toList none (by decide) (by decide) (by decide) (by decide) rfl
     (by decide) (by decide)⟩


/-! ## Lack of room in the output -/

/-- C18: for a valid non-empty input range, whenever `out` lacks room for the
glyphs about to be appended (`out.allocated < out.used + required_count`, the
count being that of the substituted glyphs on the substitution path and that
of the input glyphs on the plain-copy and fallback-copy paths),
`ftfont_drive_otf` returns -2 and leaves `in`, `out` and the adjustment array
as they were: only the log of library calls has grown. -/
theorem ftfont_drive_otf_no_capacity (E : Shaper) (font : MFLTFontFT) (spec : MFLTOtfSpec)
    (from_ to_ : Nat) (s : DriveState) (gs : List MFLTGlyph) (f0 f1 : Option (List Char))
    (hlt : from_ < to_) (hr : glyph_range s.in_ from_ (to_ - from_) = some gs)
    (h0 : feature_names spec.features0 = some f0)
    (h1 : feature_names spec.features1 = some f1)
    (hcap : s.out.allocated < s.out.glyphs.length + required_count E spec gs f0) :
    ∃ log, ftfont_drive_otf E font spec from_ to_ s = some (-2, { s with log := log }) := by
  have hgl := glyph_range_length _ _ _ _ hr
  cases f0 with
  | none =>
    simp only [required_count] at hcap
    rw [ftfont_drive_otf_copy_path E font spec from_ to_ s gs f1 hlt hr h0 h1,
      if_pos (by omega)]
    exact ⟨_, rfl⟩
  | some names =>
    simp only [required_count] at hcap
    cases hsub : E.OTF_drive_gsub (E.OTF_drive_gdef (fill_otf_gstring gs)) (script_name spec)
        (langsys_name spec) names with
    | none =>
      rw [hsub] at hcap
      simp only [] at hcap
      rw [ftfont_drive_otf_error_path E font spec from_ to_ s gs names f1 hlt hr h0 h1 hsub]
      unfold simple_copy
      rw [if_pos (by simp only []; omega)]
      exact ⟨_, rfl⟩
    | some recs =>
      rw [hsub] at hcap
      simp only [] at hcap
      rw [ftfont_drive_otf_gsub_path E font spec from_ to_ s gs names f1 recs hlt hr h0 h1 hsub,
        if_pos hcap]
      exact ⟨_, rfl⟩

/-- Witness for C18: two input glyphs and an output with room for one, on the
substitution path (two substituted glyphs), the plain-copy path (no feature)
and the fallback-copy path (the engine reports an error). -/
theorem ftfont_drive_otf_no_capacity_witness :
    (smallOutput.out.allocated
        < smallOutput.out.glyphs.length
          + required_count manyToManyShaper ligaSpec [fGlyph, iGlyph] (some "liga".toList) ∧
      smallOutput.out.allocated
        < smallOutput.out.glyphs.length + required_count identityShaper {} [fGlyph, iGlyph] none ∧
      smallOutput.out.allocated
        < smallOutput.out.glyphs.length
          + required_count failingShaper ligaSpec [fGlyph, iGlyph] (some "liga".toList)) ∧
    (∃ log, ftfont_drive_otf manyToManyShaper {} ligaSpec 0 2 smallOutput
      = some (-2, { smallOutput with log := log })) ∧
    (∃ log, ftfont_drive_otf identityShaper {} {} 0 2 smallOutput
      = some (-2, { smallOutput with log := log })) ∧
    (∃ log, ftfont_drive_otf failingShaper {} ligaSpec 0 2 smallOutput
      = some (-2, { smallOutput with log := log })) :=
  ⟨by decide,
   ftfont_drive_otf_no_capacity manyToManyShaper {} ligaSpec 0 2 smallOutput [fGlyph, iGlyph]
     (some "liga".toList) none (by decide) (by decide) (by decide) (by decide) (by decide),
   ftfont_drive_otf_no_capacity identityShaper {} {} 0 2 smallOutput [fGlyph, iGlyph]
     none none (by decide) (by decide) (by decide) (by decide) (by decide),
   ftfont_drive_otf_no_capacity failingShaper {} ligaSpec 0 2 smallOutput [fGlyph, iGlyph]
     (some "liga".toList) none (by decide) (by decide) (by decide) (by decide) (by decide)⟩


/-! ## A failed layout run -/

theorem flt_runs_errorShaper (r : Int) (len : Nat) (family : Option String) (combining : Bool) :
    ∀ (n : Nat) (gstring : MFLTGlyphString) (log : List ShapeCall),
    (flt_runs (errorShaper r) len family combining n gstring log).1.glyphs = gstring.glyphs := by
  intro n
  induction n with
  | zero => intro gstring log; rfl
  | succ n ih =>
    intro gstring log
    have hrun : (errorShaper r).mflt_run gstring len family combining = (r, gstring) := rfl
    rw [flt_runs]
    simp only [hrun]
    split
    · rfl
    · rw [ih]

/-- C19 (failing input): the lgstring of `ab` and a layout run that fails,
`mflt_run` returning any value `r` (an error code, or -2 on each of the three
tries) and leaving the glyph string as it got it.  `ftfont_shape_by_flt` looks
at the result only to decide on another try: it goes on to write the glyph
string into the lgstring, clearing the codes and metrics of both glyphs and
giving the second glyph the range of the first, and returns the number 2 as
for a successful run. -/
theorem ftfont_shape_by_flt_run_failure (r : Int) :
    (ftfont_shape_by_flt sampleHost (errorShaper r) abString {}).map (fun x => (x.1, x.2.1))
      = some (int 2, abStringAfterFailure) := by
  have hscan : scan_glyphs sampleHost abString.heap abString.glyphs = some (2, 0) := by decide
  have hrange : lglyph_range abString 2 0 = some abString.heap := by decide
  have hwrite : write_lgstring abString (abString.heap.map (fun g => ({ c := g.char } : MFLTGlyph)))
      = some (int 2, abStringAfterFailure) := by decide
  unfold ftfont_shape_by_flt
  simp only [hscan, ne_eq, not_true_eq_false, if_false, hrange]
  rw [flt_runs_errorShaper]
  simp only [hwrite, Option.map_some']


/-! ## Mark attachment -/

theorem set_range_some :
    ∀ (n j : Nat) (r : Int × Int) (gs : List MFLTGlyph), j + n ≤ gs.length →
    ∃ gs', set_range n j r gs = some gs' ∧ gs'.length = gs.length := by
  intro n
  induction n with
  | zero => intro j r gs _; exact ⟨gs, rfl, rfl⟩
  | succ n ih =>
    intro j r gs h
    have hj : j < gs.length := by omega
    rw [set_range, List.getElem?_eq_getElem hj]
    simp only []
    obtain ⟨gs', h1, h2⟩ := ih (j + 1) r (gs.set j { gs[j] with from_ := r.1, to_ := r.2 })
      (by simp; omega)
    exact ⟨gs', h1, by rw [h2]; simp⟩

theorem mark_adjust_adjustment (E : Shaper) (i g prev : Nat) (otfg : OTF_Glyph) (s s' : PosState)
    (h : mark_adjust E i g prev otfg s = some s') (k : Nat) (hk : k ≠ i) :
    s'.adjustment[k]? = s.adjustment[k]? := by
  unfold mark_adjust at h
  simp only [] at h
  split at h
  · exact absurd h (by simp)
  · split at h
    · split at h
      · exact absurd h (by simp)
      · split at h
        · exact absurd h (by simp)
        · simp only [Option.some.injEq] at h
          rw [← h]
          simp only []
          rw [List.getElem?_set_ne (fun e => hk e.symm)]
    · exact absurd h (by simp)

theorem track_class_adjustment (otfg : OTF_Glyph) (g : Nat) (s : PosState) :
    (track_class otfg g s).adjustment = s.adjustment := by
  unfold track_class
  split
  · rfl
  · split <;> rfl

theorem gpos_switch_adjustment (E : Shaper) (i g : Nat) (otfg : OTF_Glyph) (s s' : PosState)
    (h : gpos_switch E i g otfg s = some s') (k : Nat) (hk : k ≠ i) :
    s'.adjustment[k]? = s.adjustment[k]? := by
  unfold gpos_switch at h
  split at h
  · simp only [Option.some.injEq] at h; rw [h]
  · split at h
    · split at h
      · exact absurd h (by simp)
      · split at h
        · exact absurd h (by simp)
        · simp only [Option.some.injEq] at h
          rw [← h]
          simp only []
          rw [List.getElem?_set_ne (fun e => hk e.symm)]
    · split at h
      · simp only [Option.some.injEq] at h; rw [h]
      · split at h
        · split at h
          · simp only [Option.some.injEq] at h; rw [h]
          · exact mark_adjust_adjustment E i _ _ otfg s s' h k hk
        · split at h
          · simp only [Option.some.injEq] at h; rw [h]
          · exact mark_adjust_adjustment E i _ _ otfg s s' h k hk

theorem gpos_step_adjustment (E : Shaper) (gidx i : Nat) (otfg : OTF_Glyph) (s s' : PosState)
    (h : gpos_step E gidx i otfg s = some s') (k : Nat) (hk : k ≠ i) :
    s'.adjustment[k]? = s.adjustment[k]? := by
  unfold gpos_step at h
  split at h
  · simp only [Option.some.injEq] at h
    rw [h]
  · split at h
    · exact absurd h (by simp)
    · rename_i s1 hs1
      simp only [Option.some.injEq] at h
      rw [← h, track_class_adjustment]
      exact gpos_switch_adjustment E i _ otfg s s1 hs1 k hk

theorem gpos_loop_adjustment (E : Shaper) (gidx : Nat) :
    ∀ (recs : List OTF_Glyph) (i : Nat) (s s' : PosState),
    gpos_loop E gidx i recs s = some s' → ∀ k, k < i → s'.adjustment[k]? = s.adjustment[k]? := by
  intro recs
  induction recs with
  | nil =>
    intro i s s' h k _
    simp only [gpos_loop, Option.some.injEq] at h
    rw [h]
  | cons r rest ih =>
    intro i s s' h k hk
    rw [gpos_loop] at h
    split at h
    · exact absurd h (by simp)
    · rename_i s1 hs1
      rw [ih (i + 1) s1 s' h k (by omega)]
      exact gpos_step_adjustment E gidx i r s s1 hs1 k (by omega)

theorem mark_adjust_fixed (E : Shaper) (i g prev : Nat) (otfg : OTF_Glyph) (s : PosState)
    (a : MFLTGlyphAdjustment) (gl : MFLTGlyph)
    (hb : otfg.base_anchor.AnchorFormat = 1) (hm : otfg.mark_anchor.AnchorFormat = 1)
    (ha : s.adjustment[i]? = some a) (hg : s.glyphs[g]? = some gl) (hprev : prev ≤ g) :
    ∃ s1, mark_adjust E i g prev otfg s = some s1 ∧
      s1.adjustment[i]? = some
        { a with
          xoff := scaled otfg.base_anchor.XCoordinate E.x_scale
            - scaled otfg.mark_anchor.XCoordinate E.x_scale,
          yoff := -(scaled otfg.base_anchor.YCoordinate E.y_scale
            - scaled otfg.mark_anchor.YCoordinate E.y_scale),
          back := int16 ((g : Int) - (prev : Int)),
          xadv := 0, advance_is_absolute := true, set := true } := by
  have hglen : g < s.glyphs.length := (List.getElem?_eq_some_iff.mp hg).1
  have hilen : i < s.adjustment.length := (List.getElem?_eq_some_iff.mp ha).1
  obtain ⟨r, hr, _⟩ := merge_range_spec s.glyphs (g - prev) (prev : Int) (gl.from_, gl.to_)
    (by omega) (by omega)
  obtain ⟨gs', hgs', _⟩ := set_range_some (g + 1 - prev) prev r s.glyphs (by omega)
  have bx := scaled_bounds otfg.base_anchor.XCoordinate E.x_scale
  have mx := scaled_bounds otfg.mark_anchor.XCoordinate E.x_scale
  have by_ := scaled_bounds otfg.base_anchor.YCoordinate E.y_scale
  have my := scaled_bounds otfg.mark_anchor.YCoordinate E.y_scale
  have e1 := int32_of_range (scaled otfg.base_anchor.XCoordinate E.x_scale
    - scaled otfg.mark_anchor.XCoordinate E.x_scale) (by omega) (by omega)
  have e2 := int32_of_range (scaled otfg.base_anchor.YCoordinate E.y_scale
    - scaled otfg.mark_anchor.YCoordinate E.y_scale) (by omega) (by omega)
  have e3 := int32_of_range (-(scaled otfg.base_anchor.YCoordinate E.y_scale
    - scaled otfg.mark_anchor.YCoordinate E.y_scale)) (by omega) (by omega)
  unfold mark_adjust
  simp only [hb, hm, ne_eq, not_true_eq_false, if_false, ha, hg, hr, hgs', e1, e2, e3]
  refine ⟨_, rfl, ?_⟩
  simp only []
  rw [List.getElem?_set_self hilen]

/-- C20: in the positioning loop, for a record with a non-zero glyph id and
positioning type 4 or 5 while there is a current base, or type 6 while there is
a current mark, both anchors being in the fixed-coordinate format 1, the step
for the record sets `adjustment[i]` to `xoff = bx - mx`, `yoff = -(by - my)`,
`xadv = 0`, `advance_is_absolute = 1` and `set = 1`, where `bx`, `by`, `mx`,
`my` are the anchor coordinates scaled as `v * scale / 0x10000` in `int`
arithmetic; the later steps of the loop leave the entry alone. -/
theorem gpos_step_mark_attachment (E : Shaper) (gidx i prev : Nat) (otfg : OTF_Glyph)
    (s : PosState) (a : MFLTGlyphAdjustment) (gl : MFLTGlyph)
    (hid : otfg.glyph_id ≠ 0)
    (htype : ((otfg.positioning_type = 4 ∨ otfg.positioning_type = 5) ∧ s.base = some prev) ∨
      (otfg.positioning_type = 6 ∧ s.mark = some prev))
    (hb : otfg.base_anchor.AnchorFormat = 1) (hm : otfg.mark_anchor.AnchorFormat = 1)
    (ha : s.adjustment[i]? = some a) (hg : s.glyphs[gidx + i]? = some gl)
    (hprev : prev ≤ gidx + i) :
    ∃ s1 a1, gpos_step E gidx i otfg s = some s1 ∧ s1.adjustment[i]? = some a1 ∧
      a1.xoff = scaled otfg.base_anchor.XCoordinate E.x_scale
        - scaled otfg.mark_anchor.XCoordinate E.x_scale ∧
      a1.yoff = -(scaled otfg.base_anchor.YCoordinate E.y_scale
        - scaled otfg.mark_anchor.YCoordinate E.y_scale) ∧
      a1.xadv = 0 ∧ a1.advance_is_absolute = true ∧ a1.set = true ∧
      ∀ rest s', gpos_loop E gidx (i + 1) rest s1 = some s' → s'.adjustment[i]? = some a1 := by
  obtain ⟨s1, hs1, ha1⟩ := mark_adjust_fixed E i (gidx + i) prev otfg s a gl hb hm ha hg hprev
  have hsw : gpos_switch E i (gidx + i) otfg s = some s1 := by
    unfold gpos_switch
    rcases htype with ⟨h45, hbase⟩ | ⟨h6, hmark⟩
    · rw [if_neg (by omega), if_neg (by omega), if_neg (by omega), if_pos h45, hbase]
      exact hs1
    · rw [if_neg (by omega), if_neg (by omega), if_neg (by omega), if_neg (by omega), hmark]
      exact hs1
  have hstep : ∃ s2, gpos_step E gidx i otfg s = some s2 ∧ s2.adjustment = s1.adjustment := by
    unfold gpos_step
    rw [if_neg hid, hsw]
    exact ⟨_, rfl, track_class_adjustment _ _ _⟩
  obtain ⟨s2, hs2, hadj⟩ := hstep
  refine ⟨s2, _, hs2, by rw [hadj]; exact ha1, rfl, rfl, rfl, rfl, rfl, ?_⟩
  intro rest s' hloop
  rw [gpos_loop_adjustment E gidx rest (i + 1) s2 s' hloop i (by omega), hadj]
  exact ha1

/-- Witness for C20: the scenario of the specification.  At scale `0x10000`,
with the base anchor at (500, 700) and the mark anchor at (100, 100), the mark
gets `xoff = 400` and `yoff = -600`; the whole call of `ftfont_drive_otf`
leaves that entry in `adjustment[1]`. -/
theorem gpos_step_mark_attachment_witness :
    (scaled markRecord.base_anchor.XCoordinate markShaper.x_scale
        - scaled markRecord.mark_anchor.XCoordinate markShaper.x_scale = 400 ∧
      -(scaled markRecord.base_anchor.YCoordinate markShaper.y_scale
        - scaled markRecord.mark_anchor.YCoordinate markShaper.y_scale) = -600) ∧
    (ftfont_drive_otf markShaper {} markSpec 0 2 markInput).map (fun r => r.2.adjustment[1]?)
      = some (some { xoff := 400, yoff := -600, xadv := 0, back := 1,
                     advance_is_absolute := true, set := true }) ∧
    ∃ s1 a1, gpos_step markShaper 0 1 markRecord markPosState = some s1 ∧
      s1.adjustment[1]? = some a1 ∧
      a1.xoff = scaled markRecord.base_anchor.XCoordinate markShaper.x_scale
        - scaled markRecord.mark_anchor.XCoordinate markShaper.x_scale ∧
      a1.yoff = -(scaled markRecord.base_anchor.YCoordinate markShaper.y_scale
        - scaled markRecord.mark_anchor.YCoordinate markShaper.y_scale) ∧
      a1.xadv = 0 ∧ a1.advance_is_absolute = true ∧ a1.set = true ∧
      ∀ rest s', gpos_loop markShaper 0 (1 + 1) rest s1 = some s' →
        s'.adjustment[1]? = some a1 :=
  ⟨by decide, by decide,
   gpos_step_mark_attachment markShaper 0 1 0 markRecord markPosState {}
     { c := 0x301, code := 20, from_ := 1, to_ := 1 }
     (by decide) (Or.inl ⟨Or.inl (by decide), by decide⟩) (by decide) (by decide) (by decide)
     (by decide) (by decide)⟩


/-! ## The back-reference of an attached glyph -/

theorem int16_of_range (x : Int) (h1 : -32768 ≤ x) (h2 : x < 32768) : int16 x = x := by
  unfold int16
  split <;> omega

theorem mark_adjust_back (E : Shaper) (i g prev : Nat) (otfg : OTF_Glyph) (s s' : PosState)
    (h : mark_adjust E i g prev otfg s = some s') :
    ∃ a, s'.adjustment[i]? = some a ∧ a.back = int16 ((g : Int) - (prev : Int)) := by
  unfold mark_adjust at h
  simp only [] at h
  split at h
  · exact absurd h (by simp)
  · split at h
    · rename_i m a gl _ ha _
      split at h
      · exact absurd h (by simp)
      · split at h
        · exact absurd h (by simp)
        · simp only [Option.some.injEq] at h
          rw [← h]
          simp only []
          have hilen : i < s.adjustment.length := (List.getElem?_eq_some_iff.mp ha).1
          rw [List.getElem?_set_self hilen]
          exact ⟨_, rfl, rfl⟩
    · exact absurd h (by simp)

/-- C21 (counterexample): in the scenario of the specification (a
mark attached to the base glyph immediately before it in the output) the
adjustment recorded by `ftfont_drive_otf` has `back = 1`, not -1. -/
theorem ftfont_drive_otf_back_reference_counterexample :
    (ftfont_drive_otf markShaper {} markSpec 0 2 markInput).map
        (fun r => (r.1, r.2.adjustment.map (fun a => a.back))) = some (2, [0, 1, 0, 0]) ∧
    (1 : Int) ≠ -1 := by
  decide

/-- C21 (amended): in the positioning loop, for a record with a non-zero glyph
id that is attached to the glyph `out->glyphs[prev]` (positioning type 4 or 5
and `prev` the current base, or type 6 and `prev` the current mark), `prev`
being at most 32767 positions before the glyph `g = gidx + i` of the record,
every completed step leaves `adjustment[i].back = g - prev`: the number of
glyph positions from the attachment target forward to the glyph, a count that
is never negative and is `+1` for a target immediately before the glyph.  The
later steps of the loop leave the entry alone, and the step does complete
when both anchors are in the fixed-coordinate format 1. -/
theorem gpos_step_back_reference (E : Shaper) (gidx i prev : Nat) (otfg : OTF_Glyph)
    (s : PosState) (a : MFLTGlyphAdjustment) (gl : MFLTGlyph)
    (hid : otfg.glyph_id ≠ 0)
    (htype : ((otfg.positioning_type = 4 ∨ otfg.positioning_type = 5) ∧ s.base = some prev) ∨
      (otfg.positioning_type = 6 ∧ s.mark = some prev))
    (ha : s.adjustment[i]? = some a) (hg : s.glyphs[gidx + i]? = some gl)
    (hprev : prev ≤ gidx + i) (hshort : gidx + i - prev < 32768) :
    (∀ s1, gpos_step E gidx i otfg s = some s1 →
      ∃ a1, s1.adjustment[i]? = some a1 ∧
        a1.back = ((gidx + i : Nat) : Int) - (prev : Int) ∧ 0 ≤ a1.back ∧
        (prev + 1 = gidx + i → a1.back = 1) ∧
        ∀ rest s', gpos_loop E gidx (i + 1) rest s1 = some s' →
          s'.adjustment[i]? = some a1) ∧
    (otfg.base_anchor.AnchorFormat = 1 → otfg.mark_anchor.AnchorFormat = 1 →
      ∃ s1, gpos_step E gidx i otfg s = some s1) := by
  have hsw : gpos_switch E i (gidx + i) otfg s = mark_adjust E i (gidx + i) prev otfg s := by
    unfold gpos_switch
    rcases htype with ⟨h45, hbase⟩ | ⟨h6, hmark⟩
    · rw [if_neg (by omega), if_neg (by omega), if_neg (by omega), if_pos h45, hbase]
    · rw [if_neg (by omega), if_neg (by omega), if_neg (by omega), if_neg (by omega), hmark]
  constructor
  · intro s1 hs1
    unfold gpos_step at hs1
    rw [if_neg hid, hsw] at hs1
    split at hs1
    · exact absurd hs1 (by simp)
    · rename_i s0 hs0
      simp only [Option.some.injEq] at hs1
      obtain ⟨a1, ha1, hback⟩ := mark_adjust_back E i (gidx + i) prev otfg s s0 hs0
      have hadj : s1.adjustment = s0.adjustment := by
        rw [← hs1]; exact track_class_adjustment _ _ _
      have hval : a1.back = ((gidx + i : Nat) : Int) - (prev : Int) := by
        rw [hback]
        exact int16_of_range _ (by omega) (by omega)
      refine ⟨a1, by rw [hadj]; exact ha1, hval, by omega, by intro h; omega, ?_⟩
      intro rest s' hloop
      rw [gpos_loop_adjustment E gidx rest (i + 1) s1 s' hloop i (by omega), hadj]
      exact ha1
  · intro hb hm
    obtain ⟨s1, hs1, _⟩ := mark_adjust_fixed E i (gidx + i) prev otfg s a gl hb hm ha hg hprev
    unfold gpos_step
    rw [if_neg hid, hsw, hs1]
    exact ⟨_, rfl⟩

/-- Witness for C21: the mark of the scenario of the specification, attached
to the base glyph at position 0 from position 1. -/
theorem gpos_step_back_reference_witness :
    (∀ s1, gpos_step markShaper 0 1 markRecord markPosState = some s1 →
      ∃ a1, s1.adjustment[1]? = some a1 ∧
        a1.back = ((0 + 1 : Nat) : Int) - ((0 : Nat) : Int) ∧ 0 ≤ a1.back ∧
        (0 + 1 = 0 + 1 → a1.back = 1) ∧
        ∀ rest s', gpos_loop markShaper 0 (1 + 1) rest s1 = some s' →
          s'.adjustment[1]? = some a1) ∧
    (markRecord.base_anchor.AnchorFormat = 1 → markRecord.mark_anchor.AnchorFormat = 1 →
      ∃ s1, gpos_step markShaper 0 1 markRecord markPosState = some s1) :=
  gpos_step_back_reference markShaper 0 1 0 markRecord markPosState {}
    { c := 0x301, code := 20, from_ := 1, to_ := 1 }
    (by decide) (Or.inl ⟨Or.inl (by decide), by decide⟩) (by decide) (by decide) (by decide)
    (by decide)

/-! ## Entities of a face already met -/

/-- C22: for every pattern `p` that names a file and an index, and every
`extra`, if the face cache holds an entity for the key `(file . index)`, then
`ftfont_pattern_entity (p, extra)` returns an entity whose property slots
`FONT_TYPE_INDEX` .. `FONT_EXTRA_INDEX` are those of the cached entity,
whatever the other objects of `p` and whatever `extra` are.  The state is the
one before the call: the cache entry, and so the cached entity, is not
modified, and no library call is made. -/
theorem ftfont_pattern_entity_cached (H : Host) (P : Provider) (p : FcPattern)
    (extra : Lisp_Object) (st : FtState) (file : String) (index : Int) (c : CacheCons)
    (entity : Font)
    (hfile : p.file = some file) (hindex : p.index = some index)
    (hentry : st.entry (cons (str file) (int index)) = some c)
    (hentity : c.entity = some entity) :
    ftfont_pattern_entity H P p extra st = (some entity, st) ∧
    (ftfont_pattern_entity H P p extra st).2.entry (cons (str file) (int index)) = some c := by
  have h : ftfont_pattern_entity H P p extra st = (some entity, st) := by
    unfold ftfont_pattern_entity
    simp only [hfile, hindex, ftfont_lookup_cache, hentry, Option.getD_some, hentity]
  exact ⟨h, by rw [h]; exact hentry⟩

/-- Witness for C22: the cache holds `sampleEntity` for `a.ttf`, index 0; a
pattern for that file with another family and weight, and a non-empty `extra`,
give `sampleEntity` again. -/
theorem ftfont_pattern_entity_cached_witness :
    ftfont_pattern_entity sampleHost okProvider otherPattern (cons (cons QCdpi (int 96)) nil)
        cachedEntityState = (some sampleEntity, cachedEntityState) ∧
    (ftfont_pattern_entity sampleHost okProvider otherPattern (cons (cons QCdpi (int 96)) nil)
        cachedEntityState).2.entry (cons (str "a.ttf") (int 0))
      = some { entity := some sampleEntity } :=
  ftfont_pattern_entity_cached sampleHost okProvider otherPattern (cons (cons QCdpi (int 96)) nil)
    cachedEntityState "a.ttf" 0 { entity := some sampleEntity } sampleEntity rfl rfl
    (by decide) rfl

/-! ## When the substitution engine is called -/

theorem gsub_calls_append (l m : List ShapeCall) :
    gsub_calls (l ++ m) = gsub_calls l ++ gsub_calls m := by
  simp [gsub_calls]

theorem feature_bytes_dropLast :
    ∀ (tags : List Nat), tags ≠ [] → (feature_bytes tags).dropLast = comma_joined tags := by
  intro tags
  induction tags with
  | nil => intro h; exact absurd rfl h
  | cons t ts ih =>
    intro _
    cases ts with
    | nil =>
      simp only [feature_bytes, comma_joined, element_name, List.append_nil]
      split <;> simp
    | cons u us =>
      have h := ih (by simp)
      have hne : feature_bytes (u :: us) ≠ [] := by
        simp only [feature_bytes]
        split <;> simp
      rw [feature_bytes, List.dropLast_append_of_ne_nil _ hne, h]
      simp only [comma_joined, element_name]
      split <;> simp

theorem feature_names_some (arr : List Nat) (names : List Char)
    (h : feature_names (some arr) = some (some names)) :
    (∃ second, arr[1]? = some second ∧ second ≠ 0xFFFFFFFF) ∧ named_elements arr ≠ [] ∧
      names = c_string (comma_joined (named_elements arr) ++ [0]) := by
  unfold feature_names at h
  simp only [] at h
  split at h
  · exact absurd h (by simp)
  · rename_i second hsecond
    split at h
    · exact absurd h (by simp)
    · rename_i hmark
      split at h
      · exact absurd h (by simp)
      · split at h
        · exact absurd h (by simp)
        · rename_i hempty
          have hne : named_elements arr ≠ [] := by
            intro e
            apply hempty
            unfold named_elements at e
            rw [e]
            rfl
          refine ⟨⟨second, hsecond, by simpa using hmark⟩, hne, ?_⟩
          simp only [Option.some.injEq] at h
          rw [← h, ← feature_bytes_dropLast _ hne]
          rfl

theorem feature_names_none (arr : List Nat) (h : feature_names (some arr) = some none) :
    arr[1]? = some 0xFFFFFFFF := by
  unfold feature_names at h
  simp only [] at h
  split at h
  · exact absurd h (by simp)
  · rename_i second hsecond
    split at h
    · rename_i hmark
      have : second = 0xFFFFFFFF := by simpa using hmark
      rw [hsecond, this]
    · split at h
      · exact absurd h (by simp)
      · split at h
        · exact absurd h (by simp)
        · exact absurd h (by simp)

theorem measure_glyph_gsub_calls (E : Shaper) (font : MFLTFontFT) (g : MFLTGlyph)
    (log : List ShapeCall) (r : MFLTGlyph × List ShapeCall)
    (h : measure_glyph E font g log = some r) : gsub_calls r.2 = gsub_calls log := by
  unfold measure_glyph at h
  split at h
  · simp only [Option.some.injEq] at h; rw [← h]
  · split at h
    · split at h
      · exact absurd h (by simp)
      · simp only [Option.some.injEq] at h
        rw [← h]
        simp [gsub_calls, ShapeCall.is_gsub]
    · simp only [Option.some.injEq] at h; rw [← h]

theorem get_metrics_loop_gsub_calls (E : Shaper) (font : MFLTFontFT) :
    ∀ (n i : Nat) (gs : List MFLTGlyph) (log : List ShapeCall)
      (r : List MFLTGlyph × List ShapeCall),
    get_metrics_loop E font n i gs log = some r → gsub_calls r.2 = gsub_calls log := by
  intro n
  induction n with
  | zero =>
    intro i gs log r h
    simp only [get_metrics_loop, Option.some.injEq] at h
    rw [← h]
  | succ n ih =>
    intro i gs log r h
    rw [get_metrics_loop] at h
    split at h
    · exact absurd h (by simp)
    · split at h
      · exact absurd h (by simp)
      · rename_i r1 hr1
        rw [ih _ _ _ _ h]
        exact measure_glyph_gsub_calls E font _ log r1 hr1

theorem simple_copy_gsub_calls (E : Shaper) (font : MFLTFontFT) (from_ to_ : Nat)
    (s : DriveState) (r : Int × DriveState) (h : simple_copy E font from_ to_ s = some r) :
    gsub_calls r.2.log = gsub_calls s.log := by
  unfold simple_copy at h
  split at h
  · simp only [Option.some.injEq] at h; rw [← h]
  · unfold ftfont_get_metrics at h
    split at h
    · exact absurd h (by simp)
    · rename_i r1 hr1
      split at hr1
      · exact absurd hr1 (by simp)
      · rename_i r2 hr2
        simp only [Option.some.injEq] at hr1
        split at h
        · exact absurd h (by simp)
        · simp only [Option.some.injEq] at h
          rw [← h, ← hr1]
          exact get_metrics_loop_gsub_calls E font _ _ _ _ r2 hr2

theorem adjust_anchor_gsub_calls (E : Shaper) (anchor : OTF_Anchor) (code : Nat) (xy : Int × Int)
    (log : List ShapeCall) (r : (Int × Int) × List ShapeCall)
    (h : adjust_anchor E anchor code xy log = some r) : gsub_calls r.2 = gsub_calls log := by
  unfold adjust_anchor at h
  split at h
  · split at h
    · simp only [Option.some.injEq] at h
      rw [← h]
      simp [gsub_calls, ShapeCall.is_gsub]
    · simp only [Option.some.injEq] at h
      rw [← h]
      simp [gsub_calls, ShapeCall.is_gsub]
  · split at h
    · simp only [] at h
      split at h
      · simp only [Option.some.injEq] at h; rw [← h]
      · exact absurd h (by simp)
    · simp only [Option.some.injEq] at h; rw [← h]

theorem mark_adjust_gsub_calls (E : Shaper) (i g prev : Nat) (otfg : OTF_Glyph) (s s' : PosState)
    (h : mark_adjust E i g prev otfg s = some s') : gsub_calls s'.log = gsub_calls s.log := by
  unfold mark_adjust at h
  simp only [] at h
  split at h
  · exact absurd h (by simp)
  · rename_i b hb
    have hb2 : gsub_calls b.2 = gsub_calls s.log := by
      split at hb
      · split at hb
        · exact absurd hb (by simp)
        · exact adjust_anchor_gsub_calls E _ _ _ _ b hb
      · simp only [Option.some.injEq] at hb; rw [← hb]
    split at h
    · rename_i m a gl hm _ _
      have hm2 : gsub_calls m.2 = gsub_calls b.2 := by
        split at hm
        · split at hm
          · exact absurd hm (by simp)
          · exact adjust_anchor_gsub_calls E _ _ _ _ m hm
        · simp only [Option.some.injEq] at hm; rw [← hm]
      split at h
      · exact absurd h (by simp)
      · split at h
        · exact absurd h (by simp)
        · simp only [Option.some.injEq] at h
          rw [← h]
          simp only []
          rw [hm2, hb2]
    · exact absurd h (by simp)

theorem gpos_step_gsub_calls (E : Shaper) (gidx i : Nat) (otfg : OTF_Glyph) (s s' : PosState)
    (h : gpos_step E gidx i otfg s = some s') : gsub_calls s'.log = gsub_calls s.log := by
  unfold gpos_step at h
  split at h
  · simp only [Option.some.injEq] at h; rw [h]
  · split at h
    · exact absurd h (by simp)
    · rename_i s1 hs1
      simp only [Option.some.injEq] at h
      have ht : s'.log = s1.log := by
        rw [← h]
        unfold track_class
        split
        · rfl
        · split <;> rfl
      rw [ht]
      unfold gpos_switch at hs1
      split at hs1
      · simp only [Option.some.injEq] at hs1; rw [hs1]
      · split at hs1
        · split at hs1
          · exact absurd hs1 (by simp)
          · split at hs1
            · exact absurd hs1 (by simp)
            · simp only [Option.some.injEq] at hs1
              rw [← hs1]
        · split at hs1
          · simp only [Option.some.injEq] at hs1; rw [hs1]
          · split at hs1
            · split at hs1
              · simp only [Option.some.injEq] at hs1; rw [hs1]
              · exact mark_adjust_gsub_calls E i _ _ otfg s s1 hs1
            · split at hs1
              · simp only [Option.some.injEq] at hs1; rw [hs1]
              · exact mark_adjust_gsub_calls E i _ _ otfg s s1 hs1

theorem gpos_loop_gsub_calls (E : Shaper) (gidx : Nat) :
    ∀ (recs : List OTF_Glyph) (i : Nat) (s s' : PosState),
    gpos_loop E gidx i recs s = some s' → gsub_calls s'.log = gsub_calls s.log := by
  intro recs
  induction recs with
  | nil =>
    intro i s s' h
    simp only [gpos_loop, Option.some.injEq] at h
    rw [h]
  | cons r rest ih =>
    intro i s s' h
    rw [gpos_loop] at h
    split at h
    · exact absurd h (by simp)
    · rename_i s1 hs1
      rw [ih (i + 1) s1 s' h]
      exact gpos_step_gsub_calls E gidx i r s s1 hs1

theorem drive_gpos_gsub_calls (E : Shaper) (f1 : Option (List Char)) (script : List Char)
    (langsys : Option (List Char)) (gidx : Nat) (recs : List OTF_Glyph) (to_ : Nat)
    (s : DriveState) (r : Int × DriveState)
    (h : drive_gpos E f1 script langsys gidx recs to_ s = some r) :
    gsub_calls r.2.log = gsub_calls s.log := by
  unfold drive_gpos at h
  split at h
  · simp only [Option.some.injEq] at h; rw [← h]
  · simp only [] at h
    split at h
    · simp only [Option.some.injEq] at h
      rw [← h]
      simp [gsub_calls, ShapeCall.is_gsub]
    · split at h
      · exact absurd h (by simp)
      · rename_i p hp
        simp only [Option.some.injEq] at h
        rw [← h]
        simp only []
        rw [gpos_loop_gsub_calls E gidx _ 0 _ p hp]
        simp [gsub_calls, ShapeCall.is_gsub]

theorem ftfont_drive_otf_gsub_calls (E : Shaper) (font : MFLTFontFT) (spec : MFLTOtfSpec)
    (from_ to_ : Nat) (s s' : DriveState) (v : Int) (hlt : from_ < to_)
    (h : ftfont_drive_otf E font spec from_ to_ s = some (v, s')) :
    ∃ gs x0, glyph_range s.in_ from_ (to_ - from_) = some gs ∧
      feature_names spec.features0 = some x0 ∧
      gsub_calls s'.log = gsub_calls s.log ++ x0.toList.map (fun names =>
        ShapeCall.OTF_drive_gsub (E.OTF_drive_gdef (fill_otf_gstring gs)) (script_name spec)
          (langsys_name spec) names) := by
  cases hf0 : feature_names spec.features0 with
  | none =>
    unfold ftfont_drive_otf at h
    rw [if_neg (by omega), if_neg (by omega)] at h
    simp only [hf0] at h
    exact absurd h (by simp)
  | some x0 =>
    cases hf1 : feature_names spec.features1 with
    | none =>
      unfold ftfont_drive_otf at h
      rw [if_neg (by omega), if_neg (by omega)] at h
      simp only [hf0, hf1] at h
      exact absurd h (by simp)
    | some x1 =>
      cases hr : glyph_range s.in_ from_ (to_ - from_) with
      | none =>
        unfold ftfont_drive_otf at h
        rw [if_neg (by omega), if_neg (by omega)] at h
        simp only [hf0, hf1, hr] at h
        exact absurd h (by simp)
      | some gs =>
        refine ⟨gs, x0, rfl, rfl, ?_⟩
        cases x0 with
        | none =>
          rw [ftfont_drive_otf_copy_path E font spec from_ to_ s gs x1 hlt hr hf0 hf1] at h
          split at h
          · simp only [Option.some.injEq, Prod.mk.injEq] at h
            rw [← h.2]
            simp [gsub_calls, ShapeCall.is_gsub]
          · have := drive_gpos_gsub_calls E _ _ _ _ _ _ _ _ h
            simp only [] at this
            rw [this]
            simp [gsub_calls, ShapeCall.is_gsub]
        | some names =>
          cases hsub : E.OTF_drive_gsub (E.OTF_drive_gdef (fill_otf_gstring gs)) (script_name spec)
              (langsys_name spec) names with
          | none =>
            rw [ftfont_drive_otf_error_path E font spec from_ to_ s gs names x1 hlt hr hf0 hf1
              hsub] at h
            have := simple_copy_gsub_calls E font from_ to_ _ _ h
            simp only [] at this
            rw [this]
            simp [gsub_calls, ShapeCall.is_gsub]
          | some recs =>
            rw [ftfont_drive_otf_gsub_path E font spec from_ to_ s gs names x1 recs hlt hr hf0 hf1
              hsub] at h
            split at h
            · simp only [Option.some.injEq, Prod.mk.injEq] at h
              rw [← h.2]
              simp [gsub_calls, ShapeCall.is_gsub]
            · cases hloop : gsub_loop s.in_ from_ none recs s.out.glyphs with
              | none =>
                rw [hloop] at h
                exact absurd h (by simp)
              | some glyphs =>
                rw [hloop] at h
                simp only [Option.some_bind] at h
                have := drive_gpos_gsub_calls E _ _ _ _ _ _ _ _ h
                simp only [] at this
                rw [this]
                simp [gsub_calls, ShapeCall.is_gsub]

/-- C23 (counterexample): with the substitution feature list
`[liga, 0xFFFFFFFF]` the call returns `to` without having called
`OTF_drive_gsub`, although the list names a tag; and for the empty list `[0]`,
or `[0, 0]` in a longer array, the code reads `features[0][1]` behind the
terminator or writes the final NUL one byte before the feature-name buffer. -/
theorem ftfont_drive_otf_gsub_invocation_counterexample :
    (ftfont_drive_otf ligaShaper {}
        { script := 0x6C61746E, features0 := some [0x6C696761, 0xFFFFFFFF, 0] } 0 2 ligaInput).map
      (fun r => (r.1, gsub_calls r.2.log, r.2.out.glyphs)) = some (2, [], [fGlyph, iGlyph]) ∧
    feature_names (some [0x6C696761, 0xFFFFFFFF, 0]) = some none ∧
    feature_names (some [0]) = none ∧ feature_names (some [0, 0]) = none ∧
    ftfont_drive_otf ligaShaper {} { script := 0x6C61746E, features0 := some [0, 0] } 0 2
      ligaInput = none := by
  decide

/-- C23 (amended): a call of `ftfont_drive_otf` that returns has called
`OTF_drive_gsub` exactly when the range is not empty, the substitution feature
list is not null and its second element is not the marker `0xFFFFFFFF`.  For a
null list, for a list whose second element is the marker (such as
`[liga, 0xFFFFFFFF]`) and for an empty range the log gains no call of
`OTF_drive_gsub`.  Otherwise the list names at least one element before its
terminator and the log gains exactly one call, made on the glyph string that
`OTF_drive_gdef` has left for the input glyphs, with the script and language
system names and the feature string that joins the names of the elements by
commas (`*` for the marker, no comma at the end; as a C string it stops at
a zero byte in a tag). -/
theorem ftfont_drive_otf_gsub_invocation (E : Shaper) (font : MFLTFontFT) (spec : MFLTOtfSpec)
    (from_ to_ : Nat) (s s' : DriveState) (v : Int)
    (h : ftfont_drive_otf E font spec from_ to_ s = some (v, s')) :
    ((to_ = from_ ∨ spec.features0 = none ∨
        ∃ arr, spec.features0 = some arr ∧ arr[1]? = some 0xFFFFFFFF) →
      gsub_calls s'.log = gsub_calls s.log) ∧
    (∀ arr, from_ < to_ → spec.features0 = some arr → arr[1]? ≠ some 0xFFFFFFFF →
      named_elements arr ≠ [] ∧
      ∃ gs, glyph_range s.in_ from_ (to_ - from_) = some gs ∧
        gsub_calls s'.log = gsub_calls s.log ++
          [ShapeCall.OTF_drive_gsub (E.OTF_drive_gdef (fill_otf_gstring gs)) (script_name spec)
            (langsys_name spec) (c_string (comma_joined (named_elements arr) ++ [0]))]) := by
  constructor
  · intro hcase
    by_cases heq : to_ = from_
    · unfold ftfont_drive_otf at h
      rw [if_pos heq] at h
      simp only [Option.some.injEq, Prod.mk.injEq] at h
      rw [← h.2]
    · have hlt : from_ < to_ := by
        rcases Nat.lt_or_ge from_ to_ with h1 | h1
        · exact h1
        · exfalso
          unfold ftfont_drive_otf at h
          rw [if_neg heq, if_pos (by omega)] at h
          exact absurd h (by simp)
      obtain ⟨gs, x0, _, hf0, hlog⟩ := ftfont_drive_otf_gsub_calls E font spec from_ to_ s s' v hlt h
      have hx0 : x0 = none := by
        rcases hcase with h1 | h1 | ⟨arr, h1, h2⟩
        · exact absurd h1 heq
        · rw [h1] at hf0
          simp only [feature_names, Option.some.injEq] at hf0
          exact hf0.symm
        · rw [h1] at hf0
          unfold feature_names at hf0
          simp only [h2, beq_self_eq_true, if_true, Option.some.injEq] at hf0
          exact hf0.symm
      rw [hlog, hx0]
      simp
  · intro arr hlt harr hsecond
    obtain ⟨gs, x0, hr, hf0, hlog⟩ := ftfont_drive_otf_gsub_calls E font spec from_ to_ s s' v hlt h
    rw [harr] at hf0
    cases x0 with
    | none => exact absurd (feature_names_none arr hf0) hsecond
    | some names =>
      obtain ⟨_, hne, hnames⟩ := feature_names_some arr names hf0
      refine ⟨hne, gs, hr, ?_⟩
      rw [hlog, hnames]
      rfl

/-- Witness for C23: the list `[liga]` on the text `fi`.  The call returns,
the engine is called once, with the feature string `liga`; and the list
`[liga, kern, 0xFFFFFFFF, clig]` gives the feature string `liga,kern,*,clig`. -/
theorem ftfont_drive_otf_gsub_invocation_witness :
    ftfont_drive_otf ligaShaper {} ligaSpec 0 2 ligaInput = some (2, ligaResult) ∧
    (named_elements [0x6C696761, 0] ≠ [] ∧
      ∃ gs, glyph_range ligaInput.in_ 0 (2 - 0) = some gs ∧
        gsub_calls ligaResult.log = gsub_calls ligaInput.log ++
          [ShapeCall.OTF_drive_gsub (ligaShaper.OTF_drive_gdef (fill_otf_gstring gs))
            (script_name ligaSpec) (langsys_name ligaSpec)
            (c_string (comma_joined (named_elements [0x6C696761, 0]) ++ [0]))]) ∧
    c_string (comma_joined (named_elements [0x6C696761, 0]) ++ [0]) = "liga".toList ∧
    c_string (comma_joined (named_elements [0x6C696761, 0x6B65726E, 0xFFFFFFFF, 0x636C6967, 0])
      ++ [0]) = "liga,kern,*,clig".toList :=
  ⟨by decide,
   (ftfont_drive_otf_gsub_invocation ligaShaper {} ligaSpec 0 2 ligaInput ligaResult 2
     (by decide)).2 [0x6C696761, 0] (by decide) rfl (by decide),
   by decide, by decide⟩

/-! ## The current base and the current mark -/

theorem mark_adjust_base_mark (E : Shaper) (i g prev : Nat) (otfg : OTF_Glyph) (s s' : PosState)
    (h : mark_adjust E i g prev otfg s = some s') : s'.base = s.base ∧ s'.mark = s.mark := by
  unfold mark_adjust at h
  simp only [] at h
  split at h
  · exact absurd h (by simp)
  · split at h
    · split at h
      · exact absurd h (by simp)
      · split at h
        · exact absurd h (by simp)
        · simp only [Option.some.injEq] at h
          rw [← h]
          exact ⟨rfl, rfl⟩
    · exact absurd h (by simp)

theorem gpos_switch_base_mark (E : Shaper) (i g : Nat) (otfg : OTF_Glyph) (s s' : PosState)
    (h : gpos_switch E i g otfg s = some s') : s'.base = s.base ∧ s'.mark = s.mark := by
  unfold gpos_switch at h
  split at h
  · simp only [Option.some.injEq] at h; rw [h]; exact ⟨rfl, rfl⟩
  · split at h
    · split at h
      · exact absurd h (by simp)
      · split at h
        · exact absurd h (by simp)
        · simp only [Option.some.injEq] at h
          rw [← h]
          exact ⟨rfl, rfl⟩
    · split at h
      · simp only [Option.some.injEq] at h; rw [h]; exact ⟨rfl, rfl⟩
      · split at h
        · split at h
          · simp only [Option.some.injEq] at h; rw [h]; exact ⟨rfl, rfl⟩
          · exact mark_adjust_base_mark E i _ _ otfg s s' h
        · split at h
          · simp only [Option.some.injEq] at h; rw [h]; exact ⟨rfl, rfl⟩
          · exact mark_adjust_base_mark E i _ _ otfg s s' h

/-- C24: in the positioning loop, every completed step for a record with a
non-zero glyph id, whose glyph is `out->glyphs[gidx + i]`, ends as follows.
If the glyph class of the record is class 0, the current base and the current
mark are both that glyph; if it is the mark class, the current mark is that
glyph and the current base is the one before the step; for any other class
the current base is that glyph and the current mark is the one before.  And a
mark-to-base or mark-to-ligature record (positioning type 4 or 5) met while
there is no current base completes its step without touching an adjustment or
a glyph: the step only tracks the class. -/
theorem gpos_step_tracks_class (E : Shaper) (gidx i : Nat) (otfg : OTF_Glyph) (s : PosState)
    (hid : otfg.glyph_id ≠ 0) :
    (∀ s1, gpos_step E gidx i otfg s = some s1 →
      (otfg.GlyphClass = OTF_GlyphClass0 →
        s1.base = some (gidx + i) ∧ s1.mark = some (gidx + i)) ∧
      (otfg.GlyphClass = OTF_GlyphClassMark →
        s1.mark = some (gidx + i) ∧ s1.base = s.base) ∧
      (otfg.GlyphClass ≠ OTF_GlyphClass0 → otfg.GlyphClass ≠ OTF_GlyphClassMark →
        s1.base = some (gidx + i) ∧ s1.mark = s.mark)) ∧
    ((otfg.positioning_type = 4 ∨ otfg.positioning_type = 5) → s.base = none →
      ∃ s1, gpos_step E gidx i otfg s = some s1 ∧ s1.adjustment = s.adjustment ∧
        s1.glyphs = s.glyphs ∧ s1.log = s.log) := by
  constructor
  · intro s1 hs1
    unfold gpos_step at hs1
    rw [if_neg hid] at hs1
    split at hs1
    · exact absurd hs1 (by simp)
    · rename_i s0 hs0
      simp only [Option.some.injEq] at hs1
      obtain ⟨hb, hm⟩ := gpos_switch_base_mark E i (gidx + i) otfg s s0 hs0
      rw [← hs1, ← hb, ← hm]
      unfold track_class
      refine ⟨?_, ?_, ?_⟩
      · intro h0
        rw [if_pos h0]
        exact ⟨rfl, rfl⟩
      · intro h3
        have h0 : otfg.GlyphClass ≠ OTF_GlyphClass0 := by
          rw [h3]; decide
        rw [if_neg h0, if_pos h3]
        exact ⟨rfl, rfl⟩
      · intro h0 h3
        rw [if_neg h0, if_neg h3]
        exact ⟨rfl, rfl⟩
  · intro h45 hbase
    have hsw : gpos_switch E i (gidx + i) otfg s = some s := by
      unfold gpos_switch
      rw [if_neg (by omega), if_neg (by omega), if_neg (by omega), if_pos h45, hbase]
    unfold gpos_step
    rw [if_neg hid, hsw]
    refine ⟨_, rfl, ?_⟩
    unfold track_class
    split
    · exact ⟨rfl, rfl, rfl⟩
    · split <;> exact ⟨rfl, rfl, rfl⟩

/-- Witness for C24: a mark-to-base record of the mark class as the first
record of the loop.  There is no base yet, so the step sets no adjustment and
makes the glyph the current mark only; and the whole call of
`ftfont_drive_otf` with such a record first leaves `adjustment` as it was. -/
theorem gpos_step_tracks_class_witness :
    ((∀ s1, gpos_step markFirstShaper 0 0 markRecord markStartState = some s1 →
      (markRecord.GlyphClass = OTF_GlyphClass0 →
        s1.base = some (0 + 0) ∧ s1.mark = some (0 + 0)) ∧
      (markRecord.GlyphClass = OTF_GlyphClassMark →
        s1.mark = some (0 + 0) ∧ s1.base = markStartState.base) ∧
      (markRecord.GlyphClass ≠ OTF_GlyphClass0 → markRecord.GlyphClass ≠ OTF_GlyphClassMark →
        s1.base = some (0 + 0) ∧ s1.mark = markStartState.mark)) ∧
    ((markRecord.positioning_type = 4 ∨ markRecord.positioning_type = 5) →
      markStartState.base = none →
      ∃ s1, gpos_step markFirstShaper 0 0 markRecord markStartState = some s1 ∧
        s1.adjustment = markStartState.adjustment ∧
        s1.glyphs = markStartState.glyphs ∧ s1.log = markStartState.log)) ∧
    gpos_step markFirstShaper 0 0 markRecord markStartState
      = some { markStartState with mark := some 0 } ∧
    (ftfont_drive_otf markFirstShaper {} markSpec 0 2 markInput).map
      (fun r => (r.1, r.2.adjustment, r.2.out.glyphs))
      = some (2, markInput.adjustment, markInput.in_) :=
  ⟨gpos_step_tracks_class markFirstShaper 0 0 markRecord markStartState (by decide),
   by decide, by decide⟩

/-! ## Single and pair adjustments -/

theorem measure_glyph_cases (E : Shaper) (font : MFLTFontFT) (g : MFLTGlyph)
    (log : List ShapeCall) (r : MFLTGlyph × List ShapeCall)
    (h : measure_glyph E font g log = some r) :
    r.1.measured = true ∧ (g.measured = true → r = (g, log)) ∧
    (g.measured = false → g.code = FONT_INVALID_CODE →
      r = ({ g with lbearing := 0, rbearing := int32 (font.space_width * 64),
                    xadv := int32 (font.space_width * 64),
                    ascent := int32 (font.ascent * 64),
                    descent := int32 (font.descent * 64),
                    yadv := 0, measured := true }, log)) := by
  unfold measure_glyph at h
  by_cases hm : g.measured = true
  · rw [if_pos hm] at h
    simp only [Option.some.injEq] at h
    rw [← h]
    exact ⟨hm, fun _ => rfl, fun hf => by rw [hm] at hf; exact absurd hf (by simp)⟩
  · rw [if_neg hm] at h
    by_cases hc : g.code = FONT_INVALID_CODE
    · rw [if_neg (by simp [hc])] at h
      simp only [Option.some.injEq] at h
      rw [← h]
      exact ⟨rfl, fun ht => absurd ht hm, fun _ _ => rfl⟩
    · rw [if_pos (by simpa using hc)] at h
      split at h
      · exact absurd h (by simp)
      · simp only [Option.some.injEq] at h
        rw [← h]
        exact ⟨rfl, fun ht => absurd ht hm, fun _ hi => absurd hi hc⟩

theorem get_metrics_loop_spec (E : Shaper) (font : MFLTFontFT) :
    ∀ (n i : Nat) (gs : List MFLTGlyph) (log : List ShapeCall), i + n ≤ gs.length →
    (∀ (j : Nat) (g : MFLTGlyph), i ≤ j → j < i + n → gs[j]? = some g →
      g.measured = true ∨ g.code = FONT_INVALID_CODE ∨ (E.FT_Load_Glyph g.code).isSome) →
    ∃ gs' log', get_metrics_loop E font n i gs log = some (gs', log') ∧
      gs'.length = gs.length ∧
      (∀ k, k < i ∨ i + n ≤ k → gs'[k]? = gs[k]?) ∧
      (∀ k g, i ≤ k → k < i + n → gs[k]? = some g →
        (∃ g', gs'[k]? = some g' ∧ g'.measured = true) ∧
        (g.measured = true → gs'[k]? = some g) ∧
        (g.measured = false → g.code = FONT_INVALID_CODE →
          gs'[k]? = some
            { g with lbearing := 0, rbearing := int32 (font.space_width * 64),
                     xadv := int32 (font.space_width * 64),
                     ascent := int32 (font.ascent * 64),
                     descent := int32 (font.descent * 64),
                     yadv := 0, measured := true })) := by
  intro n
  induction n with
  | zero =>
    intro i gs log _ _
    exact ⟨gs, log, rfl, rfl, fun _ _ => rfl, fun k g h1 h2 => by omega⟩
  | succ n ih =>
    intro i gs log hlen hload
    have hi : i < gs.length := by omega
    have hgi : gs[i]? = some gs[i] := List.getElem?_eq_getElem hi
    obtain ⟨r, hr⟩ := measure_glyph_some E font gs[i] log (hload i gs[i] (le_refl _) (by omega) hgi)
    obtain ⟨hmeas, hsame, hinv⟩ := measure_glyph_cases E font gs[i] log r hr
    rw [get_metrics_loop, hgi]
    simp only [hr]
    obtain ⟨gs', log', hloop, hlen', hout, hin⟩ :=
      ih (i + 1) (gs.set i r.1) r.2 (by simp; omega) (by
        intro j g hj1 hj2 hg
        rw [List.getElem?_set_ne (by omega)] at hg
        exact hload j g (by omega) (by omega) hg)
    refine ⟨gs', log', hloop, by rw [hlen']; simp, ?_, ?_⟩
    · intro k hk
      rw [hout k (by omega), List.getElem?_set_ne (by omega)]
    · intro k g hk1 hk2 hg
      by_cases hki : k = i
      · subst hki
        have hgk : g = gs[k] := by
          rw [hgi] at hg
          exact (Option.some.inj hg).symm
        have hset : gs'[k]? = some r.1 := by
          rw [hout k (by omega), List.getElem?_set_self hi]
        refine ⟨⟨r.1, hset, hmeas⟩, ?_, ?_⟩
        · intro hm
          rw [hset, hgk, hsame (by rw [← hgk]; exact hm)]
        · intro hm hc
          rw [hset, hgk, hinv (by rw [← hgk]; exact hm) (by rw [← hgk]; exact hc)]
      · have hg' : (gs.set i r.1)[k]? = some g := by
          rw [List.getElem?_set_ne (fun e => hki e.symm)]
          exact hg
        exact hin k g (by omega) (by omega) hg'

theorem set_getElem_same (gs : List MFLTGlyph) (i : Nat) (h : i < gs.length) :
    gs.set i gs[i] = gs := by
  apply List.ext_getElem?
  intro k
  by_cases hk : i = k
  · subst hk
    rw [List.getElem?_set_self h, List.getElem?_eq_getElem h]
  · rw [List.getElem?_set_ne hk]

theorem get_metrics_loop_measured (E : Shaper) (font : MFLTFontFT) :
    ∀ (n i : Nat) (gs : List MFLTGlyph) (log : List ShapeCall), i + n ≤ gs.length →
    (∀ (j : Nat) (g : MFLTGlyph), i ≤ j → j < i + n → gs[j]? = some g → g.measured = true) →
    get_metrics_loop E font n i gs log = some (gs, log) := by
  intro n
  induction n with
  | zero => intro i gs log _ _; rfl
  | succ n ih =>
    intro i gs log hlen hall
    have hi : i < gs.length := by omega
    have hgi : gs[i]? = some gs[i] := List.getElem?_eq_getElem hi
    have hm := hall i gs[i] (le_refl _) (by omega) hgi
    rw [get_metrics_loop, hgi]
    simp only [measure_glyph, hm, if_true]
    rw [set_getElem_same gs i hi]
    exact ih (i + 1) gs log (by omega) (fun j g h1 h2 hg => hall j g (by omega) (by omega) hg)

/-- C26 (counterexample): for a glyph that is not measured, has a
valid code and cannot be loaded, `ftfont_get_metrics` stops at `abort ()` and
returns nothing. -/
theorem ftfont_get_metrics_counterexample :
    ftfont_get_metrics failingShaper {} unmeasuredInput.in_ 0 2 [] = none ∧
    (unmeasuredInput.in_.map (fun g => (g.measured, g.code))) = [(false, 73), (false, 76)] ∧
    failingShaper.FT_Load_Glyph 73 = none := by
  decide

/-- C26 (amended): for every glyph string and range `[from, to)` inside it such
that every glyph of the range that is not measured and has a valid code can be
loaded by `FT_Load_Glyph`, `ftfont_get_metrics` returns 0; it leaves every
glyph outside the range and every measured glyph unchanged; it gives each
unmeasured glyph with the code `FONT_INVALID_CODE` `lbearing = 0`,
`rbearing = xadv = space_width << 6`, `ascent = ascent << 6` and
`descent = descent << 6` of the font (64 times the value when that fits in an
`int`), `yadv = 0` and `measured = 1`; every glyph of the range is measured
afterwards; and a second call on the result changes nothing, makes no library
call and returns 0 again. -/
theorem ftfont_get_metrics_spec (E : Shaper) (font : MFLTFontFT) (gs : List MFLTGlyph)
    (from_ to_ : Nat) (log : List ShapeCall) (hrange : from_ ≤ to_) (hlen : to_ ≤ gs.length)
    (hload : ∀ (k : Nat) (g : MFLTGlyph), from_ ≤ k → k < to_ → gs[k]? = some g →
      g.measured = false → g.code ≠ FONT_INVALID_CODE → (E.FT_Load_Glyph g.code).isSome) :
    ∃ gs' log', ftfont_get_metrics E font gs from_ to_ log = some (0, gs', log') ∧
      gs'.length = gs.length ∧
      (∀ k g, gs[k]? = some g → k < from_ ∨ to_ ≤ k ∨ g.measured = true → gs'[k]? = some g) ∧
      (∀ k g, from_ ≤ k → k < to_ → gs[k]? = some g → g.measured = false →
        g.code = FONT_INVALID_CODE →
        gs'[k]? = some
          { g with lbearing := 0, rbearing := int32 (font.space_width * 64),
                   xadv := int32 (font.space_width * 64),
                   ascent := int32 (font.ascent * 64),
                   descent := int32 (font.descent * 64),
                   yadv := 0, measured := true }) ∧
      (∀ v : Int, -33554432 ≤ v → v < 33554432 → int32 (v * 64) = 64 * v) ∧
      (∀ k g', from_ ≤ k → k < to_ → gs'[k]? = some g' → g'.measured = true) ∧
      ftfont_get_metrics E font gs' from_ to_ log' = some (0, gs', log') := by
  obtain ⟨gs', log', hloop, hlen', hout, hin⟩ :=
    get_metrics_loop_spec E font (to_ - from_) from_ gs log (by omega) (by
      intro j g hj1 hj2 hg
      by_cases hm : g.measured = true
      · exact Or.inl hm
      · by_cases hc : g.code = FONT_INVALID_CODE
        · exact Or.inr (Or.inl hc)
        · exact Or.inr (Or.inr (hload j g hj1 (by omega) hg (by simpa using hm) hc)))
  have hmeas : ∀ k g', from_ ≤ k → k < to_ → gs'[k]? = some g' → g'.measured = true := by
    intro k g' hk1 hk2 hg'
    have hk : k < gs.length := by omega
    obtain ⟨⟨g'', h1, h2⟩, _, _⟩ := hin k gs[k] hk1 (by omega) (List.getElem?_eq_getElem hk)
    rw [hg'] at h1
    rw [Option.some.inj h1]
    exact h2
  refine ⟨gs', log', ?_, hlen', ?_, ?_, ?_, hmeas, ?_⟩
  · unfold ftfont_get_metrics
    rw [hloop]
  · intro k g hg hk
    by_cases hr : from_ ≤ k ∧ k < to_
    · rcases hk with hk | hk | hk
      · omega
      · omega
      · exact (hin k g hr.1 (by omega) hg).2.1 hk
    · rw [hout k (by omega)]
      exact hg
  · intro k g hk1 hk2 hg hm hc
    exact (hin k g hk1 (by omega) hg).2.2 hm hc
  · intro v h1 h2
    rw [int32_of_range _ (by omega) (by omega)]
    ring
  · unfold ftfont_get_metrics
    rw [get_metrics_loop_measured E font (to_ - from_) from_ gs' log' (by omega) (by
      intro j g h1 h2 hg
      exact hmeas j g h1 (by omega) hg)]

/-- Witness for C26: the range `[1, 3)` of three glyphs, of which the first is
measured and outside the range, the second has no glyph id, and the third can
be loaded; the font has space width 7, ascent 10 and descent 3. -/
theorem ftfont_get_metrics_spec_witness :
    (1 ≤ 3 ∧ 3 ≤ mixedGlyphs.length) ∧
    ∃ gs' log', ftfont_get_metrics noTablesShaper sampleFltFont mixedGlyphs 1 3 [] =
        some (0, gs', log') ∧
      gs'[0]? = some fGlyph ∧
      gs'[1]? = some { unmappedGlyph with rbearing := 448, xadv := 448, ascent := 640,
                                          descent := 192, measured := true } ∧
      ftfont_get_metrics noTablesShaper sampleFltFont gs' 1 3 log' = some (0, gs', log') := by
  obtain ⟨gs', log', h, _, hframe, hinv, _, _, hidem⟩ :=
    ftfont_get_metrics_spec noTablesShaper sampleFltFont mixedGlyphs 1 3 [] (by decide)
      (by decide) (fun _ _ _ _ _ _ _ => rfl)
  exact ⟨by decide, gs', log', h, hframe 0 fGlyph rfl (Or.inl (by decide)),
    hinv 1 unmappedGlyph (by decide) (by decide) rfl rfl rfl, hidem⟩

/-! ## Text extents -/

theorem extend_metrics_bounds (m : FT_Glyph_Metrics) (width : Int) (first : Bool)
    (mt : font_metrics) :
    (extend_metrics m width first mt).descent ≤ asr6 (m.height - m.horiBearingY) ∧
    asr6 m.horiBearingY ≤ (extend_metrics m width first mt).ascent ∧
    (extend_metrics m width first mt).width = mt.width ∧
    (first = false → (extend_metrics m width first mt).descent ≤ mt.descent ∧
      mt.ascent ≤ (extend_metrics m width first mt).ascent) := by
  unfold extend_metrics
  simp only []
  cases first
  · simp only [Bool.false_eq_true, if_false, apply_ite font_metrics.descent,
      apply_ite font_metrics.ascent, apply_ite font_metrics.width,
      apply_ite font_metrics.lbearing, apply_ite font_metrics.rbearing, ite_self]
    split_ifs <;> simp <;> omega
  · simp only [if_true, apply_ite font_metrics.descent,
      apply_ite font_metrics.ascent, apply_ite font_metrics.width,
      apply_ite font_metrics.lbearing, apply_ite font_metrics.rbearing, ite_self]
    exact ⟨le_refl _, le_refl _, trivial, fun h => absurd h (by simp)⟩

theorem extents_fold (E : Shaper) (space_width : Int) :
    ∀ (code : List Nat) (s : ExtentsState) (mt : font_metrics), s.metrics = some mt →
    ∃ mt', (code.foldl (extents_step E space_width) s).metrics = some mt' ∧
      mt'.width = mt.width ∧
      (∀ c ∈ code, ∀ m, E.FT_Load_Glyph c = some m →
        mt'.descent ≤ asr6 (m.height - m.horiBearingY) ∧ asr6 m.horiBearingY ≤ mt'.ascent) ∧
      (s.first = false → mt'.descent ≤ mt.descent ∧ mt.ascent ≤ mt'.ascent) ∧
      ((∀ c ∈ code, E.FT_Load_Glyph c = none) → mt' = mt) := by
  intro code
  induction code with
  | nil =>
    intro s mt hs
    exact ⟨mt, hs, rfl, fun c hc => absurd hc (by simp), fun _ => ⟨le_refl _, le_refl _⟩,
      fun _ => rfl⟩
  | cons c rest ih =>
    intro s mt hs
    rw [List.foldl_cons]
    cases hload : E.FT_Load_Glyph c with
    | none =>
      have hstep : extents_step E space_width s c =
          { s with width := int32 (s.width + space_width),
                   log := s.log ++ [ShapeCall.FT_Load_Glyph c false] } := by
        unfold extents_step
        simp only [hload]
      obtain ⟨mt', h1, hw, h2, h3, h4⟩ := ih (extents_step E space_width s c) mt
        (by rw [hstep]; exact hs)
      refine ⟨mt', h1, hw, ?_, ?_, ?_⟩
      · intro c' hc' m hm
        rcases List.mem_cons.mp hc' with e | e
        · rw [e, hload] at hm
          exact absurd hm (by simp)
        · exact h2 c' e m hm
      · intro hf
        exact h3 (by rw [hstep]; exact hf)
      · intro hall
        exact h4 (fun c' hc' => hall c' (List.mem_cons_of_mem _ hc'))
    | some m =>
      have hstep : extents_step E space_width s c =
          { width := int32 (s.width + asr6 m.horiAdvance), first := false,
            metrics := s.metrics.map (extend_metrics m s.width s.first),
            log := s.log ++ [ShapeCall.FT_Load_Glyph c false] } := by
        unfold extents_step
        simp only [hload]
      obtain ⟨hb1, hb2, hbw, hb3⟩ := extend_metrics_bounds m s.width s.first mt
      obtain ⟨mt', h1, hw, h2, h3, _⟩ := ih (extents_step E space_width s c)
        (extend_metrics m s.width s.first mt) (by rw [hstep, hs]; rfl)
      have h3' := h3 (by rw [hstep])
      refine ⟨mt', h1, by rw [hw, hbw], ?_, ?_, ?_⟩
      · intro c' hc' m' hm'
        rcases List.mem_cons.mp hc' with e | e
        · rw [e, hload] at hm'
          have : m = m' := Option.some.inj hm'
          rw [← this]
          omega
        · exact h2 c' e m' hm'
      · intro hf
        have := hb3 hf
        omega
      · intro hall
        have := hall c (List.mem_cons_self _ _)
        rw [hload] at this
        exact absurd this (by simp)

/-- C27: what `ftfont_text_extents` computes when `metrics` is not null.  The
width it returns is also stored in `metrics.width`; `metrics.ascent` is at
least the ascent of every glyph that loads; but `metrics.descent` is at most
the descent of every glyph that loads, the least descent and not the greatest,
the comparison of line 1407 being `>`.  When no glyph loads, all members but
`width` are 0. -/
theorem ftfont_text_extents_descent (E : Shaper) (font : ftfont_info) (active : Option Nat)
    (code : List Nat) (m0 : font_metrics) (log : List ShapeCall) :
    ∃ mt, (ftfont_text_extents E font active code (some m0) log).2.1 = some mt ∧
      mt.width = (ftfont_text_extents E font active code (some m0) log).1 ∧
      (∀ c ∈ code, ∀ m, E.FT_Load_Glyph c = some m →
        mt.descent ≤ asr6 (m.height - m.horiBearingY) ∧ asr6 m.horiBearingY ≤ mt.ascent) ∧
      ((∀ c ∈ code, E.FT_Load_Glyph c = none) →
        mt = { width := (ftfont_text_extents E font active code (some m0) log).1 }) := by
  unfold ftfont_text_extents
  simp only [Option.map_some']
  obtain ⟨mt', h1, hw, h2, _, h4⟩ := extents_fold E font.space_width code
    { width := 0, first := true, metrics := some {},
      log := if font.ft_size ≠ active then log ++ [ShapeCall.FT_Activate_Size font.ft_size]
             else log } {} rfl
  rw [h1]
  refine ⟨_, rfl, rfl, h2, ?_⟩
  intro hall
  rw [h4 hall]

/-- The divergence of C27 on a concrete input: glyph 1 has descent 2 and
glyph 2 has descent 5; the call reports the width 18, the ascent 8 and the
descent 2, where the greatest descent is 5. -/
theorem ftfont_text_extents_descent_witness :
    ftfont_text_extents twoGlyphShaper sampleFont sampleFont.ft_size [1, 2] (some {}) []
      = (18, some { lbearing := 1, rbearing := 17, width := 18, ascent := 8, descent := 2 },
         [ShapeCall.FT_Load_Glyph 1 false, ShapeCall.FT_Load_Glyph 2 false]) ∧
    (twoGlyphShaper.FT_Load_Glyph 2).map (fun m => asr6 (m.height - m.horiBearingY)) = some 5 ∧
    ∃ mt, (ftfont_text_extents twoGlyphShaper sampleFont sampleFont.ft_size [1, 2] (some {})
        []).2.1 = some mt ∧
      mt.descent ≤ 2 := by
  obtain ⟨mt, h, _, hd, _⟩ := ftfont_text_extents_descent twoGlyphShaper sampleFont
    sampleFont.ft_size [1, 2] {} []
  exact ⟨by decide, by decide, mt, h, (hd 1 (by decide) _ rfl).1⟩

/-! ## The ranges of attached glyphs -/

theorem set_range_spec :
    ∀ (n j : Nat) (r : Int × Int) (gs gs' : List MFLTGlyph), set_range n j r gs = some gs' →
    gs'.length = gs.length ∧
    (∀ k, j ≤ k → k < j + n →
      gs'[k]? = (gs[k]?).map (fun x => { x with from_ := r.1, to_ := r.2 })) ∧
    (∀ k, k < j ∨ j + n ≤ k → gs'[k]? = gs[k]?) := by
  intro n
  induction n with
  | zero =>
    intro j r gs gs' h
    simp only [set_range, Option.some.injEq] at h
    rw [← h]
    exact ⟨rfl, fun k h1 h2 => by omega, fun _ _ => rfl⟩
  | succ n ih =>
    intro j r gs gs' h
    rw [set_range] at h
    split at h
    · exact absurd h (by simp)
    · rename_i x hx
      have hj : j < gs.length := (List.getElem?_eq_some_iff.mp hx).1
      obtain ⟨h1, h2, h3⟩ := ih (j + 1) r _ gs' h
      refine ⟨by rw [h1]; simp, ?_, ?_⟩
      · intro k hk1 hk2
        by_cases hkj : k = j
        · subst hkj
          rw [h3 k (by omega), List.getElem?_set_self hj, hx]
          rfl
        · rw [h2 k (by omega) (by omega), List.getElem?_set_ne (fun e => hkj e.symm)]
      · intro k hk
        rw [h3 k (by omega), List.getElem?_set_ne (by omega)]

theorem mark_adjust_glyphs (E : Shaper) (i g prev : Nat) (otfg : OTF_Glyph) (s s' : PosState)
    (h : mark_adjust E i g prev otfg s = some s') :
    ∃ gl r, s.glyphs[g]? = some gl ∧
      merge_range s.glyphs (g - prev) (prev : Int) (gl.from_, gl.to_) = some r ∧
      set_range (g + 1 - prev) prev r s.glyphs = some s'.glyphs := by
  unfold mark_adjust at h
  simp only [] at h
  split at h
  · exact absurd h (by simp)
  · split at h
    · rename_i m a gl _ _ hgl
      split at h
      · exact absurd h (by simp)
      · rename_i r hr
        split at h
        · exact absurd h (by simp)
        · rename_i glyphs hglyphs
          simp only [Option.some.injEq] at h
          rw [← h]
          exact ⟨gl, r, hgl, hr, hglyphs⟩
    · exact absurd h (by simp)

theorem mark_adjust_ranges (E : Shaper) (i g prev : Nat) (otfg : OTF_Glyph) (s s' : PosState)
    (h : mark_adjust E i g prev otfg s = some s') (hprev : prev ≤ g) :
    s'.glyphs.length = s.glyphs.length ∧
    ∃ lo hi : Int,
      (∀ k x, prev ≤ k → k ≤ g → s.glyphs[k]? = some x →
        lo ≤ x.from_ ∧ x.to_ ≤ hi ∧ s'.glyphs[k]? = some { x with from_ := lo, to_ := hi }) ∧
      (∃ k x, prev ≤ k ∧ k ≤ g ∧ s.glyphs[k]? = some x ∧ lo = x.from_) ∧
      (∃ k x, prev ≤ k ∧ k ≤ g ∧ s.glyphs[k]? = some x ∧ hi = x.to_) ∧
      (∀ k, k < prev ∨ g < k → s'.glyphs[k]? = s.glyphs[k]?) := by
  obtain ⟨gl, r, hgl, hmerge, hset⟩ := mark_adjust_glyphs E i g prev otfg s s' h
  have hglen : g < s.glyphs.length := (List.getElem?_eq_some_iff.mp hgl).1
  obtain ⟨r', hr', hle1, hle2, hall, hex1, hex2⟩ :=
    merge_range_spec s.glyphs (g - prev) (prev : Int) (gl.from_, gl.to_) (by omega) (by omega)
  rw [hmerge] at hr'
  have hrr : r = r' := Option.some.inj hr'
  subst hrr
  obtain ⟨hlen, hin, hout⟩ := set_range_spec (g + 1 - prev) prev r s.glyphs s'.glyphs hset
  refine ⟨hlen, r.1, r.2, ?_, ?_, ?_, ?_⟩
  · intro k x hk1 hk2 hx
    have hset' : s'.glyphs[k]? = some { x with from_ := r.1, to_ := r.2 } := by
      rw [hin k hk1 (by omega), hx]
      rfl
    by_cases hkg : k = g
    · subst hkg
      rw [hgl] at hx
      have : gl = x := Option.some.inj hx
      subst this
      exact ⟨hle1, hle2, hset'⟩
    · have := hall (k : Int) x (by omega) (by omega) (by rw [glyph_at_natCast]; exact hx)
      exact ⟨this.1, this.2, hset'⟩
  · rcases hex1 with e | ⟨k, x, hk1, hk2, hx, e⟩
    · exact ⟨g, gl, hprev, le_refl _, hgl, e⟩
    · have hk0 : 0 ≤ k := by omega
      refine ⟨k.toNat, x, by omega, by omega, ?_, e⟩
      rw [← glyph_at_natCast, Int.toNat_of_nonneg hk0]
      exact hx
  · rcases hex2 with e | ⟨k, x, hk1, hk2, hx, e⟩
    · exact ⟨g, gl, hprev, le_refl _, hgl, e⟩
    · have hk0 : 0 ≤ k := by omega
      refine ⟨k.toNat, x, by omega, by omega, ?_, e⟩
      rw [← glyph_at_natCast, Int.toNat_of_nonneg hk0]
      exact hx
  · intro k hk
    exact hout k (by omega)

/-- C28: in the positioning loop, a step that applies a mark attachment to
the glyph `g = gidx + i` with the attachment target `p` (the current base for
positioning type 4 or 5, the current mark for type 6; `p` at or before `g`)
and completes leaves the glyphs of `out` as follows: every glyph from `p`
through `g` has the range `[lo, hi]` and is otherwise unchanged, `lo` being
the least `from` and `hi` the greatest `to` that the glyphs `p` .. `g` had
before the step; the glyphs before `p` and after `g` are unchanged, and so is
the number of glyphs.  The step completes when both anchors are in the
fixed-coordinate format 1 and `adjustment[i]` and the glyph exist. -/
theorem gpos_step_attachment_ranges (E : Shaper) (gidx i p : Nat) (otfg : OTF_Glyph)
    (s : PosState) (hid : otfg.glyph_id ≠ 0)
    (htype : ((otfg.positioning_type = 4 ∨ otfg.positioning_type = 5) ∧ s.base = some p) ∨
      (otfg.positioning_type = 6 ∧ s.mark = some p))
    (hp : p ≤ gidx + i) :
    (∀ s1, gpos_step E gidx i otfg s = some s1 →
      s1.glyphs.length = s.glyphs.length ∧
      ∃ lo hi : Int,
        (∀ k x, p ≤ k → k ≤ gidx + i → s.glyphs[k]? = some x →
          lo ≤ x.from_ ∧ x.to_ ≤ hi ∧
          s1.glyphs[k]? = some { x with from_ := lo, to_ := hi }) ∧
        (∃ k x, p ≤ k ∧ k ≤ gidx + i ∧ s.glyphs[k]? = some x ∧ lo = x.from_) ∧
        (∃ k x, p ≤ k ∧ k ≤ gidx + i ∧ s.glyphs[k]? = some x ∧ hi = x.to_) ∧
        (∀ k, k < p ∨ gidx + i < k → s1.glyphs[k]? = s.glyphs[k]?)) ∧
    (otfg.base_anchor.AnchorFormat = 1 → otfg.mark_anchor.AnchorFormat = 1 →
      (s.adjustment[i]?).isSome → (s.glyphs[gidx + i]?).isSome →
      ∃ s1, gpos_step E gidx i otfg s = some s1) := by
  have hsw : gpos_switch E i (gidx + i) otfg s = mark_adjust E i (gidx + i) p otfg s := by
    unfold gpos_switch
    rcases htype with ⟨h45, hbase⟩ | ⟨h6, hmark⟩
    · rw [if_neg (by omega), if_neg (by omega), if_neg (by omega), if_pos h45, hbase]
    · rw [if_neg (by omega), if_neg (by omega), if_neg (by omega), if_neg (by omega), hmark]
  constructor
  · intro s1 hs1
    unfold gpos_step at hs1
    rw [if_neg hid, hsw] at hs1
    split at hs1
    · exact absurd hs1 (by simp)
    · rename_i s0 hs0
      simp only [Option.some.injEq] at hs1
      have hgl : s1.glyphs = s0.glyphs := by
        rw [← hs1]
        unfold track_class
        split
        · rfl
        · split <;> rfl
      rw [hgl]
      exact mark_adjust_ranges E i (gidx + i) p otfg s s0 hs0 hp
  · intro hb hm ha hg
    obtain ⟨a, ha'⟩ := Option.isSome_iff_exists.mp ha
    obtain ⟨gl, hg'⟩ := Option.isSome_iff_exists.mp hg
    obtain ⟨s1, hs1, _⟩ := mark_adjust_fixed E i (gidx + i) p otfg s a gl hb hm ha' hg' hp
    unfold gpos_step
    rw [if_neg hid, hsw, hs1]
    exact ⟨_, rfl⟩

/-- Witness for C28: the mark of the scenario of the specification, glyph 1
with the range `[1, 1]`, attached to the base glyph 0 with the range `[0, 0]`:
after the call both glyphs have the range `[0, 1]`. -/
theorem gpos_step_attachment_ranges_witness :
    (ftfont_drive_otf markShaper {} markSpec 0 2 markInput).map
        (fun r => r.2.out.glyphs.map (fun x => (x.code, x.from_, x.to_)))
      = some [(10, 0, 1), (20, 0, 1)] ∧
    ∃ s1, gpos_step markShaper 0 1 markRecord markPosState = some s1 ∧
      s1.glyphs.length = markPosState.glyphs.length ∧
      ∃ lo hi : Int,
        (∀ k x, 0 ≤ k → k ≤ 0 + 1 → markPosState.glyphs[k]? = some x →
          lo ≤ x.from_ ∧ x.to_ ≤ hi ∧
          s1.glyphs[k]? = some { x with from_ := lo, to_ := hi }) ∧
        (∃ k x, 0 ≤ k ∧ k ≤ 0 + 1 ∧ markPosState.glyphs[k]? = some x ∧ lo = x.from_) ∧
        (∃ k x, 0 ≤ k ∧ k ≤ 0 + 1 ∧ markPosState.glyphs[k]? = some x ∧ hi = x.to_) ∧
        (∀ k, k < 0 ∨ 0 + 1 < k → s1.glyphs[k]? = markPosState.glyphs[k]?) := by
  have h := gpos_step_attachment_ranges markShaper 0 1 0 markRecord markPosState (by decide)
    (Or.inl ⟨Or.inl (by decide), by decide⟩) (by decide)
  obtain ⟨s1, hs1⟩ := h.2 (by decide) (by decide) (by decide) (by decide)
  exact ⟨by decide, s1, hs1, h.1 s1 hs1⟩

/-! ## Checking the features of a face -/

theorem tags_loop_enabled :
    ∀ (as done : List Nat) (r : Nat) (rest : List Nat),
    (∀ a ∈ as, a ≠ 0xFFFFFFFF) → as.length ≤ r →
    tags_loop (as ++ rest) done.length false (done.map some ++ List.replicate r none) =
      tags_loop rest (done.length + as.length) false
        ((done ++ as).map some ++ List.replicate (r - as.length) none) := by
  intro as
  induction as with
  | nil => intro done r rest _ _; simp
  | cons a as ih =>
    intro done r rest hm hr
    have ha : a ≠ 0xFFFFFFFF := hm a (List.mem_cons_self _ _)
    have hr2 : as.length + 1 ≤ r := by simpa using hr
    have hr' : r = (r - 1) + 1 := by omega
    rw [List.cons_append, tags_loop, if_neg (by simpa using ha)]
    simp only [Bool.false_eq_true, if_false]
    rw [if_pos (by simp; omega)]
    have hset : (done.map some ++ List.replicate r none).set done.length (some a)
        = (done ++ [a]).map some ++ List.replicate (r - 1) none := by
      rw [hr', List.replicate_succ]
      simp [List.set_append]
    rw [hset]
    have := ih (done ++ [a]) (r - 1) rest (fun x hx => hm x (List.mem_cons_of_mem _ hx))
      (by omega)
    simp only [List.length_append, List.length_singleton, List.append_assoc,
      List.singleton_append] at this
    rw [this]
    simp only [List.length_cons]
    have e1 : r - 1 - as.length = r - (as.length + 1) := by omega
    have e2 : done.length + 1 + as.length = done.length + (as.length + 1) := by omega
    rw [e1, e2]

theorem tags_loop_disabled :
    ∀ (bs done : List Nat) (r : Nat),
    (∀ b ∈ bs, b ≠ 0xFFFFFFFF) → bs.length ≤ r →
    tags_loop bs (done.length + 1) true (done.map some ++ List.replicate r none) =
      some ((done ++ bs.map (fun t => t ||| 0x80000000)).map some
        ++ List.replicate (r - bs.length) none, true) := by
  intro bs
  induction bs with
  | nil => intro done r _ _; simp [tags_loop]
  | cons b bs ih =>
    intro done r hm hr
    have hb : b ≠ 0xFFFFFFFF := hm b (List.mem_cons_self _ _)
    have hr2 : bs.length + 1 ≤ r := by simpa using hr
    have hr' : r = (r - 1) + 1 := by omega
    rw [tags_loop, if_neg (by simpa using hb)]
    simp only [if_true, Nat.add_sub_cancel]
    rw [if_pos (by simp; omega)]
    have hset : (done.map some ++ List.replicate r none).set done.length
          (some (b ||| 0x80000000))
        = (done ++ [b ||| 0x80000000]).map some ++ List.replicate (r - 1) none := by
      rw [hr', List.replicate_succ]
      simp [List.set_append]
    rw [hset]
    have := ih (done ++ [b ||| 0x80000000]) (r - 1)
      (fun x hx => hm x (List.mem_cons_of_mem _ hx)) (by omega)
    simp only [List.length_append, List.length_singleton, List.append_assoc,
      List.singleton_append] at this
    rw [this]
    simp only [List.length_cons, List.map_cons]
    have e1 : r - 1 - bs.length = r - (bs.length + 1) := by omega
    rw [e1]

theorem read_tags_map_some (l : List Nat) : read_tags (l.map some) = some l := by
  induction l with
  | nil => rfl
  | cons a l ih => simp [read_tags, ih]

theorem tags_loop_feature_list (l : FeatureList) (h : l.valid = true) :
    tags_loop (l.enabled ++ (if l.marker then 0xFFFFFFFF :: l.disabled else [])) 0 false
        (List.replicate
          (l.enabled ++ (if l.marker then 0xFFFFFFFF :: l.disabled else [])).length none) =
      some (l.tags.map some ++ List.replicate (if l.marker then 1 else 0) none, l.marker) := by
  unfold FeatureList.valid at h
  simp only [List.all_eq_true, List.mem_append, Bool.and_eq_true, bne_iff_ne, ne_eq] at h
  have hen : ∀ a ∈ l.enabled, a ≠ 0xFFFFFFFF := fun a ha => (h a (Or.inl ha)).2
  have hdis : ∀ b ∈ l.disabled, b ≠ 0xFFFFFFFF := fun b hb => (h b (Or.inr hb)).2
  have hA := tags_loop_enabled l.enabled [] 
    (l.enabled ++ (if l.marker then 0xFFFFFFFF :: l.disabled else [])).length
    (if l.marker then 0xFFFFFFFF :: l.disabled else []) hen (by simp)
  simp only [List.length_nil, List.map_nil, List.nil_append, Nat.zero_add] at hA
  rw [hA]
  unfold FeatureList.tags
  cases hmk : l.marker
  · simp [tags_loop]
  · simp only [if_true, List.length_append, List.length_cons, Nat.add_sub_cancel_left]
    rw [tags_loop]
    simp only [beq_self_eq_true, if_true]
    have hB := tags_loop_disabled l.disabled l.enabled (l.disabled.length + 1) hdis (by omega)
    rw [hB]
    simp

theorem takeWhile_feature_list (l : FeatureList) (h : l.valid = true) :
    l.array.takeWhile (fun t => t != 0)
      = l.enabled ++ (if l.marker then 0xFFFFFFFF :: l.disabled else []) := by
  unfold FeatureList.valid at h
  simp only [List.all_eq_true, List.mem_append, Bool.and_eq_true, bne_iff_ne, ne_eq] at h
  unfold FeatureList.array
  have hall : ∀ t ∈ l.enabled ++ (if l.marker then 0xFFFFFFFF :: l.disabled else []),
      (t != 0) = true := by
    intro t ht
    rcases List.mem_append.mp ht with ht | ht
    · simpa using (h t (Or.inl ht)).1
    · cases hmk : l.marker
      · rw [hmk] at ht
        simp at ht
      · rw [hmk] at ht
        simp only [if_true, List.mem_cons] at ht
        rcases ht with ht | ht
        · rw [ht]; decide
        · simpa using (h t (Or.inr ht)).1
  rw [List.takeWhile_append_of_pos hall]
  simp

theorem check_stage_feature_list (E : Shaper) (spec : MFLTOtfSpec) (gsubp : Bool)
    (l : Option FeatureList) (log : List ShapeCall)
    (h : ∀ x, l = some x → x.valid = true) :
    check_stage E spec gsubp (l.map FeatureList.array) log =
      some (stage_passes E spec gsubp (stage_tags l), log ++ stage_calls spec gsubp (stage_tags l))
    := by
  cases l with
  | none => simp [check_stage, stage_passes, stage_calls, stage_tags]
  | some x =>
    have hx := h x rfl
    unfold check_stage
    simp only [Option.map_some', takeWhile_feature_list x hx, tags_loop_feature_list x hx]
    have hlen : (x.enabled ++ (if x.marker then 0xFFFFFFFF :: x.disabled else [])).length
        ≠ x.array.length := by
      unfold FeatureList.array
      simp
    rw [if_neg hlen]
    have hcount : (x.enabled ++ (if x.marker then 0xFFFFFFFF :: x.disabled else [])).length
        - (if x.marker = true then 1 else 0) = x.tags.length := by
      unfold FeatureList.tags
      cases x.marker <;> simp
    rw [hcount]
    have htake : (x.tags.map some ++ List.replicate (if x.marker = true then 1 else 0) none).take
        x.tags.length = x.tags.map some := by
      rw [List.take_append_of_le_length (by simp)]
      rw [List.take_of_length_le (by simp)]
    rw [htake, read_tags_map_some]
    simp only [stage_tags, Option.map_some', Option.getD_some, stage_passes, stage_calls]
    by_cases he : x.tags = []
    · simp [he]
    · have hpos : x.tags.length > 0 := List.length_pos.mpr he
      rw [if_pos hpos]
      simp [he]

/-- C29: for a spec whose two feature lists are each null or a zero-terminated
list `[a1 .. ak]` or `[a1 .. ak, 0xFFFFFFFF, b1 .. bm]` of tags (at most one
marker), `ftfont_check_otf` returns, and no write leaves the array `tags`.
For a stage whose list is null or gives no tags it makes no call; otherwise it
calls `OTF_check_features` with exactly the `k + m` tags
`[a1 .. ak, b1 | 0x80000000, .., bm | 0x80000000]`, for the substitution stage
first.  The positioning stage is looked at only when the substitution stage
has passed, and the value returned is 1 when every check made has returned 1,
and 0 otherwise. -/
theorem ftfont_check_otf_tags (E : Shaper) (spec : MFLTOtfSpec) (log : List ShapeCall)
    (l0 l1 : Option FeatureList)
    (h0 : spec.features0 = l0.map FeatureList.array)
    (h1 : spec.features1 = l1.map FeatureList.array)
    (hv0 : ∀ x, l0 = some x → x.valid = true) (hv1 : ∀ x, l1 = some x → x.valid = true) :
    ftfont_check_otf E spec log =
      some (if stage_passes E spec true (stage_tags l0) &&
               stage_passes E spec false (stage_tags l1) then 1 else 0,
            log ++ stage_calls spec true (stage_tags l0) ++
              (if stage_passes E spec true (stage_tags l0)
               then stage_calls spec false (stage_tags l1) else [])) ∧
    (∀ x, l0 = some x → (stage_tags l0).length = x.enabled.length +
      (if x.marker then x.disabled.length else 0)) := by
  constructor
  · unfold ftfont_check_otf
    rw [h0, h1, check_stage_feature_list E spec true l0 log hv0]
    simp only []
    cases hp0 : stage_passes E spec true (stage_tags l0)
    · simp
    · simp only [Bool.not_true, Bool.false_eq_true, if_false, Bool.true_and, if_true]
      rw [check_stage_feature_list E spec false l1 _ hv1]
      simp only []
      cases hp1 : stage_passes E spec false (stage_tags l1) <;> simp
  · intro x hx
    rw [hx]
    simp only [stage_tags, Option.map_some', Option.getD_some, FeatureList.tags]
    cases x.marker <;> simp

/-- Witness for C29: the substitution list `[liga, 0xFFFFFFFF, kern, clig]`
and no positioning list.  One check is made, of the substitution stage with
the tags `[liga, kern | 0x80000000, clig | 0x80000000]`, and the function
returns 1; a face that fails that check gives 0. -/
theorem ftfont_check_otf_tags_witness :
    checkSpec.features0 = (some ligaNotKernClig).map FeatureList.array ∧
    ligaNotKernClig.valid = true ∧
    ftfont_check_otf checkShaper checkSpec [] =
      some (1, [ShapeCall.OTF_check_features true 0x6C61746E 0
        [0x6C696761, 0xEB65726E, 0xE36C6967]]) ∧
    ftfont_check_otf {} checkSpec [] =
      some (0, [ShapeCall.OTF_check_features true 0x6C61746E 0
        [0x6C696761, 0xEB65726E, 0xE36C6967]]) :=
  ⟨by decide, by decide,
   (ftfont_check_otf_tags checkShaper checkSpec [] (some ligaNotKernClig) none (by decide) rfl
     (by intro x hx; cases hx; decide) (by intro x hx; cases hx)).1.trans (by decide),
   by decide⟩

/-! ## Tags and their names -/

theorem tag_or_eq_add (b0 b1 b2 b3 : Nat) (h1 : b1 < 256) (h2 : b2 < 256) (h3 : b3 < 256) :
    (b0 <<< 24 ||| b1 <<< 16 ||| b2 <<< 8 ||| b3)
      = b0 * 2 ^ 24 + b1 * 2 ^ 16 + b2 * 2 ^ 8 + b3 := by
  simp only [Nat.shiftLeft_eq]
  have e1 : b0 * 2 ^ 24 ||| b1 * 2 ^ 16 = b0 * 2 ^ 24 + b1 * 2 ^ 16 := by
    have := Nat.mul_add_lt_is_or (i := 24) (b := b1 * 2 ^ 16) (by omega) b0
    rw [Nat.mul_comm (2 ^ 24) b0] at this
    exact this.symm
  have e2 : b0 * 2 ^ 24 + b1 * 2 ^ 16 ||| b2 * 2 ^ 8
      = b0 * 2 ^ 24 + b1 * 2 ^ 16 + b2 * 2 ^ 8 := by
    have := Nat.mul_add_lt_is_or (i := 16) (b := b2 * 2 ^ 8) (by omega) (b0 * 2 ^ 8 + b1)
    have e : 2 ^ 16 * (b0 * 2 ^ 8 + b1) = b0 * 2 ^ 24 + b1 * 2 ^ 16 := by ring
    rw [e] at this
    exact this.symm
  have e3 : b0 * 2 ^ 24 + b1 * 2 ^ 16 + b2 * 2 ^ 8 ||| b3
      = b0 * 2 ^ 24 + b1 * 2 ^ 16 + b2 * 2 ^ 8 + b3 := by
    have := Nat.mul_add_lt_is_or (i := 8) (b := b3) (by omega) (b0 * 2 ^ 16 + b1 * 2 ^ 8 + b2)
    have e : 2 ^ 8 * (b0 * 2 ^ 16 + b1 * 2 ^ 8 + b2)
        = b0 * 2 ^ 24 + b1 * 2 ^ 16 + b2 * 2 ^ 8 := by ring
    rw [e] at this
    exact this.symm
  rw [e1, e2, e3]

theorem OTF_TAG_STR_of_bytes (b0 b1 b2 b3 : Nat) (h0 : b0 < 256) (h1 : b1 < 256) (h2 : b2 < 256)
    (h3 : b3 < 256) :
    OTF_TAG_STR (b0 * 2 ^ 24 + b1 * 2 ^ 16 + b2 * 2 ^ 8 + b3) = [b0, b1, b2, b3, 0] := by
  unfold OTF_TAG_STR
  have hff : (0xFF : Nat) = 2 ^ 8 - 1 := by norm_num
  simp only [hff, Nat.and_pow_two_sub_one_eq_mod, Nat.shiftRight_eq_div_pow]
  have e0 : (b0 * 2 ^ 24 + b1 * 2 ^ 16 + b2 * 2 ^ 8 + b3) / 2 ^ 24 % 256 = b0 := by omega
  have e1 : (b0 * 2 ^ 24 + b1 * 2 ^ 16 + b2 * 2 ^ 8 + b3) / 2 ^ 16 % 2 ^ 8 = b1 := by omega
  have e2 : (b0 * 2 ^ 24 + b1 * 2 ^ 16 + b2 * 2 ^ 8 + b3) / 2 ^ 8 % 2 ^ 8 = b2 := by omega
  have e3 : (b0 * 2 ^ 24 + b1 * 2 ^ 16 + b2 * 2 ^ 8 + b3) % 2 ^ 8 = b3 := by omega
  rw [e0, e1, e2, e3]

theorem OTF_SYM_TAG_of_chars (c0 c1 c2 c3 : Char) (h0 : c0.toNat < 256) (h1 : c1.toNat < 256)
    (h2 : c2.toNat < 256) (h3 : c3.toNat < 256) :
    OTF_SYM_TAG (sym (String.mk [c0, c1, c2, c3]))
      = c0.toNat * 2 ^ 24 + c1.toNat * 2 ^ 16 + c2.toNat * 2 ^ 8 + c3.toNat := by
  unfold OTF_SYM_TAG
  have n0 : name_byte (SYMBOL_NAME (sym (String.mk [c0, c1, c2, c3]))) 0 = c0.toNat := by
    simp [name_byte, SYMBOL_NAME, Nat.mod_eq_of_lt h0]
  have n1 : name_byte (SYMBOL_NAME (sym (String.mk [c0, c1, c2, c3]))) 1 = c1.toNat := by
    simp [name_byte, SYMBOL_NAME, Nat.mod_eq_of_lt h1]
  have n2 : name_byte (SYMBOL_NAME (sym (String.mk [c0, c1, c2, c3]))) 2 = c2.toNat := by
    simp [name_byte, SYMBOL_NAME, Nat.mod_eq_of_lt h2]
  have n3 : name_byte (SYMBOL_NAME (sym (String.mk [c0, c1, c2, c3]))) 3 = c3.toNat := by
    simp [name_byte, SYMBOL_NAME, Nat.mod_eq_of_lt h3]
  rw [n0, n1, n2, n3, tag_or_eq_add _ _ _ _ h1 h2 h3]
  omega

theorem string_of_length_four (s : String) (h : s.length = 4) :
    ∃ c0 c1 c2 c3, s = String.mk [c0, c1, c2, c3] := by
  obtain ⟨l⟩ := s
  simp only [String.length] at h
  match l, h with
  | [c0, c1, c2, c3], _ => exact ⟨c0, c1, c2, c3, rfl⟩

theorem open_type_spec_script_tag (H : Host) (P : Provider) (val : Lisp_Object) (st st' : FtState)
    (o : OpenTypeSpec) (h : ftfont_get_open_type_spec H P val st = (some o, st')) :
    o.script_tag = if !NILP (XCAR val) then OTF_SYM_TAG (XCAR val) else 0x44464C54 := by
  unfold ftfont_get_open_type_spec at h
  simp only [] at h
  split at h
  · simp at h
  · split at h
    · simp at h
    · simp only [Prod.mk.injEq, Option.some.injEq] at h
      rw [← h.1]

theorem spec_lang_otlayout (P : Provider) (val : Lisp_Object) (v v' : SpecLocals)
    (st st' : FtState) (h : spec_lang P val v st = (some v', st')) :
    v'.otlayout = v.otlayout := by
  unfold spec_lang at h
  simp only [] at h
  split at h
  · simp at h
  · rename_i langset _
    by_cases hs : SYMBOLP val = true
    · simp only [hs, if_true] at h
      generalize fc_call P (LibCall.FcLangSetAdd (SYMBOL_NAME val)) _ = r at h
      by_cases hr : r.1 = true
      · simp only [hr, Bool.not_true, Bool.false_eq_true, if_false, Prod.mk.injEq,
          Option.some.injEq] at h
        rw [← h.1]
      · simp only [hr, Bool.not_false, if_true, Prod.mk.injEq] at h
        exact absurd h.1 (by simp)
    · simp only [hs, Bool.false_eq_true, if_false] at h
      generalize add_langs P val langset _ = r at h
      simp only [Prod.mk.injEq, Option.map_eq_some'] at h
      obtain ⟨⟨l, _, hl⟩, _⟩ := h
      rw [← hl]

theorem spec_otf_otlayout (H : Host) (P : Provider) (val : Lisp_Object) (v v' : SpecLocals)
    (st st' : FtState) (h : spec_otf H P val v st = (some v', st')) (hv : v.otlayout = [0]) :
    v'.otlayout = "otlayout:".toList.map Char.toNat ++
      OTF_TAG_STR (if !NILP (XCAR val) then OTF_SYM_TAG (XCAR val) else 0x44464C54) := by
  unfold spec_otf at h
  simp only [] at h
  split at h
  · simp at h
  · rename_i o ho
    have htag := open_type_spec_script_tag H P val st _ o (Prod.ext ho rfl)
    simp only [Prod.mk.injEq, Option.some.injEq] at h
    rw [← h.1, hv, htag]
    rfl

theorem spec_extra_no_otf (H : Host) (P : Provider) :
    ∀ (extra : Lisp_Object) (v v' : SpecLocals) (st st' : FtState),
    otf_properties extra = [] → spec_extra H P extra v st = (some v', st') →
    v'.otlayout = v.otlayout := by
  intro extra
  induction extra with
  | nil => intro v v' st st' _ h; simp only [spec_extra, Prod.mk.injEq, Option.some.injEq] at h; rw [h.1]
  | sym s => intro v v' st st' _ h; simp only [spec_extra, Prod.mk.injEq, Option.some.injEq] at h; rw [h.1]
  | int n => intro v v' st st' _ h; simp only [spec_extra, Prod.mk.injEq, Option.some.injEq] at h; rw [h.1]
  | str s => intro v v' st st' _ h; simp only [spec_extra, Prod.mk.injEq, Option.some.injEq] at h; rw [h.1]
  | vec l => intro v v' st st' _ h; simp only [spec_extra, Prod.mk.injEq, Option.some.injEq] at h; rw [h.1]
  | cons x rest _ ih =>
    intro v v' st st' hno h
    rw [otf_properties] at hno
    have hkey : EQ (XCAR x) QCotf = false := by
      cases hk : EQ (XCAR x) QCotf
      · rfl
      · rw [hk] at hno
        simp at hno
    rw [hkey] at hno
    simp only [Bool.false_eq_true, if_false] at hno
    rw [spec_extra] at h
    simp only [hkey, Bool.false_eq_true, if_false] at h
    split at h
    · simp at h
    · rename_i v1 hv1
      rw [ih v1 v' _ st' hno h]
      split at hv1
      · simp only [Option.some.injEq] at hv1
        rw [← hv1]
      · split at hv1
        · exact spec_lang_otlayout P _ v v1 st _ (Prod.ext hv1 rfl)
        · split at hv1
          · simp only [Option.some.injEq] at hv1
            rw [← hv1]
          · split at hv1
            · simp only [Option.some.injEq] at hv1
              rw [← hv1]
            · simp only [Option.some.injEq] at hv1
              rw [← hv1]

theorem spec_extra_one_otf (H : Host) (P : Provider) :
    ∀ (extra : Lisp_Object) (val : Lisp_Object) (v v' : SpecLocals) (st st' : FtState),
    otf_properties extra = [val] → v.otlayout = [0] →
    spec_extra H P extra v st = (some v', st') →
    v'.otlayout = "otlayout:".toList.map Char.toNat ++
      OTF_TAG_STR (if !NILP (XCAR val) then OTF_SYM_TAG (XCAR val) else 0x44464C54) := by
  intro extra
  induction extra with
  | nil => intro val v v' st st' h; simp [otf_properties] at h
  | sym s => intro val v v' st st' h; simp [otf_properties] at h
  | int n => intro val v v' st st' h; simp [otf_properties] at h
  | str s => intro val v v' st st' h; simp [otf_properties] at h
  | vec l => intro val v v' st st' h; simp [otf_properties] at h
  | cons x rest _ ih =>
    intro val v v' st st' hone hv h
    rw [otf_properties] at hone
    rw [spec_extra] at h
    cases hk : EQ (XCAR x) QCotf
    · rw [hk] at hone
      simp only [Bool.false_eq_true, if_false] at hone
      simp only [hk, Bool.false_eq_true, if_false] at h
      split at h
      · simp at h
      · rename_i v1 hv1
        have hv1' : v1.otlayout = [0] := by
          rw [← hv]
          split at hv1
          · simp only [Option.some.injEq] at hv1
            rw [← hv1]
          · split at hv1
            · exact spec_lang_otlayout P _ v v1 st _ (Prod.ext hv1 rfl)
            · split at hv1
              · simp only [Option.some.injEq] at hv1
                rw [← hv1]
              · split at hv1
                · simp only [Option.some.injEq] at hv1
                  rw [← hv1]
                · simp only [Option.some.injEq] at hv1
                  rw [← hv1]
        exact ih val v1 v' _ st' hone hv1' h
    · rw [hk] at hone
      simp only [if_true, List.cons.injEq] at hone
      have hkey : XCAR x = QCotf := by simpa [EQ] using hk
      have hdpi : EQ (XCAR x) QCdpi = false := by rw [hkey]; decide
      have hlang : EQ (XCAR x) QClang = false := by rw [hkey]; decide
      simp only [hk, hdpi, hlang, Bool.false_eq_true, if_false, if_true] at h
      split at h
      · simp at h
      · rename_i v1 hv1
        rw [spec_extra_no_otf H P rest v1 v' _ st' hone.2 h, ← hone.1]
        exact spec_otf_otlayout H P _ v v1 st _ (Prod.ext hv1 rfl) hv

theorem ftfont_spec_pattern_otlayout (H : Host) (P : Provider) (spec : Font) (st st' : FtState)
    (sp : SpecPattern) (h : ftfont_spec_pattern H P spec st = (some sp, st')) :
    ∃ v0 st0 v st1, spec_extra H P spec.extra v0 st0 = (some v, st1) ∧ v0.otlayout = [0] ∧
      sp.otlayout = c_string v.otlayout := by
  unfold ftfont_spec_pattern at h
  simp only [] at h
  split at h
  · simp at h
  · split at h
    · simp at h
    · rename_i charset langset hreg
      split at h
      · simp at h
      · rename_i v hv
        split at h
        · simp at h
        · split at h
          · simp at h
          · simp only [Prod.mk.injEq, Option.some.injEq] at h
            refine ⟨_, _, v, _, Prod.ext hv rfl, rfl, ?_⟩
            rw [← h.1]

theorem c_string_capability (c0 c1 c2 c3 : Char) (h0 : c0.toNat ≠ 0) (h1 : c1.toNat ≠ 0)
    (h2 : c2.toNat ≠ 0) (h3 : c3.toNat ≠ 0) :
    c_string ("otlayout:".toList.map Char.toNat ++ [c0.toNat, c1.toNat, c2.toNat, c3.toNat, 0])
      = "otlayout:".toList ++ [c0, c1, c2, c3] := by
  have e : "otlayout:".toList.map Char.toNat = [111, 116, 108, 97, 121, 111, 117, 116, 58] := by
    decide
  have e' : "otlayout:".toList = [Char.ofNat 111, Char.ofNat 116, Char.ofNat 108, Char.ofNat 97,
      Char.ofNat 121, Char.ofNat 111, Char.ofNat 117, Char.ofNat 116, Char.ofNat 58] := by
    decide
  have b0 : (c0.toNat != 0) = true := by simpa using h0
  have b1 : (c1.toNat != 0) = true := by simpa using h1
  have b2 : (c2.toNat != 0) = true := by simpa using h2
  have b3 : (c3.toNat != 0) = true := by simpa using h3
  rw [e, e']
  simp [c_string, List.takeWhile, b0, b1, b2, b3, Char.ofNat_toNat]

/-- C30: for every name `s` of four bytes, `OTF_TAG_STR` applied to the tag
that `OTF_SYM_TAG` packs from the symbol `s` writes the four bytes of `s`
followed by a NUL; the packing is big-endian, the first byte of the name being
the most significant byte of the 32-bit tag; the default script tag
`0x44464C54` unpacks to `DFLT`; and whenever `ftfont_spec_pattern` builds a
pattern for a spec with one `:otf` property, the string it leaves in
`otlayout` is `otlayout:` followed by the script name, for a script `s` without
a zero byte, and `otlayout:DFLT` when the property gives no script. -/
theorem OTF_tag_round_trip (s : String) (hlen : s.length = 4)
    (hbyte : ∀ c ∈ s.toList, c.toNat < 256) :
    OTF_TAG_STR (OTF_SYM_TAG (sym s)) = s.toList.map Char.toNat ++ [0] ∧
    (∀ b0 b1 b2 b3, s.toList.map Char.toNat = [b0, b1, b2, b3] →
      OTF_SYM_TAG (sym s) = b0 * 2 ^ 24 + b1 * 2 ^ 16 + b2 * 2 ^ 8 + b3) ∧
    OTF_TAG_STR 0x44464C54 = "DFLT".toList.map Char.toNat ++ [0] ∧
    (∀ (H : Host) (P : Provider) (spec : Font) (st st' : FtState) (sp : SpecPattern)
        (val : Lisp_Object),
      otf_properties spec.extra = [val] →
      ftfont_spec_pattern H P spec st = (some sp, st') →
      (XCAR val = sym s → (∀ c ∈ s.toList, c.toNat ≠ 0) →
        sp.otlayout = "otlayout:".toList ++ s.toList) ∧
      (XCAR val = nil → sp.otlayout = "otlayout:DFLT".toList)) := by
  obtain ⟨c0, c1, c2, c3, rfl⟩ := string_of_length_four s hlen
  have h0 : c0.toNat < 256 := hbyte c0 (by simp)
  have h1 : c1.toNat < 256 := hbyte c1 (by simp)
  have h2 : c2.toNat < 256 := hbyte c2 (by simp)
  have h3 : c3.toNat < 256 := hbyte c3 (by simp)
  have htag := OTF_SYM_TAG_of_chars c0 c1 c2 c3 h0 h1 h2 h3
  have hstr := OTF_TAG_STR_of_bytes c0.toNat c1.toNat c2.toNat c3.toNat h0 h1 h2 h3
  refine ⟨?_, ?_, by decide, ?_⟩
  · rw [htag, hstr]
    rfl
  · intro b0 b1 b2 b3 hb
    have hb' : [c0.toNat, c1.toNat, c2.toNat, c3.toNat] = [b0, b1, b2, b3] := hb
    simp only [List.cons.injEq, and_true] at hb'
    obtain ⟨rfl, rfl, rfl, rfl⟩ := hb'
    exact htag
  · intro H P spec st st' sp val hone hres
    obtain ⟨v0, st0, v, st1, hextra, hv0, hsp⟩ := ftfont_spec_pattern_otlayout H P spec st st' sp hres
    have hlay := spec_extra_one_otf H P spec.extra val v0 v st0 st1 hone hv0 hextra
    constructor
    · intro hcar hnz
      rw [hsp, hlay, hcar]
      have hnil : (!NILP (sym (String.mk [c0, c1, c2, c3]))) = true := rfl
      rw [if_pos hnil, htag, hstr]
      exact c_string_capability c0 c1 c2 c3 (hnz c0 (by simp)) (hnz c1 (by simp))
        (hnz c2 (by simp)) (hnz c3 (by simp))
    · intro hcar
      rw [hsp, hlay, hcar]
      decide

/-- Witness for C30: the script `latn`.  Its tag is `0x6C61746E`, which
unpacks to `latn`; a spec with the property `:otf (latn)` gives the string
`otlayout:latn`, and one with `:otf (nil)` gives `otlayout:DFLT`. -/
theorem OTF_tag_round_trip_witness :
    ("latn".length = 4 ∧ ∀ c ∈ "latn".toList, c.toNat < 256) ∧
    OTF_SYM_TAG (sym "latn") = 0x6C61746E ∧
    OTF_TAG_STR (OTF_SYM_TAG (sym "latn")) = "latn".toList.map Char.toNat ++ [0] ∧
    ((ftfont_spec_pattern sampleHost okProvider latnSpec {}).1.map (fun sp => sp.otlayout)
      = some "otlayout:latn".toList) ∧
    ((ftfont_spec_pattern sampleHost okProvider noScriptSpec {}).1.map (fun sp => sp.otlayout)
      = some "otlayout:DFLT".toList) :=
  ⟨⟨by decide, by decide⟩, by decide,
   (OTF_tag_round_trip "latn" (by decide) (by decide)).1, by decide, by decide⟩

end Ftfont
